import Mathlib

/-! mango-go structured logger: embedding and verified properties

A shallow embedding of `pkg/mango_logger/mangoLogger.go`, `pkg/logger/values.go`,
`pkg/logger/config.go`, `pkg/logger/structuredLog.go` and `pkg/logger/syslogHandler.go`.

Stateful Go code is rendered as explicit state passing over `World`: the two console
streams, the rotating log writer, the syslog transport, the package variable
`REQUIRED_FIELDS` and the number of identifiers drawn from `uuid.New()`.
Library calls whose result the repository does not determine (time formatting, JSON
encoding, gojq, lumberjack, `log/syslog`, the random source) are fields of `Env`.
-/

namespace Mango

/-! ## Go values and errors -/

/-- Go values of static type `any` as they occur in contexts and attributes. `func`
stands for a value of function (or channel) kind, which `encoding/json` refuses. -/
inductive GoAny where
  | str (s : String)
  | int (n : Int)
  | bool (b : Bool)
  | func (id : Nat)
deriving DecidableEq, Repr

/-- The type assertion `v.(string)` applied to the result of a lookup. -/
def GoAny.assertString : Option GoAny → Option String
  | some (GoAny.str s) => some s
  | _ => none

/-- Go `error` values: `errors.New(s)` (also what `fmt.Errorf` without `%w` returns) and
the wrapper built by `fmt.Errorf` with one `%w`. Pointer identity of `errors.New`
values is approximated by equality of their text. -/
inductive GoError where
  | errorString (s : String)
  | wrapError (msg : String) (err : GoError)
deriving DecidableEq, Repr

/-- The method `Error()`. -/
def GoError.Error : GoError → String
  | .errorString s => s
  | .wrapError msg _ => msg

/-- The function `errors.Is(err, target)`: walk the `Unwrap` chain. -/
def GoError.Is : GoError → GoError → Bool
  | .errorString s, target => decide (GoError.errorString s = target)
  | .wrapError msg err, target =>
      decide (GoError.wrapError msg err = target) || GoError.Is err target

/-! ## values.go -/

/-- The named type `ctxKey` (a string). -/
abbrev ctxKey := String

def CORRELATION_ID : ctxKey := "correlationid"
def TYPE : ctxKey := "type"
def APPLICATION : ctxKey := "application"
def OPERATION : ctxKey := "operation"

def BusinessType : String := "Business"
def SecurityType : String := "Security"
def PerformanceType : String := "Performance"

/-- The package variable `ALLOWED_TYPES`. -/
def ALLOWED_TYPES : List String := [BusinessType, SecurityType, PerformanceType]

/-- The initial value of the package variable `REQUIRED_FIELDS`. -/
def REQUIRED_FIELDS_init : List ctxKey := [TYPE, APPLICATION, OPERATION]

/-- The layout constant `RFC3339NanoMC`. -/
def RFC3339NanoMC : String := "2006-01-02T15:04:05.999Z0700"

/-! ## Contexts -/

/-- A `context.Context` restricted to its `ctxKey`-typed keys: the chain of
`context.WithValue` wrappers, innermost (most recent) first. -/
abbrev Context := List (ctxKey × GoAny)

/-- The constructor `context.WithValue(parent, key, val)`. -/
def Context.WithValue (parent : Context) (key : ctxKey) (val : GoAny) : Context :=
  (key, val) :: parent

/-- The method `ctx.Value(key)`: the most recent binding of `key`, `nil` when absent. -/
def Context.Value : Context → ctxKey → Option GoAny
  | [], _ => none
  | (k, v) :: parent, key => if k = key then some v else Context.Value parent key

/-! ## slog records and attributes -/

/-- The type `slog.Level` (an `int`). -/
abbrev Level := Int

def LevelDebug : Level := -4
def LevelInfo : Level := 0
def LevelWarn : Level := 4
def LevelError : Level := 8

/-- The type `slog.Attr`; `Value` holds what `attr.Value.Any()` returns. -/
structure Attr where
  Key : String
  Value : GoAny
deriving DecidableEq, Repr

/-- A `time.Time`: seconds and nanoseconds of the instant and the zone offset. -/
structure Time where
  sec : Int
  nsec : Nat
  offset : Int
deriving DecidableEq, Repr

/-- The type `slog.Record`; `attrs` lists the attributes in the order `Record.Attrs`
visits them. -/
structure Record where
  Time : Time
  Level : Level
  Message : String
  attrs : List Attr
deriving DecidableEq, Repr

/-! ## Go maps -/

/-- A Go `map[string]V`: an association list with pairwise distinct keys. -/
abbrev GoMap (V : Type) := List (String × V)

/-- The assignment `m[k] = v`: overwrite the entry for `k`, or add one. -/
def GoMap.set {V : Type} : GoMap V → String → V → GoMap V
  | [], k, v => [(k, v)]
  | (k1, v1) :: rest, k, v =>
      if k1 = k then (k, v) :: rest else (k1, v1) :: GoMap.set rest k v

/-- The lookup `m[k]` with its presence flag. -/
def GoMap.get {V : Type} : GoMap V → String → Option V
  | [], _ => none
  | (k1, v1) :: rest, k => if k1 = k then some v1 else GoMap.get rest k

/-! ## structuredLog.go -/

/-- The struct `StructuredLog`; the field `Type` is written `Type_`. -/
structure StructuredLog where
  Timestamp : String
  Type_ : String
  Application : String
  Operation : String
  Correlationid : String
  LogId : String
  Level : Level
  Message : GoAny
  Attributes : GoMap GoAny
deriving DecidableEq, Repr

/-- The zero value `&StructuredLog{}`. -/
def StructuredLog.zero : StructuredLog :=
  { Timestamp := "", Type_ := "", Application := "", Operation := "", Correlationid := "",
    LogId := "", Level := 0, Message := GoAny.str "", Attributes := [] }

/-- The function `ToMap`: fold the attributes into a fresh map. -/
def ToMap (attrs : List Attr) : GoMap GoAny :=
  attrs.foldl (fun result attr => GoMap.set result attr.Key attr.Value) []

/-! ## config.go and syslogConfig.go -/

def DefaultVerboseFormat : String := "."

def DefaultFriendlyFormat : String :=
  "\"[\\(.level)] - \\(.ts) - \\(.operation) - \\(.message) - \\(.attributes)\""

structure CorrelationIdConfig where
  Strict : Bool
  AutoGenerate : Bool
deriving DecidableEq, Repr

structure MangoConfig where
  Strict : Bool
  CorrelationId : CorrelationIdConfig
deriving DecidableEq, Repr

structure FileOutputConfig where
  Enabled : Bool
  Debug : Bool
  Path : String
  MaxSize : Int
  MaxBackups : Int
  MaxAge : Int
  Compress : Bool
deriving DecidableEq, Repr

structure CliConfig where
  Enabled : Bool
  Friendly : Bool
  FriendlyFormat : String
  Verbose : Bool
  VerboseFormat : String
deriving DecidableEq, Repr

/-- The struct `SyslogConfig` of the non-Windows build, with its unexported `priority`. -/
structure SyslogConfig where
  Facility : String
  priority : Nat
deriving DecidableEq, Repr

structure OutConfig where
  Enabled : Bool
  File : FileOutputConfig
  Cli : CliConfig
  Syslog : SyslogConfig
deriving DecidableEq, Repr

/-- The struct `LogConfig`; the pointers of the Go struct are taken to be non-nil. -/
structure LogConfig where
  MangoConfig : MangoConfig
  Out : OutConfig
deriving DecidableEq, Repr

/-! ## Identifiers from github.com/google/uuid -/

/-- A `uuid.UUID`, sixteen bytes. -/
abbrev UUID := Fin 16 → Fin 256

def hexDigit (n : Nat) : Char := "0123456789abcdef".toList.getD n '0'

def hexByte (b : Nat) : List Char := [hexDigit (b / 16), hexDigit (b % 16)]

/-- Lower-case hexadecimal of the bytes at the given positions. -/
def UUID.hex (u : UUID) (positions : List (Fin 16)) : List Char :=
  positions.flatMap (fun i => hexByte (u i).val)

/-- The method `UUID.String()`: the form xxxxxxxx-xxxx-xxxx-xxxx-xxxxxxxxxxxx. -/
def UUID.String (u : UUID) : String :=
  String.mk (u.hex [0, 1, 2, 3] ++ '-' :: u.hex [4, 5] ++ '-' :: u.hex [6, 7]
    ++ '-' :: u.hex [8, 9] ++ '-' :: u.hex [10, 11, 12, 13, 14, 15])

/-! ## The world and the libraries -/

/-- What the syslog transport observes. -/
inductive SyslogEvent where
  | dial (priority : Nat) (tag : String)
  | write (priority : Nat) (tag : String) (payload : String)
  | close
deriving DecidableEq, Repr

/-- The mutable surroundings of a call. `Stdout` and `Stderr` list the texts written to
`os.Stdout` and `os.Stderr`, `LogWriter` the byte strings handed to `LogWriter.Write`,
oldest first. -/
structure World where
  Stdout : List String
  Stderr : List String
  LogWriter : List String
  Syslog : List SyslogEvent
  REQUIRED_FIELDS : List ctxKey
  uuidCalls : Nat
deriving DecidableEq, Repr

/-- The state of a fresh process. -/
def World.init : World :=
  { Stdout := [], Stderr := [], LogWriter := [], Syslog := [],
    REQUIRED_FIELDS := REQUIRED_FIELDS_init, uuidCalls := 0 }

/-- JSON documents as `encoding/json` decodes them into `interface{}`. -/
inductive JVal where
  | null
  | bool (b : Bool)
  | num (n : Int)
  | str (s : String)
  | arr (items : List JVal)
  | obj (fields : List (String × JVal))

/-- Library behaviour the repository relies on but does not define. -/
structure Env where
  /-- The value returned by the k-th call of `uuid.New()` in the process. -/
  uuidNew : Nat → UUID
  /-- The method `Time.Format(layout)`. -/
  timeFormat : Time → String → String
  /-- The JSON text `json.Marshal` produces for a record it can encode. -/
  jsonEncode : StructuredLog → String
  /-- The order in which `range` visits the entries of a map. -/
  mapRange : (m : GoMap Attr) → { r : List (String × Attr) // r.Perm m }
  /-- The call `json.Unmarshal` into a `map[string]interface{}`. -/
  jsonUnmarshal : String → Except GoError JVal
  /-- The call `gojq.Parse` together with `Query.Run`: the values the iterator yields,
  taken to be finitely many. -/
  gojqParse : String → Except GoError (JVal → List (Except GoError JVal))
  /-- The call `json.Marshal` on a gojq result (`none` is the nil interface). -/
  jsonMarshalAny : Option JVal → Except GoError String
  /-- The outcome of `LogWriter.Write` given the earlier writes and the bytes. -/
  logWriterWrite : List String → String → Option GoError
  /-- The outcome of `syslog.New(priority, tag)`. -/
  syslogNew : Nat → String → Option GoError
  /-- The outcome of `Writer.Write(payload)` on a connection. -/
  syslogWrite : Nat → String → String → Option GoError

/-- The call `fmt.Println(s)` (and `fmt.Fprintln(os.Stdout, s)`). -/
def World.Println (w : World) (s : String) : World :=
  { w with Stdout := w.Stdout ++ [s ++ "\n"] }

/-- The call `fmt.Fprintln(os.Stderr, s)`. -/
def World.PrintlnErr (w : World) (s : String) : World :=
  { w with Stderr := w.Stderr ++ [s ++ "\n"] }

/-- The call `uuid.New().String()`. -/
def World.uuidNewString (env : Env) (w : World) : String × World :=
  ((env.uuidNew w.uuidCalls).String, { w with uuidCalls := w.uuidCalls + 1 })

/-- Whether `encoding/json` can encode the value (functions and channels it cannot). -/
def GoAny.jsonSupported : GoAny → Bool
  | .func _ => false
  | _ => true

/-- The call `json.Marshal(log)`: an `UnsupportedTypeError` when some attribute value is
not encodable, the JSON text otherwise. -/
def jsonMarshal (env : Env) (log : StructuredLog) : Except GoError String :=
  if log.Message.jsonSupported && log.Attributes.all (fun kv => kv.2.jsonSupported) then
    .ok (env.jsonEncode log)
  else
    .error (.errorString "json: unsupported type: func()")

/-! ## mangoLogger.go -/

/-- The struct `MangoLogger`; its `LogWriter` is the `LogWriter` component of `World`. -/
structure MangoLogger where
  attrs : List Attr
  Config : LogConfig
deriving DecidableEq, Repr

/-- The verb `%v` applied to a slice of strings. -/
def fmtV (l : List String) : String := "[" ++ " ".intercalate l ++ "]"

/-- The verb `%+q` applied to a slice of strings none of which needs escaping. -/
def fmtQ (l : List String) : String :=
  "[" ++ " ".intercalate (l.map (fun s => "\"" ++ s ++ "\"")) ++ "]"

/-- The package variable `errStrictModeOn`, built once from the initial
`REQUIRED_FIELDS`. -/
def errStrictModeOn : GoError :=
  .errorString ("[STRICT_MODE ON] without required context fields " ++ fmtV REQUIRED_FIELDS_init)

/-- The function `applyDefaultFormats`. -/
def applyDefaultFormats (config : LogConfig) : LogConfig :=
  let merged := config
  let merged :=
    if config.Out.Cli.VerboseFormat = "" then
      { merged with Out := { merged.Out with
          Cli := { merged.Out.Cli with VerboseFormat := DefaultVerboseFormat } } }
    else merged
  let merged :=
    if config.Out.Cli.FriendlyFormat = "" then
      { merged with Out := { merged.Out with
          Cli := { merged.Out.Cli with FriendlyFormat := DefaultFriendlyFormat } } }
    else merged
  merged

/-- The function `NewMangoLogger`. -/
def NewMangoLogger (config : LogConfig) : MangoLogger :=
  { attrs := [], Config := applyDefaultFormats config }

/-- The method `Enabled`. -/
def MangoLogger.Enabled (_sl : MangoLogger) (_context : Context) (level : Level) : Bool :=
  if level = LevelDebug then true
  else if level = LevelInfo then true
  else if level = LevelWarn then true
  else if level = LevelError then true
  else false

/-- The method `WithAttrs`. -/
def MangoLogger.WithAttrs (sl : MangoLogger) (attrs : List Attr) : MangoLogger :=
  { sl with attrs := sl.attrs ++ attrs }

/-- The method `writeStringToLogFile`. -/
def MangoLogger.writeStringToLogFile (env : Env) (sl : MangoLogger) (s : String)
    (w : World) : Option GoError × World :=
  if sl.Config.Out.Enabled then
    let s := s ++ "\n"
    (env.logWriterWrite w.LogWriter s, { w with LogWriter := w.LogWriter ++ [s] })
  else
    (none, w)

/-- The loop of `formatWithGoJQ` over the iterator: stop at the first error, keep the
last value. -/
def lastResult : List (Except GoError JVal) → Option JVal → Except GoError (Option JVal)
  | [], result => .ok result
  | .error err :: _, _ => .error err
  | .ok v :: rest, _ => lastResult rest (some v)

/-- The function `formatWithGoJQ`, returning the pair `(string, error)`. -/
def formatWithGoJQ (env : Env) (obj query : String) : String × Option GoError :=
  match env.jsonUnmarshal obj with
  | .error err => ("", some err)
  | .ok objInterface =>
    match env.gojqParse query with
    | .error err => ("", some err)
    | .ok jqQuery =>
      match lastResult (jqQuery objInterface) none with
      | .error err => ("", some err)
      | .ok result =>
        match env.jsonMarshalAny result with
        | .error err => ("", some err)
        | .ok resultStr => (resultStr, none)

def errRecordLevel : GoError :=
  .errorString "record level not one of: debug, info, warn or error"

/-- The method `handleFileOutput`. -/
def MangoLogger.handleFileOutput (env : Env) (sl : MangoLogger) (log : StructuredLog)
    (jsonOut : String) (w : World) : Option GoError × World :=
  if log.Level = LevelDebug then
    if sl.Config.Out.File.Debug then sl.writeStringToLogFile env jsonOut w else (none, w)
  else if log.Level = LevelInfo then sl.writeStringToLogFile env jsonOut w
  else if log.Level = LevelWarn ∨ log.Level = LevelError then
    sl.writeStringToLogFile env jsonOut w
  else
    (some errRecordLevel, w.Println "Record level not one of: debug, info, warn or error")

/-- The method `handlePromptOutput`. -/
def MangoLogger.handlePromptOutput (env : Env) (sl : MangoLogger) (log : StructuredLog)
    (jsonOut : String) (w : World) : Option GoError × World :=
  if log.Level = LevelDebug then
    if sl.Config.Out.Cli.Verbose then
      (none, w.Println (formatWithGoJQ env jsonOut sl.Config.Out.Cli.VerboseFormat).1)
    else (none, w)
  else if log.Level = LevelInfo then
    if sl.Config.Out.Cli.Friendly then
      (none, w.Println (formatWithGoJQ env jsonOut sl.Config.Out.Cli.FriendlyFormat).1)
    else (none, w.Println jsonOut)
  else if log.Level = LevelWarn ∨ log.Level = LevelError then
    if sl.Config.Out.Cli.Friendly then
      (none, w.PrintlnErr (formatWithGoJQ env jsonOut sl.Config.Out.Cli.FriendlyFormat).1)
    else (none, w.PrintlnErr jsonOut)
  else
    (some errRecordLevel, w.Println "Record level not one of: debug, info, warn or error")

/-- The function `mergeAttrs`, with `list2` taking precedence. -/
def mergeAttrs (env : Env) (list1 list2 : List Attr) : List Attr :=
  let attrMap : GoMap Attr := list1.foldl (fun m attr => GoMap.set m attr.Key attr) []
  let attrMap : GoMap Attr := list2.foldl (fun m attr => GoMap.set m attr.Key attr) attrMap
  (env.mapRange attrMap).val.map (fun kv => kv.2)

/-- The function `getAllAttrs`. -/
def getAllAttrs (record : Record) : List Attr :=
  record.attrs.foldl (fun attrs attr => attrs ++ [attr]) []

/-- The text of the error for a field that is absent or not a string. -/
def missingMessage (label : ctxKey) : String :=
  errStrictModeOn.Error ++ " - required in context and not present (or wrong type - expected string). This can be added by doing: context.WithValue(newCtx, mangologger." ++ label ++ ", \"desiredValue\")"

/-- The text of the error for a type outside the allow-list. -/
def notAllowedMessage (label : ctxKey) (value : String) : String :=
  errStrictModeOn.Error ++ " - [" ++ label ++ "] required in context and not present (or wrong type - expected string). Current value [" ++ value ++ "] is not in the allowed list: " ++ fmtQ ALLOWED_TYPES

/-- The function `handleValueMissing`. -/
def handleValueMissing (env : Env) (label : ctxKey) (sl : MangoLogger)
    (logOutput : StructuredLog) (w : World) : StructuredLog × Option GoError × World :=
  if CORRELATION_ID = label then
    if sl.Config.MangoConfig.CorrelationId.AutoGenerate then
      let (id, w1) := w.uuidNewString env
      ({ logOutput with Correlationid := id }, none, w1)
    else
      (logOutput, some (.wrapError (missingMessage label) errStrictModeOn), w)
  else
    if sl.Config.MangoConfig.Strict then
      (logOutput, some (.wrapError (missingMessage label) errStrictModeOn), w)
    else
      (logOutput, none, w)

/-- The function `handleExistentValues`. -/
def handleExistentValues (label : ctxKey) (logOutput : StructuredLog) (value : String)
    (sl : MangoLogger) : StructuredLog × Option GoError :=
  if label = OPERATION then ({ logOutput with Operation := value }, none)
  else if label = APPLICATION then ({ logOutput with Application := value }, none)
  else if label = TYPE then
    if sl.Config.MangoConfig.Strict then
      if !(ALLOWED_TYPES.contains value) then
        (logOutput, some (.wrapError (notAllowedMessage label value) errStrictModeOn))
      else ({ logOutput with Type_ := value }, none)
    else ({ logOutput with Type_ := value }, none)
  else (logOutput, none)

/-- The function `handleEachField`. -/
def handleEachField (env : Env) (context : Context) (logOutput : StructuredLog)
    (label : ctxKey) (sl : MangoLogger) (w : World) :
    StructuredLog × Option GoError × World :=
  match GoAny.assertString (context.Value label) with
  | none => handleValueMissing env label sl logOutput w
  | some value =>
    let (logOutput1, err) := handleExistentValues label logOutput value sl
    (logOutput1, err, w)

/-- The `for ... range REQUIRED_FIELDS` loop of `handleRequiredFields`. -/
def handleFieldsLoop (env : Env) (context : Context) (sl : MangoLogger) :
    List ctxKey → StructuredLog → World → StructuredLog × Option GoError × World
  | [], logOutput, w => (logOutput, none, w)
  | label :: rest, logOutput, w =>
    match handleEachField env context logOutput label sl w with
    | (logOutput1, some err, w1) => (logOutput1, some err, w1)
    | (logOutput1, none, w1) => handleFieldsLoop env context sl rest logOutput1 w1

/-- The method `handleRequiredFields`. -/
def MangoLogger.handleRequiredFields (env : Env) (sl : MangoLogger) (context : Context)
    (logOutput : StructuredLog) (w : World) : StructuredLog × Option GoError × World :=
  let w1 :=
    if sl.Config.MangoConfig.CorrelationId.Strict then
      { w with REQUIRED_FIELDS := w.REQUIRED_FIELDS ++ [CORRELATION_ID] }
    else w
  handleFieldsLoop env context sl w1.REQUIRED_FIELDS logOutput w1

/-- The method `makeBaseLog`. -/
def MangoLogger.makeBaseLog (env : Env) (sl : MangoLogger) (record : Record) (w : World) :
    StructuredLog × World :=
  let logOutput := StructuredLog.zero
  let logOutput := { logOutput with Timestamp := env.timeFormat record.Time RFC3339NanoMC }
  let (id, w1) := w.uuidNewString env
  let logOutput := { logOutput with LogId := id }
  let logOutput := { logOutput with Level := record.Level }
  let logOutput := { logOutput with Operation := "unknownOperation" }
  let logOutput := { logOutput with Application := "unknownApplication" }
  let logOutput := { logOutput with Type_ := "unknownType" }
  let logOutput := { logOutput with Correlationid := "" }
  let logOutput := { logOutput with Message := GoAny.str record.Message }
  let logOutput :=
    { logOutput with Attributes := ToMap (mergeAttrs env sl.attrs (getAllAttrs record)) }
  (logOutput, w1)

/-- The method `buildLog`: the record, the error and the world it leaves. -/
def MangoLogger.buildLog (env : Env) (sl : MangoLogger) (context : Context)
    (record : Record) (w : World) : StructuredLog × Option GoError × World :=
  let (logOutput, w1) := sl.makeBaseLog env record w
  match sl.handleRequiredFields env context logOutput w1 with
  | (logOutput1, some err, w2) =>
    (logOutput1, some err,
      { w2 with Stdout := w2.Stdout ++ ["Required fields are not present. " ++ err.Error ++ "\n"] })
  | (logOutput1, none, w2) =>
    match GoAny.assertString (context.Value CORRELATION_ID) with
    | some value => ({ logOutput1 with Correlationid := value }, none, w2)
    | none => (logOutput1, none, w2)

/-! ## syslogHandler.go -/

def LOG_EMERG : Nat := 0
def LOG_ERR : Nat := 3
def LOG_WARNING : Nat := 4
def LOG_INFO : Nat := 6
def LOG_DEBUG : Nat := 7

def LOG_KERN : Nat := 0 <<< 3
def LOG_USER : Nat := 1 <<< 3
def LOG_MAIL : Nat := 2 <<< 3
def LOG_DAEMON : Nat := 3 <<< 3
def LOG_AUTH : Nat := 4 <<< 3
def LOG_SYSLOG : Nat := 5 <<< 3
def LOG_NEWS : Nat := 7 <<< 3
def LOG_UUCP : Nat := 8 <<< 3
def LOG_CRON : Nat := 9 <<< 3
def LOG_AUTHPRIV : Nat := 10 <<< 3
def LOG_FTP : Nat := 11 <<< 3
def LOG_LOCAL0 : Nat := 16 <<< 3
def LOG_LOCAL1 : Nat := 17 <<< 3
def LOG_LOCAL2 : Nat := 18 <<< 3
def LOG_LOCAL3 : Nat := 19 <<< 3
def LOG_LOCAL4 : Nat := 20 <<< 3
def LOG_LOCAL5 : Nat := 21 <<< 3
def LOG_LOCAL6 : Nat := 22 <<< 3
def LOG_LOCAL7 : Nat := 23 <<< 3

/-- The first `switch` of `handleSyslogOutput`: the severity of a level, `LOG_EMERG`
when the level is not recognised. -/
def syslogSeverity (level : Level) : Nat :=
  if level = LevelDebug then LOG_DEBUG
  else if level = LevelInfo then LOG_INFO
  else if level = LevelWarn then LOG_WARNING
  else if level = LevelError then LOG_ERR
  else LOG_EMERG

/-- The second `switch` of `handleSyslogOutput`: the facility code of a name. -/
def syslogFacility (facility : String) : Option Nat :=
  if facility = "kern" then some LOG_KERN
  else if facility = "user" then some LOG_USER
  else if facility = "mail" then some LOG_MAIL
  else if facility = "daemon" then some LOG_DAEMON
  else if facility = "auth" then some LOG_AUTH
  else if facility = "syslog" then some LOG_SYSLOG
  else if facility = "news" then some LOG_NEWS
  else if facility = "uucp" then some LOG_UUCP
  else if facility = "cron" then some LOG_CRON
  else if facility = "authpriv" then some LOG_AUTHPRIV
  else if facility = "ftp" then some LOG_FTP
  else if facility = "local0" then some LOG_LOCAL0
  else if facility = "local1" then some LOG_LOCAL1
  else if facility = "local2" then some LOG_LOCAL2
  else if facility = "local3" then some LOG_LOCAL3
  else if facility = "local4" then some LOG_LOCAL4
  else if facility = "local5" then some LOG_LOCAL5
  else if facility = "local6" then some LOG_LOCAL6
  else if facility = "local7" then some LOG_LOCAL7
  else none

def errFacility : GoError := .errorString "facility level not valid"

/-- The method `handleSyslogOutput`: the error, the configuration with the priority it
stored, and the world. A connection is recorded when `syslog.New` succeeds. -/
def MangoLogger.handleSyslogOutput (env : Env) (sl : MangoLogger) (log : StructuredLog)
    (jsonOut : String) (w : World) : Option GoError × LogConfig × World :=
  let severity := syslogSeverity log.Level
  let w :=
    if severity = LOG_EMERG then
      w.Println "Record level not one of: debug, info, warn or error"
    else w
  if severity = LOG_EMERG then (some errRecordLevel, sl.Config, w)
  else
    match syslogFacility sl.Config.Out.Syslog.Facility with
    | none => (some errFacility, sl.Config, w.Println "Facility level not valid")
    | some facility =>
      let priority := facility ||| severity
      let config : LogConfig :=
        { sl.Config with Out := { sl.Config.Out with
            Syslog := { sl.Config.Out.Syslog with priority := priority } } }
      match env.syslogNew priority log.Application with
      | some err =>
        (some (.wrapError ("error writing to syslog: " ++ err.Error) err), config,
          w.Println "Error writing to syslog")
      | none =>
        let w1 := { w with Syslog := w.Syslog ++ [SyslogEvent.dial priority log.Application] }
        let err := env.syslogWrite priority log.Application jsonOut
        let w2 :=
          { w1 with Syslog := w1.Syslog ++
              [SyslogEvent.write priority log.Application jsonOut, SyslogEvent.close] }
        (err, config, w2)

/-! ## The entry point -/

/-- The method `Handle`: the error, the configuration object after the call, and the
world. -/
def MangoLogger.Handle (env : Env) (sl : MangoLogger) (context : Context) (record : Record)
    (w : World) : Option GoError × LogConfig × World :=
  if !sl.Config.Out.Enabled then
    (none, sl.Config, w.Println "No logging enabled! Check config.out.enabled.")
  else if !sl.Config.Out.File.Enabled && !sl.Config.Out.Cli.Enabled
      && sl.Config.Out.Syslog.Facility = "" then
    (none, sl.Config, w.Println "Effectively no logging enabled! The config.out.file.enabled, config.out.cli.enabled and config.out.syslog.facility flags are all false.")
  else
    match sl.buildLog env context record w with
    | (_, some err, w1) => (some err, sl.Config, w1)
    | (log, none, w1) =>
      match jsonMarshal env log with
      | .error err =>
        (some err, sl.Config,
          w1.Println "Failed to marshal the StructuredLog. Internal error, should never happen")
      | .ok jsonOut =>
        let (err2, w2) :=
          if sl.Config.Out.Cli.Enabled then sl.handlePromptOutput env log jsonOut w1
          else (none, w1)
        match err2 with
        | some err => (some err, sl.Config, w2)
        | none =>
          let (err3, w3) :=
            if sl.Config.Out.File.Enabled then sl.handleFileOutput env log jsonOut w2
            else (none, w2)
          match err3 with
          | some err => (some err, sl.Config, w3)
          | none =>
            if sl.Config.Out.Syslog.Facility ≠ "" then
              sl.handleSyslogOutput env log jsonOut w3
            else (none, sl.Config, w3)

/-! ## Auxiliary definitions for the statements -/

/-- The values `REQUIRED_FIELDS` can hold in a running process: the initial list followed
by the `correlationid` entries appended by earlier correlation-strict runs. -/
def RequiredFieldsReachable (l : List ctxKey) : Prop :=
  ∃ n : Nat, l = REQUIRED_FIELDS_init ++ List.replicate n CORRELATION_ID

/-- The console stage of `Handle`: the console sink when enabled, nothing otherwise. -/
def consoleStage (env : Env) (sl : MangoLogger) (log : StructuredLog) (jsonOut : String)
    (w : World) : Option GoError × World :=
  if sl.Config.Out.Cli.Enabled then sl.handlePromptOutput env log jsonOut w else (none, w)

/-- The file stage of `Handle`: the file sink when enabled, nothing otherwise. -/
def fileStage (env : Env) (sl : MangoLogger) (log : StructuredLog) (jsonOut : String)
    (w : World) : Option GoError × World :=
  if sl.Config.Out.File.Enabled then sl.handleFileOutput env log jsonOut w else (none, w)

/-- The syslog stage of `Handle`: the syslog sink when a facility is configured, nothing
otherwise. -/
def syslogStage (env : Env) (sl : MangoLogger) (log : StructuredLog) (jsonOut : String)
    (w : World) : Option GoError × LogConfig × World :=
  if sl.Config.Out.Syslog.Facility ≠ "" then sl.handleSyslogOutput env log jsonOut w
  else (none, sl.Config, w)

/-- At least one of console, file and syslog is enabled. -/
def someSinkEnabled (config : LogConfig) : Prop :=
  config.Out.Cli.Enabled = true ∨ config.Out.File.Enabled = true ∨
    config.Out.Syslog.Facility ≠ ""

/-! ## Concrete inputs -/

/-- Libraries that never fail: identifiers count upwards, the encoder prints the log id. -/
def exampleEnv : Env :=
  { uuidNew := fun k _ => ⟨k % 256, Nat.mod_lt _ (by decide)⟩,
    timeFormat := fun _ _ => "0001-01-01T00:00:00Z",
    jsonEncode := fun log => "json:" ++ log.LogId,
    mapRange := fun m => ⟨m, List.Perm.refl m⟩,
    jsonUnmarshal := fun _ => .ok JVal.null,
    gojqParse := fun _ => .ok (fun v => [.ok v]),
    jsonMarshalAny := fun _ => .ok "friendly",
    logWriterWrite := fun _ _ => none,
    syslogNew := fun _ _ => none,
    syslogWrite := fun _ _ _ => none }

/-- The configuration of `TestMangoLogger_Handle_StrictModeOn_Facility_Invalid`. -/
def facilityInvalidConfig : LogConfig :=
  { MangoConfig := { Strict := true, CorrelationId := { Strict := true, AutoGenerate := true } },
    Out :=
      { Enabled := true,
        File := { Enabled := true, Debug := true, Path := "testPath.log", MaxSize := 0,
                  MaxBackups := 0, MaxAge := 0, Compress := false },
        Cli := { Enabled := true, Friendly := true, FriendlyFormat := "", Verbose := false,
                 VerboseFormat := "" },
        Syslog := { Facility := "Test Failure", priority := 0 } } }

/-- A context with operation, type and application and no correlation id. -/
def noCorrelationContext : Context :=
  Context.WithValue (Context.WithValue (Context.WithValue [] OPERATION (.str "operation"))
    TYPE (.str BusinessType)) APPLICATION (.str "testApp")

def infoRecord : Record :=
  { Time := ⟨0, 0, 0⟩, Level := LevelInfo, Message := "hello from sub1", attrs := [] }

/-- An info record carrying one attribute whose value is a function. -/
def funcAttrRecord : Record :=
  { Time := ⟨0, 0, 0⟩, Level := LevelInfo, Message := "hello from sub1",
    attrs := [{ Key := "callback", Value := .func 0 }] }

/-- A configuration with only the console sink, raw output, nothing strict. -/
def consoleOnlyConfig : LogConfig :=
  { MangoConfig := { Strict := false, CorrelationId := { Strict := false, AutoGenerate := false } },
    Out :=
      { Enabled := true,
        File := { Enabled := false, Debug := false, Path := "", MaxSize := 0,
                  MaxBackups := 0, MaxAge := 0, Compress := false },
        Cli := { Enabled := true, Friendly := false, FriendlyFormat := "", Verbose := false,
                 VerboseFormat := "" },
        Syslog := { Facility := "", priority := 0 } } }

/-- The error one field check yields for a label; by `handleEachField_err` it depends
only on the context, the flags and the label. -/
def fieldError (context : Context) (sl : MangoLogger) (label : ctxKey) : Option GoError :=
  (handleEachField exampleEnv context StructuredLog.zero label sl World.init).2.1

/-- The list a run of `handleRequiredFields` iterates over: `REQUIRED_FIELDS` after the
conditional append. -/
def checkedFields (sl : MangoLogger) (w : World) : List ctxKey :=
  if sl.Config.MangoConfig.CorrelationId.Strict then w.REQUIRED_FIELDS ++ [CORRELATION_ID]
  else w.REQUIRED_FIELDS

/-- Both strict flags on, no automatic correlation id. -/
def strictNoGenerateConfig : LogConfig :=
  { facilityInvalidConfig with
    MangoConfig := { Strict := true, CorrelationId := { Strict := true, AutoGenerate := false } } }

/-- Nothing strict, automatic correlation id requested. -/
def autoGenerateOnlyConfig : LogConfig :=
  { consoleOnlyConfig with
    MangoConfig := { Strict := false, CorrelationId := { Strict := false, AutoGenerate := true } } }

/-- A complete context whose correlation id is the empty string. -/
def emptyCorrelationContext : Context :=
  Context.WithValue noCorrelationContext CORRELATION_ID (.str "")

/-- A context with application and operation only: type and correlation id are absent. -/
def applicationOperationContext : Context :=
  Context.WithValue (Context.WithValue [] OPERATION (.str "operation")) APPLICATION
    (.str "testApp")

/-- Whether the text `sub` occurs somewhere in `s`. -/
def occursIn (sub s : String) : Bool :=
  s.toList.tails.any (fun t => sub.toList.isPrefixOf t)

/-- The last attribute of `l` whose key is `k`, if there is one. -/
def lastWithKey : List Attr → String → Option Attr
  | [], _ => none
  | a :: rest, k =>
    match lastWithKey rest k with
    | some x => some x
    | none => if a.Key = k then some a else none

/-- The context of `TestMangoLogger_Handle_StrictModeOn_ProvidedCorrelation_ValidInfo`. -/
def providedCorrelationContext : Context :=
  Context.WithValue noCorrelationContext CORRELATION_ID
    (.str "c8a67865-29dd-4e1e-a1a3-990d3075e3bc")

/-- The map `attrMap` of `mergeAttrs` before it is turned back into a slice. -/
def mergedMap (list1 list2 : List Attr) : GoMap Attr :=
  list2.foldl (fun m attr => GoMap.set m attr.Key attr)
    (list1.foldl (fun m attr => GoMap.set m attr.Key attr) [])

/-- What the console sink is to print on standard output for a record of a recognised
level: the verbose transform for debug when verbose is on, the friendly transform or the
raw serialization for info. -/
def consoleStdout (env : Env) (sl : MangoLogger) (log : StructuredLog) (jsonOut : String) :
    List String :=
  if sl.Config.Out.Cli.Enabled then
    if log.Level = LevelDebug then
      if sl.Config.Out.Cli.Verbose then
        [(formatWithGoJQ env jsonOut sl.Config.Out.Cli.VerboseFormat).1 ++ "\n"]
      else []
    else if log.Level = LevelInfo then
      if sl.Config.Out.Cli.Friendly then
        [(formatWithGoJQ env jsonOut sl.Config.Out.Cli.FriendlyFormat).1 ++ "\n"]
      else [jsonOut ++ "\n"]
    else []
  else []

/-- What the console sink is to print on standard error for a record of a recognised
level: the friendly transform or the raw serialization for warn and error. -/
def consoleStderr (env : Env) (sl : MangoLogger) (log : StructuredLog) (jsonOut : String) :
    List String :=
  if sl.Config.Out.Cli.Enabled then
    if log.Level = LevelWarn ∨ log.Level = LevelError then
      if sl.Config.Out.Cli.Friendly then
        [(formatWithGoJQ env jsonOut sl.Config.Out.Cli.FriendlyFormat).1 ++ "\n"]
      else [jsonOut ++ "\n"]
    else []
  else []

/-- What the file sink is to write for a record of a recognised level: the serialization
and a newline, except for debug records when the debug flag is off. -/
def fileWrites (sl : MangoLogger) (log : StructuredLog) (jsonOut : String) : List String :=
  if sl.Config.Out.File.Enabled then
    if log.Level = LevelDebug then
      if sl.Config.Out.File.Debug then [jsonOut ++ "\n"] else []
    else [jsonOut ++ "\n"]
  else []

/-- What the syslog sink is to do on the transport when it succeeds: one connection
tagged with the application, one write of the serialization, one close. -/
def syslogEvents (sl : MangoLogger) (log : StructuredLog) (jsonOut : String) :
    List SyslogEvent :=
  if sl.Config.Out.Syslog.Facility ≠ "" then
    match syslogFacility sl.Config.Out.Syslog.Facility with
    | some facility =>
      [SyslogEvent.dial (facility ||| syslogSeverity log.Level) log.Application,
       SyslogEvent.write (facility ||| syslogSeverity log.Level) log.Application jsonOut,
       SyslogEvent.close]
    | none => []
  else []

/-- Console, file and syslog all enabled, with a valid facility. -/
def allSinksConfig : LogConfig :=
  { facilityInvalidConfig with
    Out := { facilityInvalidConfig.Out with Syslog := { Facility := "local7", priority := 0 } } }

/-- The strict test configuration with global output switched off. -/
def outputDisabledConfig : LogConfig :=
  { facilityInvalidConfig with Out := { facilityInvalidConfig.Out with Enabled := false } }

/-- The nineteen facility names with their codes, as the syslog standard numbers them. -/
def facilityTable : List (String × Nat) :=
  [("kern", 0), ("user", 1), ("mail", 2), ("daemon", 3), ("auth", 4), ("syslog", 5),
   ("news", 7), ("uucp", 8), ("cron", 9), ("authpriv", 10), ("ftp", 11),
   ("local0", 16), ("local1", 17), ("local2", 18), ("local3", 19), ("local4", 20),
   ("local5", 21), ("local6", 22), ("local7", 23)]

/-- The four recognised levels with their severity codes. -/
def severityTable : List (Level × Nat) :=
  [(LevelDebug, 7), (LevelInfo, 6), (LevelWarn, 4), (LevelError, 3)]

/-- The level is one of debug, info, warn, error. -/
def recognisedLevel (level : Level) : Prop :=
  level = LevelDebug ∨ level = LevelInfo ∨ level = LevelWarn ∨ level = LevelError

/-- A configuration with global output off and the file sink on. -/
def fileOnlyOutputDisabledConfig : LogConfig :=
  { consoleOnlyConfig with
    Out := { consoleOnlyConfig.Out with
      Enabled := false,
      File := { consoleOnlyConfig.Out.File with Enabled := true, Debug := true },
      Cli := { consoleOnlyConfig.Out.Cli with Enabled := false } } }

/-- A configuration with global output and the file sink on, file debug off. -/
def fileOnlyConfig : LogConfig :=
  { consoleOnlyConfig with
    Out := { consoleOnlyConfig.Out with
      File := { consoleOnlyConfig.Out.File with Enabled := true, Debug := false },
      Cli := { consoleOnlyConfig.Out.Cli with Enabled := false } } }

/-! ## Slices with shared backing arrays (for `WithAttrs`) -/

/-- A Go slice header of attributes: the backing array it points to, length, capacity. -/
structure SliceHeader where
  array : Nat
  len : Nat
  cap : Nat
deriving DecidableEq, Repr

/-- The backing arrays allocated so far, by address. -/
abbrev Memory := List (List Attr)

/-- The attributes a slice header denotes. -/
def Memory.read (mem : Memory) (s : SliceHeader) : List Attr :=
  (mem.getD s.array []).take s.len

/-- The header is within its array: length at most capacity, capacity the array's size. -/
def SliceHeader.valid (mem : Memory) (s : SliceHeader) : Prop :=
  s.len ≤ s.cap ∧ (mem.getD s.array []).length = s.cap

/-- The filler of array cells beyond the length of a fresh slice. -/
def zeroAttr : Attr := { Key := "", Value := .str "" }

/-- The built-in `append(s, xs...)`: when the capacity suffices the new elements are
written into the shared backing array, otherwise a larger array is allocated and the old
elements copied. `growCap` is the runtime's growth policy. -/
def goAppend (growCap : Nat → Nat → Nat) (mem : Memory) (s : SliceHeader) (xs : List Attr) :
    SliceHeader × Memory :=
  if s.len + xs.length ≤ s.cap then
    ({ s with len := s.len + xs.length },
      mem.set s.array ((mem.getD s.array []).take s.len ++ xs
        ++ (mem.getD s.array []).drop (s.len + xs.length)))
  else
    let newcap := max (s.len + xs.length) (growCap s.cap (s.len + xs.length))
    ({ array := mem.length, len := s.len + xs.length, cap := newcap },
      mem ++ [mem.read s ++ xs ++ List.replicate (newcap - (s.len + xs.length)) zeroAttr])

/-- The struct `MangoLogger` with its `attrs` field as a slice header. -/
structure MangoLoggerRef where
  attrs : SliceHeader
  Config : LogConfig
deriving DecidableEq, Repr

/-- The method `WithAttrs` on the value receiver: append, store in the copy, return it. -/
def MangoLoggerRef.WithAttrs (growCap : Nat → Nat → Nat) (sl : MangoLoggerRef)
    (attrs : List Attr) (mem : Memory) : MangoLoggerRef × Memory :=
  ({ sl with attrs := (goAppend growCap mem sl.attrs attrs).1 },
    (goAppend growCap mem sl.attrs attrs).2)

/-- The handler as a value: its attributes read out of memory. -/
def MangoLoggerRef.view (mem : Memory) (sl : MangoLoggerRef) : MangoLogger :=
  { attrs := mem.read sl.attrs, Config := sl.Config }

/-! ## slicesUtils.go -/

/-- The largest value of the type `int`, taken as 64 bits wide. -/
def maxInt : Int := 2 ^ 63 - 1

/-- The result of `int` arithmetic: the mathematical result wrapped around in two's
complement. -/
def wrapInt (x : Int) : Int :=
  (x + 2 ^ 63) % 2 ^ 64 - 2 ^ 63

/-- The built-in `append(out, s...)` as `Flatten` uses it: the new length is computed as an
`int`, and the run-time panics when it is out of range. -/
def appendAll {T : Type} (out s : List T) : Except String (List T) :=
  if ((out.length + s.length : Nat) : Int) > maxInt then .error "growslice: len out of range"
  else .ok (out ++ s)

/-- The second loop of `Flatten`. -/
def flattenLoop {T : Type} : List (List T) → List T → Except String (List T)
  | [], out => .ok out
  | s :: rest, out =>
    match appendAll out s with
    | .error e => .error e
    | .ok out1 => flattenLoop rest out1

/-- The function `Flatten`; a panic is an `error`. The sum `total` is an `int` and wraps
around; `make([]T, 0, total)` panics on a negative capacity. The limits of the allocator,
which depend on the size of an element, are left out. -/
def Flatten {T : Type} (slices : List (List T)) : Except String (List T) :=
  let total := slices.foldl (fun total s => wrapInt (total + (s.length : Int))) 0
  if total < 0 then .error "makeslice: cap out of range"
  else flattenLoop slices []

/-- The operator `==` of a comparable Go type. It is reflexive except at values such as a
floating-point NaN, which differ from themselves. A value of `T` stands for a Go value up
to `==`, and `selfEqual x` tells whether `x == x`. -/
class GoEq (T : Type) where
  selfEqual : T → Bool

/-- The comparison `x == y`: no value equals one that differs from itself. -/
def goEq {T : Type} [DecidableEq T] [GoEq T] (x y : T) : Bool :=
  GoEq.selfEqual x && decide (x = y)

instance : GoEq Nat := ⟨fun _ => true⟩

instance : GoEq Int := ⟨fun _ => true⟩

instance : GoEq String := ⟨fun _ => true⟩

/-- A floating-point type as far as `==` tells its values apart: the numbers, and NaN. -/
inductive GoFloat where
  | num (x : Int)
  | nan
deriving DecidableEq, Repr

instance : GoEq GoFloat := ⟨fun x => match x with | .num _ => true | .nan => false⟩

/-- The index expression `frequency[key]` of a `map[Type]int`, held as the list of its
entries: the value of the entry whose key is `== key`, and 0 when there is none. -/
def mapGet {T : Type} [DecidableEq T] [GoEq T] : List (T × Int) → T → Int
  | [], _ => 0
  | (k, v) :: rest, key => if goEq k key then v else mapGet rest key

/-- The assignment `frequency[key] = v`: it replaces the value of the entry whose key is
`== key` and adds an entry when there is none. -/
def mapSet {T : Type} [DecidableEq T] [GoEq T] : List (T × Int) → T → Int → List (T × Int)
  | [], key, v => [(key, v)]
  | (k, v0) :: rest, key, v =>
    if goEq k key then (k, v) :: rest else (k, v0) :: mapSet rest key v

/-- The second loop of `EqualsIgnoreOrder`. -/
def equalsLoop {T : Type} [DecidableEq T] [GoEq T] : List (T × Int) → List T → Bool
  | _, [] => true
  | frequency, key :: rest =>
    if mapGet frequency key = 0 then false
    else equalsLoop (mapSet frequency key (mapGet frequency key - 1)) rest

/-- The function `EqualsIgnoreOrder`. A counter is at most `len(s1)`, so `++` and `--` are
exact. -/
def EqualsIgnoreOrder {T : Type} [DecidableEq T] [GoEq T] (s1 s2 : List T) : Bool :=
  if s1.length ≠ s2.length then false
  else
    equalsLoop
      (s1.foldl (fun frequency key => mapSet frequency key (mapGet frequency key + 1)) [])
      s2

/-- The function `Contains`. -/
def Contains {T : Type} [DecidableEq T] : List T → T → Bool
  | [], _ => false
  | item :: rest, value => if item = value then true else Contains rest value

/-- The function `ContainsCount`. -/
def ContainsCount {T : Type} [DecidableEq T] (slice : List T) (value : T) : Int :=
  slice.foldl (fun count x => if x = value then count + 1 else count) 0

/-- The loop of `IndexOf` from index `i` on. -/
def indexOfLoop {T : Type} [DecidableEq T] : List T → T → Nat → Int
  | [], _, _ => -1
  | x :: rest, value, i => if x = value then (i : Int) else indexOfLoop rest value (i + 1)

/-- The function `IndexOf`. -/
def IndexOf {T : Type} [DecidableEq T] (slice : List T) (value : T) : Int :=
  indexOfLoop slice value 0

/-- The loop of `IndexOfAll` from index `i` on. -/
def indexOfAllLoop {T : Type} [DecidableEq T] : List T → T → Nat → List Int → List Int
  | [], _, _, indices => indices
  | x :: rest, value, i, indices =>
    if x = value then indexOfAllLoop rest value (i + 1) (indices ++ [(i : Int)])
    else indexOfAllLoop rest value (i + 1) indices

/-- The function `IndexOfAll`. -/
def IndexOfAll {T : Type} [DecidableEq T] (slice : List T) (value : T) : List Int :=
  indexOfAllLoop slice value 0 []

/-- The loop of `Unique`; `seen` lists the keys of the map, and `seen[item]` finds a key
that is `== item`. -/
def uniqueLoop {T : Type} [DecidableEq T] [GoEq T] : List T → List T → List T → List T
  | [], _, result => result
  | item :: rest, seen, result =>
    if seen.any (fun k => goEq k item) then uniqueLoop rest seen result
    else uniqueLoop rest (item :: seen) (result ++ [item])

/-- The function `Unique`. -/
def Unique {T : Type} [DecidableEq T] [GoEq T] (slice : List T) : List T :=
  uniqueLoop slice [] []

/-- The backing arrays of the slices of a type `[]T` allocated so far, by address. -/
abbrev Arrays (T : Type) := List (List T)

/-- The elements a slice header denotes. -/
def Arrays.read {T : Type} (mem : Arrays T) (s : SliceHeader) : List T :=
  (mem.getD s.array []).take s.len

/-- The call `make([]T, 0, n)`: a new array of `n` zero values, and a header of length 0
on it. -/
def makeSlice {T : Type} (zero : T) (mem : Arrays T) (n : Nat) : SliceHeader × Arrays T :=
  ({ array := mem.length, len := 0, cap := n }, mem ++ [List.replicate n zero])

/-- The built-in `append(s, x)`: when the capacity suffices the element is written into the
backing array of `s`, otherwise a larger array is allocated and the old elements copied.
`growCap` is the growth policy of the run-time. -/
def appendOne {T : Type} (zero : T) (growCap : Nat → Nat → Nat) (mem : Arrays T)
    (s : SliceHeader) (x : T) : SliceHeader × Arrays T :=
  if s.len + 1 ≤ s.cap then
    ({ s with len := s.len + 1 }, mem.set s.array ((mem.getD s.array []).set s.len x))
  else
    let newcap := max (s.len + 1) (growCap s.cap (s.len + 1))
    ({ array := mem.length, len := s.len + 1, cap := newcap },
      mem ++ [Arrays.read mem s ++ x :: List.replicate (newcap - (s.len + 1)) zero])

/-- The loop of `Unique` on slices in memory, at index `i` with `n` iterations to go: the
element `slice[i]` is read from the backing array when its turn comes, and `append` writes
into memory. -/
def uniqueMemLoop {T : Type} [DecidableEq T] [GoEq T] (zero : T)
    (growCap : Nat → Nat → Nat) (slice : SliceHeader) :
    Nat → Nat → List T → SliceHeader → Arrays T → SliceHeader × Arrays T
  | 0, _, _, result, mem => (result, mem)
  | n + 1, i, seen, result, mem =>
    let item := ((mem.getD slice.array [])[i]?).getD zero
    if seen.any (fun k => goEq k item) then
      uniqueMemLoop zero growCap slice n (i + 1) seen result mem
    else
      uniqueMemLoop zero growCap slice n (i + 1) (item :: seen)
        (appendOne zero growCap mem result item).1 (appendOne zero growCap mem result item).2

/-- The function `Unique` on slices in memory: the header of the result and the memory
after the call. -/
def UniqueMem {T : Type} [DecidableEq T] [GoEq T] (zero : T) (growCap : Nat → Nat → Nat)
    (mem : Arrays T) (slice : SliceHeader) : SliceHeader × Arrays T :=
  uniqueMemLoop zero growCap slice slice.len 0 []
    (makeSlice zero mem slice.len).1 (makeSlice zero mem slice.len).2

/-- The slice expression `slice[i:end]`. -/
def subslice {T : Type} (slice : List T) (i e : Nat) : List T :=
  (slice.drop i).take (e - i)

/-- The loop of `Chunk`, run for at most `fuel` iterations; `ok none` when the loop
condition still holds after them. The slice expression `slice[i:end]` panics unless
`0 <= i <= end <= cap(slice)`; `end` is at most `len(slice)` here. -/
def chunkLoop {T : Type} (slice : List T) (size : Int) : Nat → Int → List (List T) →
    Except String (Option (List (List T)))
  | 0, i, chunks => if i < (slice.length : Int) then .ok none else .ok (some chunks)
  | fuel + 1, i, chunks =>
    if i < (slice.length : Int) then
      let e0 := wrapInt (i + size)
      let e := if e0 > (slice.length : Int) then (slice.length : Int) else e0
      if 0 ≤ i ∧ i ≤ e then
        chunkLoop slice size fuel (wrapInt (i + size))
          (chunks ++ [subslice slice i.toNat e.toNat])
      else .error "slice bounds out of range"
    else .ok (some chunks)

/-- The function `Chunk`: a panic is an `error`, a loop still running after `len(slice)`
iterations an `ok none`. -/
def Chunk {T : Type} (slice : List T) (size : Int) :
    Except String (Option (List (List T))) :=
  if size ≤ 0 then .error "Chunk: size must be greater than 0"
  else chunkLoop slice size slice.length 0 []

/-- The `k`-th run of `n` consecutive elements of `s`, cut off at the end of `s`. -/
def segment {T : Type} (s : List T) (n k : Nat) : List T :=
  (s.drop (k * n)).take n

/-- The list `l` without every element that is `==` to an earlier one. -/
def firstOccurrences {T : Type} [DecidableEq T] [GoEq T] : List T → List T
  | [] => []
  | a :: l => a :: (firstOccurrences l).filter (fun x => !(goEq a x))

/-- The assignment `slice[i], slice[j] = slice[j], slice[i]`: both elements are read, then
both written; `none` when an index is outside the slice (a run-time panic). -/
def swapAt {T : Type} (slice : List T) (i j : Int) : Option (List T) :=
  if 0 ≤ i ∧ i < (slice.length : Int) ∧ 0 ≤ j ∧ j < (slice.length : Int) then
    match slice[j.toNat]?, slice[i.toNat]? with
    | some a, some b => some ((slice.set i.toNat a).set j.toNat b)
    | _, _ => none
  else none

/-- The loop of `Reverse`, run for at most `fuel` iterations; `ok none` when the loop
condition still holds after them. The indices stay between -1 and `len(slice)`, so `i+1`
and `j-1` are exact. -/
def reverseLoop {T : Type} : Nat → List T → Int → Int → Except String (Option (List T))
  | 0, slice, i, j => if i < j then .ok none else .ok (some slice)
  | fuel + 1, slice, i, j =>
    if i < j then
      match swapAt slice i j with
      | none => .error "index out of range"
      | some slice1 => reverseLoop fuel slice1 (i + 1) (j - 1)
    else .ok (some slice)

/-- The function `Reverse`, returning the contents of the slice after the call. -/
def Reverse {T : Type} (slice : List T) : Except String (Option (List T)) :=
  reverseLoop slice.length slice 0 ((slice.length : Int) - 1)

/-- One validation run: the handler it runs on, the context and the record being
filled. -/
structure ValidationRun where
  sl : MangoLogger
  context : Context
  logOutput : StructuredLog

/-- The world after a sequence of runs of `handleRequiredFields` in one process, each run
starting in the world the previous one left. -/
def runValidations (env : Env) : List ValidationRun → World → World
  | [], w => w
  | r :: rest, w =>
    runValidations env rest (r.sl.handleRequiredFields env r.context r.logOutput w).2.2

/-- The number of runs whose handler has correlation-strict on. -/
def strictRuns (runs : List ValidationRun) : Nat :=
  (runs.filter (fun r => r.sl.Config.MangoConfig.CorrelationId.Strict)).length

/-- Libraries as in `exampleEnv`, except that `json.Unmarshal` rejects its input. -/
def unparseableEnv : Env :=
  { exampleEnv with jsonUnmarshal := fun _ => .error (.errorString "invalid character") }

/-- The configuration of `TestHandleFileOutput_FileDisabled`: global output on, the file
sink off. -/
def fileDisabledConfig : LogConfig :=
  { MangoConfig := { Strict := false, CorrelationId := { Strict := false, AutoGenerate := true } },
    Out :=
      { Enabled := true,
        File := { Enabled := false, Debug := false, Path := "should_not_exist.log",
                  MaxSize := 0, MaxBackups := 0, MaxAge := 0, Compress := false },
        Cli := { Enabled := false, Friendly := false, FriendlyFormat := "", Verbose := false,
                 VerboseFormat := "" },
        Syslog := { Facility := "", priority := 0 } } }

/-! ## ioUtils.go -/

/-- The regular files of the file system: path to content. -/
abbrev Files := GoMap String

/-- The removal of the entry for `k`, if there is one. -/
def GoMap.erase {V : Type} (m : GoMap V) (k : String) : GoMap V :=
  m.filter (fun kv => kv.1 ≠ k)

/-- One call `filepath.Walk` makes to its callback: the path, whether `info.IsDir()`, and
the error handed in. -/
structure WalkEntry where
  path : String
  isDir : Bool
  err : Option GoError
deriving DecidableEq, Repr

/-- Operating-system behaviour behind the package variables `walkFunc`, `openFunc`,
`createFunc`, `copyFunc` and `removeFunc`. -/
structure IoEnv where
  /-- The calls `filepath.Walk(dir, fn)` makes to `fn`, in order, for as long as `fn`
  returns nil. -/
  walk : Files → String → List WalkEntry
  /-- A failure of `os.Open` on a file that exists. -/
  openErr : Files → String → Option GoError
  /-- A failure of `os.Create`. -/
  createErr : Files → String → Option GoError
  /-- A failure of `io.Copy` from the source into the destination, with the content the
  destination is left with. -/
  copyErr : Files → String → String → Option (GoError × String)
  /-- A failure of `os.Remove` on a file that exists. -/
  removeErr : Files → String → Option GoError

/-- The loop of the library function `filepath.Ext` on a Unix path: the bytes of the path
from the last one backwards, and the bytes already passed. -/
def extLoop : List Char → List Char → List Char
  | [], _ => []
  | c :: before, after =>
    if c = '/' then []
    else if c = '.' then '.' :: after
    else extLoop before (c :: after)

/-- The library function `filepath.Ext`: the suffix from the last dot of the last path
element on, empty when that element has no dot. -/
def Ext (path : String) : String :=
  String.mk (extLoop path.toList.reverse [])

/-- The inner loop of the callback of `getFilesWithExt`: append the path at the first
extension that equals its extension, and stop. -/
def matchExtensions (path : String) : List String → List String → List String
  | [], files => files
  | ext :: rest, files =>
    if Ext path = ext then files ++ [path] else matchExtensions path rest files

/-- The callback of `getFilesWithExt` run over the calls of the walk; the walk ends at the
first call for which the callback returns an error. -/
def walkCallbacks (extensions : List String) :
    List WalkEntry → List String → List String × Option GoError
  | [], files => (files, none)
  | e :: rest, files =>
    match e.err with
    | some err => (files, some err)
    | none =>
      walkCallbacks extensions rest
        (if !e.isDir then matchExtensions e.path extensions files else files)

/-- The function `getFilesWithExt`. -/
def getFilesWithExt (env : IoEnv) (fs : Files) (dir : String) (extensions : List String) :
    List String × Option GoError :=
  walkCallbacks extensions (env.walk fs dir) []

/-- The error of the operating system for a path that does not exist. -/
def errNotExist (op path : String) : GoError :=
  .errorString (op ++ " " ++ path ++ ": no such file or directory")

/-- The call `removeFunc(file)`. -/
def removeFile (env : IoEnv) (file : String) (fs : Files) : Option GoError × Files :=
  match GoMap.get fs file with
  | none => (some (errNotExist "remove" file), fs)
  | some _ =>
    match env.removeErr fs file with
    | some err => (some err, fs)
    | none => (none, GoMap.erase fs file)

/-- The function `deleteFiles`. -/
def deleteFiles (env : IoEnv) : List String → Files → Option GoError × Files
  | [], fs => (none, fs)
  | file :: rest, fs =>
    match removeFile env file fs with
    | (some err, fs1) =>
      (some (.errorString ("failed to delete file " ++ file ++ ": " ++ err.Error)), fs1)
    | (none, fs1) => deleteFiles env rest fs1

/-- The function `DeleteFileWithExt`. -/
def DeleteFileWithExt (env : IoEnv) (dir : String) (extensions : List String) (fs : Files) :
    Option GoError × Files :=
  match getFilesWithExt env fs dir extensions with
  | (_, some err) => (some err, fs)
  | (files, none) => deleteFiles env files fs

/-- The library function `strings.TrimSuffix`. -/
def TrimSuffix (s suffix : String) : String :=
  if suffix.toList.isSuffixOf s.toList then
    String.mk (s.toList.take (s.toList.length - suffix.toList.length))
  else s

/-- The function `copyFile`: open the source, create or truncate the destination, copy.
What is copied is the content of the source once the destination has been created. -/
def copyFile (env : IoEnv) (dest source : String) (fs : Files) : Option GoError × Files :=
  match GoMap.get fs source with
  | none => (some (errNotExist "open" source), fs)
  | some _ =>
    match env.openErr fs source with
    | some err => (some err, fs)
    | none =>
      match env.createErr fs dest with
      | some err => (some err, fs)
      | none =>
        let fs1 := GoMap.set fs dest ""
        match env.copyErr fs1 dest source with
        | some (err, written) => (some err, GoMap.set fs1 dest written)
        | none => (none, GoMap.set fs1 dest ((GoMap.get fs1 source).getD ""))

/-- The first loop of `restoreBakFiles`. -/
def restoreLoop (env : IoEnv) : List String → Files → Option GoError × Files
  | [], fs => (none, fs)
  | file :: rest, fs =>
    match copyFile env (TrimSuffix file ".bak") file fs with
    | (some err, fs1) => (some err, fs1)
    | (none, fs1) => restoreLoop env rest fs1

/-- The function `restoreBakFiles`. -/
def restoreBakFiles (env : IoEnv) (files : List String) (fs : Files) :
    Option GoError × Files :=
  match restoreLoop env files fs with
  | (some err, fs1) => (some err, fs1)
  | (none, fs1) => deleteFiles env files fs1

/-- The function `RestoreAllBakFiles`. -/
def RestoreAllBakFiles (env : IoEnv) (dir : String) (fs : Files) : Option GoError × Files :=
  match getFilesWithExt env fs dir [".bak"] with
  | (_, some err) => (some err, fs)
  | (files, none) => restoreBakFiles env files fs

/-- The paths a walk reaches before its first error that are not directories and whose
extension is listed. -/
def selectWithExt (extensions : List String) (walk : List WalkEntry) : List String :=
  ((walk.takeWhile (fun e => e.err.isNone)).filter
    (fun e => !e.isDir && decide (Ext e.path ∈ extensions))).map (fun e => e.path)

/-- The error that ends a walk, if one does. -/
def firstWalkError : List WalkEntry → Option GoError
  | [] => none
  | e :: rest =>
    match e.err with
    | some err => some err
    | none => firstWalkError rest

/-- An operating system without failures whose walk visits the directory and then every
file, in the order of the file table. -/
def exampleIoEnv : IoEnv :=
  { walk := fun fs dir =>
      { path := dir, isDir := true, err := none } ::
        fs.map (fun kv => { path := kv.1, isDir := false, err := none }),
    openErr := fun _ _ => none,
    createErr := fun _ _ => none,
    copyErr := fun _ _ _ => none,
    removeErr := fun _ _ => none }

/-! ## Field checks: frame and error lemmas -/

/-- Everything but the identifier counter is left alone by one field check. -/
theorem handleEachField_world (env : Env) (context : Context) (lo : StructuredLog)
    (label : ctxKey) (sl : MangoLogger) (w : World) :
    ∃ k, (handleEachField env context lo label sl w).2.2 = { w with uuidCalls := k } := by
  unfold handleEachField handleValueMissing World.uuidNewString
  cases GoAny.assertString (context.Value label) <;> simp only
  · split_ifs <;> exact ⟨_, rfl⟩
  · exact ⟨_, rfl⟩

/-- Whether a field check fails, and with which error, does not depend on the record,
the world or the libraries. -/
theorem handleEachField_err (env : Env) (context : Context) (lo : StructuredLog)
    (label : ctxKey) (sl : MangoLogger) (w : World) :
    (handleEachField env context lo label sl w).2.1 = fieldError context sl label := by
  unfold fieldError handleEachField handleValueMissing handleExistentValues World.uuidNewString
  cases GoAny.assertString (context.Value label) <;> simp only <;> split_ifs <;> rfl

theorem wrapError_Is_errStrictModeOn (msg : String) :
    (GoError.wrapError msg errStrictModeOn).Is errStrictModeOn = true := by
  simp [GoError.Is, errStrictModeOn]

/-- Every error of a field check wraps the strict-mode sentinel. -/
theorem fieldError_Is (context : Context) (sl : MangoLogger) (label : ctxKey) (e : GoError)
    (h : fieldError context sl label = some e) : e.Is errStrictModeOn = true := by
  unfold fieldError handleEachField handleValueMissing handleExistentValues
    World.uuidNewString at h
  cases hv : GoAny.assertString (context.Value label) <;> rw [hv] at h <;> simp only at h <;>
    split_ifs at h <;> simp at h <;> subst h <;> exact wrapError_Is_errStrictModeOn _

theorem handleFieldsLoop_world (env : Env) (context : Context) (sl : MangoLogger)
    (l : List ctxKey) (lo : StructuredLog) (w : World) :
    ∃ k, (handleFieldsLoop env context sl l lo w).2.2 = { w with uuidCalls := k } := by
  induction l generalizing lo w with
  | nil => exact ⟨w.uuidCalls, rfl⟩
  | cons label rest ih =>
    unfold handleFieldsLoop
    obtain ⟨k, hk⟩ := handleEachField_world env context lo label sl w
    rcases hr : handleEachField env context lo label sl w with ⟨lo1, e, w1⟩
    rw [hr] at hk
    simp only at hk
    subst hk
    cases e with
    | some err => exact ⟨k, rfl⟩
    | none =>
      obtain ⟨k2, hk2⟩ := ih lo1 { w with uuidCalls := k }
      exact ⟨k2, by simpa using hk2⟩

/-- The loop returns the error of the first label, in list order, whose check fails. -/
theorem handleFieldsLoop_err (env : Env) (context : Context) (sl : MangoLogger)
    (l : List ctxKey) (lo : StructuredLog) (w : World) :
    (handleFieldsLoop env context sl l lo w).2.1 = l.findSome? (fieldError context sl) := by
  induction l generalizing lo w with
  | nil => rfl
  | cons label rest ih =>
    unfold handleFieldsLoop
    have he := handleEachField_err env context lo label sl w
    rcases hr : handleEachField env context lo label sl w with ⟨lo1, e, w1⟩
    rw [hr] at he
    simp only at he
    cases e with
    | some err => simp [List.findSome?, ← he]
    | none => simp [List.findSome?, ← he, ih]

/-! ## Dispatch order -/

/-- C1 (as amended): with output enabled and a record that passes validation, `Handle`
serializes the record once. When the serialization succeeds it runs the console, file and
syslog stages in that order on it. A failing stage ends the call: its error is the result
and the world is the one that stage left, so later sinks did nothing and earlier ones had
produced their output. If no stage fails the result is that of the syslog stage, which is
success when syslog is not configured; with no sink enabled the result is success. When
the serialization fails, with a sink enabled, the result is the serialization error and
the world is the one validation left with one diagnostic on standard output: no sink wrote
to standard error, the log writer or syslog. -/
theorem Handle_sink_order (env : Env) (sl : MangoLogger) (context : Context)
    (record : Record) (w w1 : World) (log : StructuredLog)
    (hOut : sl.Config.Out.Enabled = true)
    (hBuild : sl.buildLog env context record w = (log, none, w1)) :
    (¬ someSinkEnabled sl.Config → (sl.Handle env context record w).1 = none) ∧
    (∀ jsonOut, jsonMarshal env log = .ok jsonOut → someSinkEnabled sl.Config →
      (∀ e, (consoleStage env sl log jsonOut w1).1 = some e →
        sl.Handle env context record w
          = (some e, sl.Config, (consoleStage env sl log jsonOut w1).2)) ∧
      ((consoleStage env sl log jsonOut w1).1 = none →
        ∀ e, (fileStage env sl log jsonOut (consoleStage env sl log jsonOut w1).2).1 = some e →
        sl.Handle env context record w
          = (some e, sl.Config,
              (fileStage env sl log jsonOut (consoleStage env sl log jsonOut w1).2).2)) ∧
      ((consoleStage env sl log jsonOut w1).1 = none →
        (fileStage env sl log jsonOut (consoleStage env sl log jsonOut w1).2).1 = none →
        sl.Handle env context record w
          = syslogStage env sl log jsonOut
              (fileStage env sl log jsonOut (consoleStage env sl log jsonOut w1).2).2)) ∧
    (∀ err, jsonMarshal env log = .error err → someSinkEnabled sl.Config →
      sl.Handle env context record w
        = (some err, sl.Config,
            { w1 with Stdout := w1.Stdout ++
              ["Failed to marshal the StructuredLog. Internal error, should never happen\n"] }) ∧
      (sl.Handle env context record w).2.2.Stderr = w1.Stderr ∧
      (sl.Handle env context record w).2.2.LogWriter = w1.LogWriter ∧
      (sl.Handle env context record w).2.2.Syslog = w1.Syslog) := by
  have hgate : someSinkEnabled sl.Config →
      (!sl.Config.Out.File.Enabled && !sl.Config.Out.Cli.Enabled
        && decide (sl.Config.Out.Syslog.Facility = "")) = false := by
    intro hS
    unfold someSinkEnabled at hS
    rcases hS with h | h | h
    · simp [h]
    · simp [h]
    · simp [h]
  have hH : ∀ jsonOut, jsonMarshal env log = .ok jsonOut → someSinkEnabled sl.Config →
      sl.Handle env context record w =
        match (consoleStage env sl log jsonOut w1).1 with
        | some e => (some e, sl.Config, (consoleStage env sl log jsonOut w1).2)
        | none =>
          match (fileStage env sl log jsonOut (consoleStage env sl log jsonOut w1).2).1 with
          | some e => (some e, sl.Config,
              (fileStage env sl log jsonOut (consoleStage env sl log jsonOut w1).2).2)
          | none => syslogStage env sl log jsonOut
              (fileStage env sl log jsonOut (consoleStage env sl log jsonOut w1).2).2 := by
    intro jsonOut hJson hS
    unfold MangoLogger.Handle
    simp only [hOut, hgate hS, hBuild, hJson]
    simp only [consoleStage, fileStage, syslogStage]
    rfl
  refine ⟨?_, ?_, ?_⟩
  · intro hS
    unfold someSinkEnabled at hS
    push_neg at hS
    obtain ⟨h1, h2, h3⟩ := hS
    unfold MangoLogger.Handle
    simp [hOut, h1, h2, h3]
  · intro jsonOut hJson hS
    have h := hH jsonOut hJson hS
    refine ⟨?_, ?_, ?_⟩
    · intro e he
      rw [h, he]
    · intro hc e he
      rw [h, hc, he]
    · intro hc hf
      rw [h, hc, hf]
  · intro err hJson hS
    have h : sl.Handle env context record w
        = (some err, sl.Config,
            { w1 with Stdout := w1.Stdout ++
              ["Failed to marshal the StructuredLog. Internal error, should never happen\n"] }) := by
      unfold MangoLogger.Handle
      simp only [hOut, hgate hS, hBuild, hJson]
      rfl
    rw [h]
    exact ⟨rfl, rfl, rfl, rfl⟩

/-- C1 (witness): the run of `TestMangoLogger_Handle_StrictModeOn_Facility_Invalid`.
Console and file are enabled, the facility name is invalid, the level is info: the
result is the facility error, after the console line and the file line were written. -/
theorem Handle_sink_order_witness :
    (NewMangoLogger facilityInvalidConfig).Config.Out.Enabled = true ∧
    (NewMangoLogger facilityInvalidConfig).Handle exampleEnv noCorrelationContext infoRecord
        World.init
      = (some errFacility, (NewMangoLogger facilityInvalidConfig).Config,
          { Stdout := ["friendly\n", "Facility level not valid\n"],
            Stderr := [],
            LogWriter := ["json:00000000-0000-0000-0000-000000000000\n"],
            Syslog := [],
            REQUIRED_FIELDS := [TYPE, APPLICATION, OPERATION, CORRELATION_ID],
            uuidCalls := 2 }) :=
  ⟨rfl,
   (((Handle_sink_order exampleEnv (NewMangoLogger facilityInvalidConfig)
      noCorrelationContext infoRecord World.init
      { Stdout := [], Stderr := [], LogWriter := [], Syslog := [],
        REQUIRED_FIELDS := [TYPE, APPLICATION, OPERATION, CORRELATION_ID], uuidCalls := 2 }
      { Timestamp := "0001-01-01T00:00:00Z", Type_ := "Business", Application := "testApp",
        Operation := "operation", Correlationid := "01010101-0101-0101-0101-010101010101",
        LogId := "00000000-0000-0000-0000-000000000000", Level := LevelInfo,
        Message := .str "hello from sub1", Attributes := [] }
      rfl rfl).2.1 "json:00000000-0000-0000-0000-000000000000" rfl
      (Or.inl rfl)).2.2 rfl rfl).trans rfl⟩

/-- C1 (counterexample): output and the console sink are enabled and nothing is strict; the
record carries an attribute whose value is a function. Validation passes and the console
sink does not fail on the record, yet `Handle` returns the serialization error, having
invoked no sink. -/
theorem Handle_sink_order_counterexample :
    consoleOnlyConfig.Out.Enabled = true ∧
    ((NewMangoLogger consoleOnlyConfig).buildLog exampleEnv noCorrelationContext
        funcAttrRecord World.init).2.1 = none ∧
    ((NewMangoLogger consoleOnlyConfig).handlePromptOutput exampleEnv
        ((NewMangoLogger consoleOnlyConfig).buildLog exampleEnv noCorrelationContext
          funcAttrRecord World.init).1 "" World.init).1 = none ∧
    ((NewMangoLogger consoleOnlyConfig).Handle exampleEnv noCorrelationContext
        funcAttrRecord World.init).1
      = some (.errorString "json: unsupported type: func()") ∧
    ((NewMangoLogger consoleOnlyConfig).Handle exampleEnv noCorrelationContext
        funcAttrRecord World.init).2.2.Stdout
      = ["Failed to marshal the StructuredLog. Internal error, should never happen\n"] := by
  refine ⟨rfl, rfl, rfl, rfl, rfl⟩

theorem UUID_String_length (u : UUID) : u.String.length = 36 := by
  simp [UUID.String, UUID.hex, hexByte, String.length]

theorem UUID_String_ne_empty (u : UUID) : u.String ≠ "" := by
  intro h
  have := UUID_String_length u
  rw [h] at this
  simp at this

theorem handleFieldsLoop_cons (env : Env) (context : Context) (sl : MangoLogger)
    (label : ctxKey) (rest : List ctxKey) (lo : StructuredLog) (w : World) :
    handleFieldsLoop env context sl (label :: rest) lo w =
      match handleEachField env context lo label sl w with
      | (lo1, some err, w1) => (lo1, some err, w1)
      | (lo1, none, w1) => handleFieldsLoop env context sl rest lo1 w1 := rfl

theorem handleFieldsLoop_append (env : Env) (context : Context) (sl : MangoLogger)
    (l1 l2 : List ctxKey) (lo : StructuredLog) (w : World) :
    handleFieldsLoop env context sl (l1 ++ l2) lo w =
      match handleFieldsLoop env context sl l1 lo w with
      | (lo1, some err, w1) => (lo1, some err, w1)
      | (lo1, none, w1) => handleFieldsLoop env context sl l2 lo1 w1 := by
  induction l1 generalizing lo w with
  | nil => rfl
  | cons label rest ih =>
    simp only [List.cons_append, handleFieldsLoop_cons]
    rcases hr : handleEachField env context lo label sl w with ⟨lo1, e, w1⟩
    cases e with
    | some err => rfl
    | none => simp only; rw [ih]

/-- The check of an absent correlation id succeeds only by drawing a fresh identifier. -/
theorem handleEachField_correlation_missing (env : Env) (context : Context)
    (lo lo1 : StructuredLog) (sl : MangoLogger) (w w1 : World)
    (hMissing : GoAny.assertString (context.Value CORRELATION_ID) = none)
    (h : handleEachField env context lo CORRELATION_ID sl w = (lo1, none, w1)) :
    sl.Config.MangoConfig.CorrelationId.AutoGenerate = true ∧
    lo1 = { lo with Correlationid := (env.uuidNew w.uuidCalls).String } ∧
    w1 = { w with uuidCalls := w.uuidCalls + 1 } := by
  unfold handleEachField handleValueMissing World.uuidNewString at h
  rw [hMissing] at h
  simp only [if_true] at h
  split_ifs at h with ha
  · simp only [Prod.mk.injEq] at h
    exact ⟨ha, h.1.symm, h.2.2.symm⟩
  · simp at h

/-- A check of a present correlation id changes nothing. -/
theorem handleEachField_correlation_present (env : Env) (context : Context)
    (lo : StructuredLog) (sl : MangoLogger) (w : World) (v : String)
    (hPresent : GoAny.assertString (context.Value CORRELATION_ID) = some v) :
    handleEachField env context lo CORRELATION_ID sl w = (lo, none, w) := by
  unfold handleEachField handleExistentValues
  rw [hPresent]
  simp [CORRELATION_ID, OPERATION, APPLICATION, TYPE]

theorem handleRequiredFields_err (env : Env) (sl : MangoLogger) (context : Context)
    (lo : StructuredLog) (w : World) :
    (sl.handleRequiredFields env context lo w).2.1
      = (checkedFields sl w).findSome? (fieldError context sl) := by
  unfold MangoLogger.handleRequiredFields checkedFields
  rw [handleFieldsLoop_err]
  split_ifs <;> rfl

theorem handleRequiredFields_world (env : Env) (sl : MangoLogger) (context : Context)
    (lo : StructuredLog) (w : World) :
    ∃ k, (sl.handleRequiredFields env context lo w).2.2
      = { w with REQUIRED_FIELDS := checkedFields sl w, uuidCalls := k } := by
  unfold MangoLogger.handleRequiredFields checkedFields
  split_ifs
  · obtain ⟨k, hk⟩ := handleFieldsLoop_world env context sl (w.REQUIRED_FIELDS ++ [CORRELATION_ID])
      lo { w with REQUIRED_FIELDS := w.REQUIRED_FIELDS ++ [CORRELATION_ID] }
    exact ⟨k, by simpa using hk⟩
  · obtain ⟨k, hk⟩ := handleFieldsLoop_world env context sl w.REQUIRED_FIELDS lo w
    exact ⟨k, by simpa using hk⟩

theorem buildLog_err (env : Env) (sl : MangoLogger) (context : Context) (record : Record)
    (w : World) :
    (sl.buildLog env context record w).2.1
      = (checkedFields sl w).findSome? (fieldError context sl) := by
  have h := handleRequiredFields_err env sl context (sl.makeBaseLog env record w).1
    (sl.makeBaseLog env record w).2
  have hc : checkedFields sl (sl.makeBaseLog env record w).2 = checkedFields sl w := rfl
  rw [hc] at h
  unfold MangoLogger.buildLog
  rcases hr : sl.handleRequiredFields env context (sl.makeBaseLog env record w).1
    (sl.makeBaseLog env record w).2 with ⟨lo1, e, w2⟩
  rw [hr] at h
  simp only at h
  simp only [hr]
  cases e with
  | some err => exact h
  | none =>
    simp only
    rw [← h]
    cases GoAny.assertString (context.Value CORRELATION_ID) <;> rfl

/-- What `buildLog` does to the world: `REQUIRED_FIELDS` becomes the list it checked, the
identifier counter advances, and on failure one diagnostic line goes to standard output. -/
theorem buildLog_world (env : Env) (sl : MangoLogger) (context : Context) (record : Record)
    (w : World) :
    ∃ k, (sl.buildLog env context record w).2.2
      = { w with
          Stdout := w.Stdout ++
            (match (sl.buildLog env context record w).2.1 with
              | some err => ["Required fields are not present. " ++ err.Error ++ "\n"]
              | none => []),
          REQUIRED_FIELDS := checkedFields sl w, uuidCalls := k } := by
  obtain ⟨k, hk⟩ := handleRequiredFields_world env sl context (sl.makeBaseLog env record w).1
    (sl.makeBaseLog env record w).2
  have hc : checkedFields sl (sl.makeBaseLog env record w).2 = checkedFields sl w := rfl
  rw [hc] at hk
  unfold MangoLogger.buildLog
  rcases hr : sl.handleRequiredFields env context (sl.makeBaseLog env record w).1
    (sl.makeBaseLog env record w).2 with ⟨lo1, e, w2⟩
  rw [hr] at hk
  simp only at hk
  simp only [hr]
  subst hk
  refine ⟨k, ?_⟩
  cases e with
  | some err => simp [MangoLogger.makeBaseLog, World.uuidNewString]
  | none =>
    cases GoAny.assertString (context.Value CORRELATION_ID) <;>
      simp [MangoLogger.makeBaseLog, World.uuidNewString]

/-! ## Validation failure -/

/-- C2: with output and at least one sink enabled, if `buildLog` fails validation then
`Handle` returns exactly that error and leaves the world as `buildLog` left it: no sink
is touched. Nothing goes to standard error, the file writer or syslog, and the only text
on standard output is the diagnostic notice `buildLog` itself prints, not a record. -/
theorem Handle_validation_failure (env : Env) (sl : MangoLogger) (context : Context)
    (record : Record) (w w1 : World) (log : StructuredLog) (err : GoError)
    (hOut : sl.Config.Out.Enabled = true)
    (hSink : someSinkEnabled sl.Config)
    (hBuild : sl.buildLog env context record w = (log, some err, w1)) :
    sl.Handle env context record w = (some err, sl.Config, w1) ∧
    w1.Stdout = w.Stdout ++ ["Required fields are not present. " ++ err.Error ++ "\n"] ∧
    w1.Stderr = w.Stderr ∧ w1.LogWriter = w.LogWriter ∧ w1.Syslog = w.Syslog := by
  have hgate : (!sl.Config.Out.File.Enabled && !sl.Config.Out.Cli.Enabled
      && decide (sl.Config.Out.Syslog.Facility = "")) = false := by
    unfold someSinkEnabled at hSink
    rcases hSink with h | h | h
    · simp [h]
    · simp [h]
    · simp [h]
  obtain ⟨k, hk⟩ := buildLog_world env sl context record w
  rw [hBuild] at hk
  simp only at hk
  subst hk
  refine ⟨?_, rfl, rfl, rfl, rfl⟩
  unfold MangoLogger.Handle
  simp only [hOut, hgate, hBuild]
  rfl

/-- C2 (witness): the strict test configuration with an empty context; the check of
`type` fails first. -/
theorem Handle_validation_failure_witness :
    (NewMangoLogger facilityInvalidConfig).Config.Out.Enabled = true ∧
    someSinkEnabled (NewMangoLogger facilityInvalidConfig).Config ∧
    (NewMangoLogger facilityInvalidConfig).Handle exampleEnv [] infoRecord World.init
      = (some (.wrapError (missingMessage TYPE) errStrictModeOn),
          (NewMangoLogger facilityInvalidConfig).Config,
          { Stdout := ["Required fields are not present. " ++ missingMessage TYPE ++ "\n"],
            Stderr := [], LogWriter := [], Syslog := [],
            REQUIRED_FIELDS := [TYPE, APPLICATION, OPERATION, CORRELATION_ID],
            uuidCalls := 1 }) :=
  ⟨rfl, Or.inl rfl,
    (Handle_validation_failure exampleEnv (NewMangoLogger facilityInvalidConfig) []
      infoRecord World.init
      { Stdout := ["Required fields are not present. " ++ missingMessage TYPE ++ "\n"],
        Stderr := [], LogWriter := [], Syslog := [],
        REQUIRED_FIELDS := [TYPE, APPLICATION, OPERATION, CORRELATION_ID], uuidCalls := 1 }
      { Timestamp := "0001-01-01T00:00:00Z", Type_ := "unknownType",
        Application := "unknownApplication", Operation := "unknownOperation",
        Correlationid := "", LogId := "00000000-0000-0000-0000-000000000000",
        Level := LevelInfo, Message := .str "hello from sub1", Attributes := [] }
      (.wrapError (missingMessage TYPE) errStrictModeOn) rfl (Or.inl rfl) rfl).1⟩

theorem sink_gate_false (config : LogConfig) (hSink : someSinkEnabled config) :
    (!config.Out.File.Enabled && !config.Out.Cli.Enabled
      && decide (config.Out.Syslog.Facility = "")) = false := by
  unfold someSinkEnabled at hSink
  rcases hSink with h | h | h
  · simp [h]
  · simp [h]
  · simp [h]

theorem Handle_of_buildLog_error (env : Env) (sl : MangoLogger) (context : Context)
    (record : Record) (w w1 : World) (log : StructuredLog) (err : GoError)
    (hOut : sl.Config.Out.Enabled = true)
    (hSink : someSinkEnabled sl.Config)
    (hBuild : sl.buildLog env context record w = (log, some err, w1)) :
    sl.Handle env context record w = (some err, sl.Config, w1) := by
  unfold MangoLogger.Handle
  simp only [hOut, sink_gate_false sl.Config hSink, hBuild]
  rfl

theorem fieldError_missing (context : Context) (sl : MangoLogger) (label : ctxKey)
    (hMissing : GoAny.assertString (context.Value label) = none)
    (hLabel : CORRELATION_ID ≠ label) (hStrict : sl.Config.MangoConfig.Strict = true) :
    fieldError context sl label = some (.wrapError (missingMessage label) errStrictModeOn) := by
  unfold fieldError handleEachField handleValueMissing
  rw [hMissing]
  simp [hLabel, hStrict]

theorem fieldError_correlation_missing (context : Context) (sl : MangoLogger)
    (hMissing : GoAny.assertString (context.Value CORRELATION_ID) = none)
    (hAuto : sl.Config.MangoConfig.CorrelationId.AutoGenerate = false) :
    fieldError context sl CORRELATION_ID
      = some (.wrapError (missingMessage CORRELATION_ID) errStrictModeOn) := by
  unfold fieldError handleEachField handleValueMissing
  rw [hMissing]
  simp [hAuto]

/-- A failing `buildLog`, decomposed: its error is the first failing check. -/
theorem buildLog_fails_of_mem (env : Env) (sl : MangoLogger) (context : Context)
    (record : Record) (w : World) (label : ctxKey) (e0 : GoError)
    (hMem : label ∈ checkedFields sl w) (hErr : fieldError context sl label = some e0) :
    ∃ log err w1, sl.buildLog env context record w = (log, some err, w1) ∧
      err.Is errStrictModeOn = true := by
  have h := buildLog_err env sl context record w
  have hsome : ((checkedFields sl w).findSome? (fieldError context sl)).isSome = true := by
    rw [List.findSome?_isSome_iff]
    exact ⟨label, hMem, by simp [hErr]⟩
  obtain ⟨err, herr⟩ := Option.isSome_iff_exists.mp hsome
  rw [herr] at h
  obtain ⟨x, _, hx⟩ := List.exists_of_findSome?_eq_some herr
  refine ⟨(sl.buildLog env context record w).1, err, (sl.buildLog env context record w).2.2,
    ?_, fieldError_Is context sl x err hx⟩
  rw [← h]

theorem mem_checkedFields_of_reachable (sl : MangoLogger) (w : World)
    (hReach : RequiredFieldsReachable w.REQUIRED_FIELDS) :
    TYPE ∈ checkedFields sl w ∧ APPLICATION ∈ checkedFields sl w ∧
      OPERATION ∈ checkedFields sl w := by
  obtain ⟨n, hn⟩ := hReach
  unfold checkedFields
  split_ifs <;> simp [hn, REQUIRED_FIELDS_init]

/-! ## Strict mode -/

/-- C3: with general strict mode on, whenever the context lacks a string value for one of
operation, application and type, `buildLog` returns an error that wraps the strict-mode
sentinel, for any other fields and flags and any state of `REQUIRED_FIELDS` a process can
reach; and `Handle`, when output and a sink are enabled, returns that same error. -/
theorem buildLog_strict_missing_field (env : Env) (sl : MangoLogger) (context : Context)
    (record : Record) (w : World)
    (hStrict : sl.Config.MangoConfig.Strict = true)
    (hReach : RequiredFieldsReachable w.REQUIRED_FIELDS)
    (hMissing : GoAny.assertString (context.Value OPERATION) = none ∨
      GoAny.assertString (context.Value APPLICATION) = none ∨
      GoAny.assertString (context.Value TYPE) = none) :
    ∃ log err w1, sl.buildLog env context record w = (log, some err, w1) ∧
      err.Is errStrictModeOn = true ∧
      (sl.Config.Out.Enabled = true → someSinkEnabled sl.Config →
        sl.Handle env context record w = (some err, sl.Config, w1)) := by
  obtain ⟨hT, hA, hO⟩ := mem_checkedFields_of_reachable sl w hReach
  have key : ∃ log err w1, sl.buildLog env context record w = (log, some err, w1) ∧
      err.Is errStrictModeOn = true := by
    rcases hMissing with h | h | h
    · exact buildLog_fails_of_mem env sl context record w OPERATION _ hO
        (fieldError_missing context sl OPERATION h (by decide) hStrict)
    · exact buildLog_fails_of_mem env sl context record w APPLICATION _ hA
        (fieldError_missing context sl APPLICATION h (by decide) hStrict)
    · exact buildLog_fails_of_mem env sl context record w TYPE _ hT
        (fieldError_missing context sl TYPE h (by decide) hStrict)
  obtain ⟨log, err, w1, hb, hi⟩ := key
  exact ⟨log, err, w1, hb, hi, fun hOut hSink =>
    Handle_of_buildLog_error env sl context record w w1 log err hOut hSink hb⟩


/-- C3 (witness): the strict test configuration with an empty context. -/
theorem buildLog_strict_missing_field_witness :
    (NewMangoLogger facilityInvalidConfig).Config.MangoConfig.Strict = true ∧
    RequiredFieldsReachable World.init.REQUIRED_FIELDS ∧
    ∃ log err w1,
      (NewMangoLogger facilityInvalidConfig).buildLog exampleEnv [] infoRecord World.init
        = (log, some err, w1) ∧
      err.Is errStrictModeOn = true ∧
      ((NewMangoLogger facilityInvalidConfig).Config.Out.Enabled = true →
        someSinkEnabled (NewMangoLogger facilityInvalidConfig).Config →
        (NewMangoLogger facilityInvalidConfig).Handle exampleEnv [] infoRecord World.init
          = (some err, (NewMangoLogger facilityInvalidConfig).Config, w1)) :=
  ⟨rfl, ⟨0, rfl⟩,
    buildLog_strict_missing_field exampleEnv (NewMangoLogger facilityInvalidConfig) []
      infoRecord World.init rfl ⟨0, rfl⟩ (Or.inl rfl)⟩

/-! ## Non-strict defaults -/

/-- C4: with general strict mode and correlation-strict both off and `REQUIRED_FIELDS`
holding only type, application, operation, `buildLog` succeeds for every context; in the
record each of operation, application and type is the string value of the context when
there is one and the placeholder otherwise, and the correlation id is the string value
of the context when there is one and empty otherwise. -/
theorem buildLog_nonstrict_defaults (env : Env) (sl : MangoLogger) (context : Context)
    (record : Record) (w : World)
    (hStrict : sl.Config.MangoConfig.Strict = false)
    (hCorr : sl.Config.MangoConfig.CorrelationId.Strict = false)
    (hFields : w.REQUIRED_FIELDS = [TYPE, APPLICATION, OPERATION]) :
    ∃ log w1, sl.buildLog env context record w = (log, none, w1) ∧
      log.Operation = (GoAny.assertString (context.Value OPERATION)).getD "unknownOperation" ∧
      log.Application
        = (GoAny.assertString (context.Value APPLICATION)).getD "unknownApplication" ∧
      log.Type_ = (GoAny.assertString (context.Value TYPE)).getD "unknownType" ∧
      log.Correlationid = (GoAny.assertString (context.Value CORRELATION_ID)).getD "" := by
  have hne1 : ¬ (CORRELATION_ID = TYPE) := by decide
  have hne2 : ¬ (CORRELATION_ID = APPLICATION) := by decide
  have hne3 : ¬ (CORRELATION_ID = OPERATION) := by decide
  have hne4 : ¬ (TYPE = OPERATION) := by decide
  have hne5 : ¬ (TYPE = APPLICATION) := by decide
  have hne6 : ¬ (APPLICATION = OPERATION) := by decide
  unfold MangoLogger.buildLog MangoLogger.handleRequiredFields MangoLogger.makeBaseLog
    World.uuidNewString
  simp only [hCorr, hFields, Bool.false_eq_true, if_false, handleFieldsLoop, handleEachField,
    handleValueMissing, handleExistentValues, hStrict, hne1, hne2, hne3, hne4, hne5, hne6,
    if_true]
  cases GoAny.assertString (context.Value TYPE) <;>
    cases GoAny.assertString (context.Value APPLICATION) <;>
    cases GoAny.assertString (context.Value OPERATION) <;>
    cases GoAny.assertString (context.Value CORRELATION_ID) <;>
    exact ⟨_, _, rfl, rfl, rfl, rfl, rfl⟩


/-- C4 (witness): a non-strict configuration, a context without correlation id. -/
theorem buildLog_nonstrict_defaults_witness :
    (NewMangoLogger consoleOnlyConfig).Config.MangoConfig.Strict = false ∧
    (NewMangoLogger consoleOnlyConfig).Config.MangoConfig.CorrelationId.Strict = false ∧
    World.init.REQUIRED_FIELDS = [TYPE, APPLICATION, OPERATION] ∧
    ∃ log w1,
      (NewMangoLogger consoleOnlyConfig).buildLog exampleEnv noCorrelationContext infoRecord
        World.init = (log, none, w1) ∧
      log.Operation
        = (GoAny.assertString (Context.Value noCorrelationContext OPERATION)).getD
            "unknownOperation" ∧
      log.Application
        = (GoAny.assertString (Context.Value noCorrelationContext APPLICATION)).getD
            "unknownApplication" ∧
      log.Type_
        = (GoAny.assertString (Context.Value noCorrelationContext TYPE)).getD "unknownType" ∧
      log.Correlationid
        = (GoAny.assertString (Context.Value noCorrelationContext CORRELATION_ID)).getD "" :=
  ⟨rfl, rfl, rfl,
    buildLog_nonstrict_defaults exampleEnv (NewMangoLogger consoleOnlyConfig)
      noCorrelationContext infoRecord World.init rfl rfl rfl⟩

theorem handleEachField_Type (env : Env) (context : Context) (lo lo1 : StructuredLog)
    (label : ctxKey) (sl : MangoLogger) (w w1 : World) (v : String)
    (hv : context.Value TYPE = some (.str v))
    (h : handleEachField env context lo label sl w = (lo1, none, w1)) :
    lo1.Type_ = if label = TYPE then v else lo.Type_ := by
  by_cases hl : label = TYPE
  · subst hl
    unfold handleEachField handleExistentValues at h
    simp only [hv, GoAny.assertString] at h
    have h1 : ¬ (TYPE = OPERATION) := by decide
    have h2 : ¬ (TYPE = APPLICATION) := by decide
    simp only [h1, h2, if_false, if_true] at h
    split_ifs at h <;> simp only [Prod.mk.injEq] at h
    · exact absurd h.2.1 (by simp)
    · rw [← h.1]; simp
    · rw [← h.1]; simp
  · simp only [hl, if_false]
    unfold handleEachField handleExistentValues handleValueMissing World.uuidNewString at h
    cases hc : GoAny.assertString (context.Value label) <;> rw [hc] at h <;>
      simp only [hl, if_false] at h <;> split_ifs at h <;>
      simp only [Prod.mk.injEq] at h <;> rw [← h.1]

theorem handleFieldsLoop_Type (env : Env) (context : Context) (sl : MangoLogger)
    (v : String) (hv : context.Value TYPE = some (.str v))
    (l : List ctxKey) (lo lo1 : StructuredLog) (w w1 : World)
    (h : handleFieldsLoop env context sl l lo w = (lo1, none, w1)) :
    lo1.Type_ = if TYPE ∈ l then v else lo.Type_ := by
  induction l generalizing lo w with
  | nil =>
    simp only [handleFieldsLoop, Prod.mk.injEq] at h
    simp [← h.1]
  | cons label rest ih =>
    rw [handleFieldsLoop_cons] at h
    rcases hr : handleEachField env context lo label sl w with ⟨lo2, e, w2⟩
    rw [hr] at h
    cases e with
    | some err => simp at h
    | none =>
      simp only at h
      have h1 := handleEachField_Type env context lo lo2 label sl w w2 v hv hr
      have h2 := ih lo2 w2 h
      rw [h2, h1]
      by_cases hl : label = TYPE
      · subst hl; simp
      · have : ¬ (TYPE = label) := fun h => hl h.symm
        simp [hl, this]


theorem buildLog_Type (env : Env) (sl : MangoLogger) (context : Context) (record : Record)
    (w w1 : World) (log : StructuredLog) (v : String)
    (hv : context.Value TYPE = some (.str v))
    (hMem : TYPE ∈ checkedFields sl w)
    (h : sl.buildLog env context record w = (log, none, w1)) : log.Type_ = v := by
  unfold MangoLogger.buildLog at h
  rcases hr : sl.handleRequiredFields env context (sl.makeBaseLog env record w).1
    (sl.makeBaseLog env record w).2 with ⟨lo1, e, w2⟩
  simp only [hr] at h
  have hloop : handleFieldsLoop env context sl (checkedFields sl w)
      (sl.makeBaseLog env record w).1
      { (sl.makeBaseLog env record w).2 with REQUIRED_FIELDS := checkedFields sl w }
      = (lo1, e, w2) := by
    rw [← hr]
    unfold MangoLogger.handleRequiredFields checkedFields
    split_ifs <;> rfl
  cases e with
  | some err => simp at h
  | none =>
    have ht := handleFieldsLoop_Type env context sl v hv _ _ _ _ _ hloop
    simp only [hMem, if_true] at ht
    cases hc : GoAny.assertString (context.Value CORRELATION_ID) <;> rw [hc] at h <;>
      simp only [Prod.mk.injEq] at h <;> rw [← h.1] <;> exact ht

/-! ## The type allow-list -/

/-- C5: for a context whose type key holds the string `v`. The allow-list is exactly
Business, Security, Performance. Under general strict mode the check of the type field
fails, with an error wrapping the strict-mode sentinel, if and only if `v` is not in the
list, and when `v` is in the list it stores `v` as the type. Under non-strict mode the
check never fails and stores `v` unchanged. Every record `buildLog` returns successfully
then has type `v`. -/
theorem handleEachField_type (env : Env) (context : Context) (lo : StructuredLog)
    (sl : MangoLogger) (w : World) (v : String)
    (hv : context.Value TYPE = some (.str v)) :
    (v ∈ ALLOWED_TYPES ↔ v = "Business" ∨ v = "Security" ∨ v = "Performance") ∧
    (sl.Config.MangoConfig.Strict = true →
      ((∃ e, (handleEachField env context lo TYPE sl w).2.1 = some e ∧
          e.Is errStrictModeOn = true) ↔ v ∉ ALLOWED_TYPES) ∧
      ((handleEachField env context lo TYPE sl w).2.1 = none ↔ v ∈ ALLOWED_TYPES) ∧
      (v ∈ ALLOWED_TYPES → (handleEachField env context lo TYPE sl w).1.Type_ = v)) ∧
    (sl.Config.MangoConfig.Strict = false →
      (handleEachField env context lo TYPE sl w).2.1 = none ∧
      (handleEachField env context lo TYPE sl w).1.Type_ = v) ∧
    (∀ (record : Record) (w0 w1 : World) (log : StructuredLog),
      RequiredFieldsReachable w0.REQUIRED_FIELDS →
      sl.buildLog env context record w0 = (log, none, w1) → log.Type_ = v) := by
  have h1 : ¬ (TYPE = OPERATION) := by decide
  have h2 : ¬ (TYPE = APPLICATION) := by decide
  have hE : handleEachField env context lo TYPE sl w =
      if sl.Config.MangoConfig.Strict = true then
        if v ∈ ALLOWED_TYPES then ({ lo with Type_ := v }, none, w)
        else (lo, some (.wrapError (notAllowedMessage TYPE v) errStrictModeOn), w)
      else ({ lo with Type_ := v }, none, w) := by
    unfold handleEachField handleExistentValues
    simp only [hv, GoAny.assertString, h1, h2, if_false, if_true]
    by_cases hs : sl.Config.MangoConfig.Strict = true <;>
      by_cases hm : v ∈ ALLOWED_TYPES <;> simp [hs, hm]
  refine ⟨by simp [ALLOWED_TYPES, BusinessType, SecurityType, PerformanceType], ?_, ?_, ?_⟩
  · intro hs
    rw [hE]
    by_cases hm : v ∈ ALLOWED_TYPES
    · simp [hs, hm]
    · simp [hs, hm, wrapError_Is_errStrictModeOn]
  · intro hs
    rw [hE]
    simp [hs]
  · intro record w0 w1 log hReach hb
    exact buildLog_Type env sl context record w0 w1 log v hv
      (mem_checkedFields_of_reachable sl w0 hReach).1 hb


/-- C5 (witness): the type Business under the strict test configuration. -/
theorem handleEachField_type_witness :
    Context.Value noCorrelationContext TYPE = some (.str "Business") ∧
    (handleEachField exampleEnv noCorrelationContext StructuredLog.zero TYPE
      (NewMangoLogger facilityInvalidConfig) World.init).2.1 = none :=
  ⟨rfl,
    ((handleEachField_type exampleEnv noCorrelationContext StructuredLog.zero
      (NewMangoLogger facilityInvalidConfig) World.init "Business" rfl).2.1 rfl).2.1.mpr
      (by decide)⟩

theorem handleEachField_uuidCalls (env : Env) (context : Context) (lo : StructuredLog)
    (label : ctxKey) (sl : MangoLogger) (w : World) :
    w.uuidCalls ≤ (handleEachField env context lo label sl w).2.2.uuidCalls := by
  unfold handleEachField handleValueMissing World.uuidNewString
  cases GoAny.assertString (context.Value label) <;> simp only
  · split_ifs <;> simp
  · exact Nat.le_refl _

theorem handleFieldsLoop_uuidCalls (env : Env) (context : Context) (sl : MangoLogger)
    (l : List ctxKey) (lo : StructuredLog) (w : World) :
    w.uuidCalls ≤ (handleFieldsLoop env context sl l lo w).2.2.uuidCalls := by
  induction l generalizing lo w with
  | nil => exact Nat.le_refl _
  | cons label rest ih =>
    rw [handleFieldsLoop_cons]
    have h1 := handleEachField_uuidCalls env context lo label sl w
    rcases hr : handleEachField env context lo label sl w with ⟨lo1, e, w1⟩
    rw [hr] at h1
    cases e with
    | some err => exact h1
    | none => exact Nat.le_trans h1 (ih lo1 w1)

/-- Under correlation-strict, a successful `buildLog` for a context without a string
correlation id carries the identifier drawn last in the call. -/
theorem buildLog_generated (env : Env) (sl : MangoLogger) (context : Context)
    (record : Record) (w w1 : World) (log : StructuredLog)
    (hCorr : sl.Config.MangoConfig.CorrelationId.Strict = true)
    (hMissing : GoAny.assertString (context.Value CORRELATION_ID) = none)
    (h : sl.buildLog env context record w = (log, none, w1)) :
    log.Correlationid = (env.uuidNew (w1.uuidCalls - 1)).String ∧
      w.uuidCalls + 2 ≤ w1.uuidCalls := by
  unfold MangoLogger.buildLog at h
  rcases hr : sl.handleRequiredFields env context (sl.makeBaseLog env record w).1
    (sl.makeBaseLog env record w).2 with ⟨lo1, e, w2⟩
  simp only [hr, hMissing] at h
  cases e with
  | some err => simp at h
  | none =>
    simp only [Prod.mk.injEq, true_and] at h
    obtain ⟨h1, h2⟩ := h
    subst h1 h2
    unfold MangoLogger.handleRequiredFields at hr
    simp only [hCorr, if_true] at hr
    rw [handleFieldsLoop_append] at hr
    have hmono := handleFieldsLoop_uuidCalls env context sl
      (sl.makeBaseLog env record w).2.REQUIRED_FIELDS (sl.makeBaseLog env record w).1
      { (sl.makeBaseLog env record w).2 with
        REQUIRED_FIELDS := (sl.makeBaseLog env record w).2.REQUIRED_FIELDS ++ [CORRELATION_ID] }
    rcases hl : handleFieldsLoop env context sl
      (sl.makeBaseLog env record w).2.REQUIRED_FIELDS (sl.makeBaseLog env record w).1
      { (sl.makeBaseLog env record w).2 with
        REQUIRED_FIELDS := (sl.makeBaseLog env record w).2.REQUIRED_FIELDS ++ [CORRELATION_ID] }
      with ⟨la, ea, wa⟩
    rw [hl] at hr hmono
    cases ea with
    | some err => simp at hr
    | none =>
      simp only [handleFieldsLoop_cons] at hr
      rcases hf : handleEachField env context la CORRELATION_ID sl wa with ⟨lb, eb, wb⟩
      rw [hf] at hr
      cases eb with
      | some err => simp at hr
      | none =>
        simp only [handleFieldsLoop, Prod.mk.injEq, true_and] at hr
        obtain ⟨h3, h4⟩ := hr
        subst h3 h4
        obtain ⟨_, h5, h6⟩ :=
          handleEachField_correlation_missing env context la lb sl wa wb hMissing hf
        subst h5 h6
        have hbase : (sl.makeBaseLog env record w).2.uuidCalls = w.uuidCalls + 1 := rfl
        simp only at hmono
        rw [hbase] at hmono
        refine ⟨by simp, ?_⟩
        show w.uuidCalls + 2 ≤ wa.uuidCalls + 1
        omega

theorem buildLog_correlation_present (env : Env) (sl : MangoLogger) (context : Context)
    (record : Record) (w w1 : World) (log : StructuredLog) (v : String)
    (hPresent : GoAny.assertString (context.Value CORRELATION_ID) = some v)
    (h : sl.buildLog env context record w = (log, none, w1)) : log.Correlationid = v := by
  unfold MangoLogger.buildLog at h
  rcases hr : sl.handleRequiredFields env context (sl.makeBaseLog env record w).1
    (sl.makeBaseLog env record w).2 with ⟨lo1, e, w2⟩
  simp only [hr, hPresent] at h
  cases e with
  | some err => simp at h
  | none =>
    simp only [Prod.mk.injEq, true_and] at h
    rw [← h.1]

theorem buildLog_succeeds (env : Env) (sl : MangoLogger) (context : Context)
    (record : Record) (w : World)
    (hAll : ∀ x ∈ checkedFields sl w, fieldError context sl x = none) :
    ∃ log w1, sl.buildLog env context record w = (log, none, w1) := by
  have h := buildLog_err env sl context record w
  rw [List.findSome?_eq_none_iff.mpr hAll] at h
  refine ⟨(sl.buildLog env context record w).1, (sl.buildLog env context record w).2.2, ?_⟩
  rw [← h]

/-! ## Correlation id -/

/-- C6 (the code at the failing input): auto-generate is on, correlation-strict is off and
`REQUIRED_FIELDS` is the initial list. The context has valid operation, type and
application and no correlation id; `buildLog` succeeds, draws one identifier only (the
log id) and leaves the record's correlation id empty. -/
theorem buildLog_autoGenerate_not_reached :
    (NewMangoLogger autoGenerateOnlyConfig).Config.MangoConfig.CorrelationId.AutoGenerate
      = true ∧
    GoAny.assertString (Context.Value noCorrelationContext CORRELATION_ID) = none ∧
    ((NewMangoLogger autoGenerateOnlyConfig).buildLog exampleEnv noCorrelationContext
      infoRecord World.init).2.1 = none ∧
    ((NewMangoLogger autoGenerateOnlyConfig).buildLog exampleEnv noCorrelationContext
      infoRecord World.init).1.Correlationid = "" ∧
    ((NewMangoLogger autoGenerateOnlyConfig).buildLog exampleEnv noCorrelationContext
      infoRecord World.init).2.2.uuidCalls = 1 :=
  ⟨rfl, rfl, rfl, rfl, rfl⟩

/-- C7: with correlation-strict on and auto-generate off, whatever the general strict
flag and the state of `REQUIRED_FIELDS`, `buildLog` on a context without a string
correlation id returns an error that wraps the strict-mode sentinel. -/
theorem buildLog_correlation_strict_missing (env : Env) (sl : MangoLogger)
    (context : Context) (record : Record) (w : World)
    (hCorr : sl.Config.MangoConfig.CorrelationId.Strict = true)
    (hAuto : sl.Config.MangoConfig.CorrelationId.AutoGenerate = false)
    (hMissing : GoAny.assertString (context.Value CORRELATION_ID) = none) :
    ∃ log err w1, sl.buildLog env context record w = (log, some err, w1) ∧
      err.Is errStrictModeOn = true := by
  have hMem : CORRELATION_ID ∈ checkedFields sl w := by
    unfold checkedFields
    simp [hCorr]
  exact buildLog_fails_of_mem env sl context record w CORRELATION_ID _ hMem
    (fieldError_correlation_missing context sl hMissing hAuto)

/-- C7 (witness): the run of `TestMangoLogger_Handle_StrictModeOn_NoCorrelationGenerated`. -/
theorem buildLog_correlation_strict_missing_witness :
    (NewMangoLogger strictNoGenerateConfig).Config.MangoConfig.CorrelationId.Strict = true ∧
    (NewMangoLogger strictNoGenerateConfig).Config.MangoConfig.CorrelationId.AutoGenerate
      = false ∧
    GoAny.assertString (Context.Value noCorrelationContext CORRELATION_ID) = none ∧
    ∃ log err w1,
      (NewMangoLogger strictNoGenerateConfig).buildLog exampleEnv noCorrelationContext
        infoRecord World.init = (log, some err, w1) ∧
      err.Is errStrictModeOn = true :=
  ⟨rfl, rfl, rfl,
    buildLog_correlation_strict_missing exampleEnv (NewMangoLogger strictNoGenerateConfig)
      noCorrelationContext infoRecord World.init rfl rfl rfl⟩

/-- C8 (counterexample): both strict flags and auto-generate are on, the context has no
correlation id, and `buildLog` succeeds with a generated correlation id. -/
theorem buildLog_strict_setup_counterexample :
    (NewMangoLogger facilityInvalidConfig).Config.MangoConfig.Strict = true ∧
    (NewMangoLogger facilityInvalidConfig).Config.MangoConfig.CorrelationId.Strict = true ∧
    (NewMangoLogger facilityInvalidConfig).Config.MangoConfig.CorrelationId.AutoGenerate
      = true ∧
    Context.Value noCorrelationContext CORRELATION_ID = none ∧
    ((NewMangoLogger facilityInvalidConfig).buildLog exampleEnv noCorrelationContext
      infoRecord World.init).2.1 = none ∧
    ((NewMangoLogger facilityInvalidConfig).buildLog exampleEnv noCorrelationContext
      infoRecord World.init).1.Correlationid = "01010101-0101-0101-0101-010101010101" :=
  ⟨rfl, rfl, rfl, rfl, rfl, rfl⟩

/-- C8 (as amended): in a strict setup (general strict and correlation-strict on), for a
context without a string correlation id. With auto-generate off `buildLog` fails with a
strict-mode error. With auto-generate on the absent correlation id is no failure: when
operation, application and type are strings and the type is allowed, `buildLog` succeeds
and the correlation id is the identifier drawn last in the call, which is not empty. -/
theorem buildLog_strict_setup_missing_correlation (env : Env) (sl : MangoLogger)
    (context : Context) (record : Record) (w : World)
    (_hStrict : sl.Config.MangoConfig.Strict = true)
    (hCorr : sl.Config.MangoConfig.CorrelationId.Strict = true)
    (hReach : RequiredFieldsReachable w.REQUIRED_FIELDS)
    (hMissing : GoAny.assertString (context.Value CORRELATION_ID) = none) :
    (sl.Config.MangoConfig.CorrelationId.AutoGenerate = false →
      ∃ log err w1, sl.buildLog env context record w = (log, some err, w1) ∧
        err.Is errStrictModeOn = true) ∧
    (sl.Config.MangoConfig.CorrelationId.AutoGenerate = true →
      ∀ o a t, context.Value OPERATION = some (.str o) →
        context.Value APPLICATION = some (.str a) →
        context.Value TYPE = some (.str t) → t ∈ ALLOWED_TYPES →
        ∃ log w1, sl.buildLog env context record w = (log, none, w1) ∧
          log.Correlationid = (env.uuidNew (w1.uuidCalls - 1)).String ∧
          w.uuidCalls + 2 ≤ w1.uuidCalls ∧ log.Correlationid ≠ "") := by
  refine ⟨?_, ?_⟩
  · intro hAuto
    have hMem : CORRELATION_ID ∈ checkedFields sl w := by
      unfold checkedFields
      simp [hCorr]
    exact buildLog_fails_of_mem env sl context record w CORRELATION_ID _ hMem
      (fieldError_correlation_missing context sl hMissing hAuto)
  · intro hAuto o a t ho ha ht hmem
    have hAll : ∀ x ∈ checkedFields sl w, fieldError context sl x = none := by
      intro x hx
      obtain ⟨n, hn⟩ := hReach
      have hx4 : x = TYPE ∨ x = APPLICATION ∨ x = OPERATION ∨ x = CORRELATION_ID := by
        unfold checkedFields at hx
        simp only [hCorr, if_true, hn, REQUIRED_FIELDS_init, List.mem_append, List.mem_cons,
          List.mem_replicate, List.mem_singleton, List.not_mem_nil, or_false] at hx
        tauto
      have h1 : ¬ (TYPE = OPERATION) := by decide
      have h2 : ¬ (TYPE = APPLICATION) := by decide
      have h3 : ¬ (APPLICATION = OPERATION) := by decide
      rcases hx4 with h | h | h | h <;> subst h
      · unfold fieldError handleEachField handleExistentValues
        rw [ht]
        simp [GoAny.assertString, hmem, h1, h2]
      · unfold fieldError handleEachField handleExistentValues
        rw [ha]
        simp [GoAny.assertString, h3]
      · unfold fieldError handleEachField handleExistentValues
        rw [ho]
        simp [GoAny.assertString]
      · unfold fieldError handleEachField handleValueMissing World.uuidNewString
        rw [hMissing]
        simp [hAuto]
    obtain ⟨log, w1, hb⟩ := buildLog_succeeds env sl context record w hAll
    obtain ⟨h1, h2⟩ := buildLog_generated env sl context record w w1 log hCorr hMissing hb
    exact ⟨log, w1, hb, h1, h2, by rw [h1]; exact UUID_String_ne_empty _⟩

/-- C8 (witness): the strict test configuration without and with auto-generate. -/
theorem buildLog_strict_setup_missing_correlation_witness :
    (∃ log err w1,
      (NewMangoLogger strictNoGenerateConfig).buildLog exampleEnv noCorrelationContext
        infoRecord World.init = (log, some err, w1) ∧ err.Is errStrictModeOn = true) ∧
    (∃ log w1,
      (NewMangoLogger facilityInvalidConfig).buildLog exampleEnv noCorrelationContext
        infoRecord World.init = (log, none, w1) ∧
      log.Correlationid = (exampleEnv.uuidNew (w1.uuidCalls - 1)).String ∧
      World.init.uuidCalls + 2 ≤ w1.uuidCalls ∧ log.Correlationid ≠ "") :=
  ⟨(buildLog_strict_setup_missing_correlation exampleEnv
      (NewMangoLogger strictNoGenerateConfig) noCorrelationContext infoRecord World.init
      rfl rfl ⟨0, rfl⟩ rfl).1 rfl,
   (buildLog_strict_setup_missing_correlation exampleEnv
      (NewMangoLogger facilityInvalidConfig) noCorrelationContext infoRecord World.init
      rfl rfl ⟨0, rfl⟩ rfl).2 rfl "operation" "testApp" "Business" rfl rfl rfl (by decide)⟩

/-- C9 (counterexample): correlation-strict is on, the context holds the empty string as
correlation id, and `buildLog` succeeds with an empty correlation id. -/
theorem buildLog_correlation_nonempty_counterexample :
    (NewMangoLogger strictNoGenerateConfig).Config.MangoConfig.CorrelationId.Strict = true ∧
    Context.Value emptyCorrelationContext CORRELATION_ID = some (.str "") ∧
    ((NewMangoLogger strictNoGenerateConfig).buildLog exampleEnv emptyCorrelationContext
      infoRecord World.init).2.1 = none ∧
    ((NewMangoLogger strictNoGenerateConfig).buildLog exampleEnv emptyCorrelationContext
      infoRecord World.init).1.Correlationid = "" :=
  ⟨rfl, rfl, rfl, rfl⟩

/-- C9 (as amended): for every record `buildLog` returns successfully while
correlation-strict is on. If the context holds a string correlation id the record
carries exactly that string; otherwise it carries the identifier drawn last in the call,
which is not empty. So the correlation id is empty only when the context supplies the
empty string. -/
theorem buildLog_correlation_strict_id (env : Env) (sl : MangoLogger) (context : Context)
    (record : Record) (w w1 : World) (log : StructuredLog)
    (hCorr : sl.Config.MangoConfig.CorrelationId.Strict = true)
    (hBuild : sl.buildLog env context record w = (log, none, w1)) :
    (∀ v, GoAny.assertString (context.Value CORRELATION_ID) = some v →
      log.Correlationid = v) ∧
    (GoAny.assertString (context.Value CORRELATION_ID) = none →
      log.Correlationid = (env.uuidNew (w1.uuidCalls - 1)).String ∧
      w.uuidCalls + 2 ≤ w1.uuidCalls ∧ log.Correlationid ≠ "") ∧
    (log.Correlationid = "" → context.Value CORRELATION_ID = some (.str "")) := by
  have hP : ∀ v, GoAny.assertString (context.Value CORRELATION_ID) = some v →
      log.Correlationid = v := fun v hv =>
    buildLog_correlation_present env sl context record w w1 log v hv hBuild
  have hN : GoAny.assertString (context.Value CORRELATION_ID) = none →
      log.Correlationid = (env.uuidNew (w1.uuidCalls - 1)).String ∧
      w.uuidCalls + 2 ≤ w1.uuidCalls ∧ log.Correlationid ≠ "" := by
    intro hMissing
    obtain ⟨h1, h2⟩ := buildLog_generated env sl context record w w1 log hCorr hMissing hBuild
    exact ⟨h1, h2, by rw [h1]; exact UUID_String_ne_empty _⟩
  refine ⟨hP, hN, ?_⟩
  intro hEmpty
  cases hc : GoAny.assertString (context.Value CORRELATION_ID) with
  | none => exact absurd hEmpty (hN hc).2.2
  | some v =>
    have hv := hP v hc
    rw [hEmpty] at hv
    subst hv
    cases hx : context.Value CORRELATION_ID with
    | none => rw [hx] at hc; simp [GoAny.assertString] at hc
    | some x =>
      rw [hx] at hc
      cases x <;> simp [GoAny.assertString] at hc
      rw [hc]

/-- C9 (witness): the strict test configuration with auto-generate, no correlation id in
the context. -/
theorem buildLog_correlation_strict_id_witness :
    (NewMangoLogger facilityInvalidConfig).Config.MangoConfig.CorrelationId.Strict = true ∧
    ((NewMangoLogger facilityInvalidConfig).buildLog exampleEnv noCorrelationContext
      infoRecord World.init).1.Correlationid ≠ "" :=
  ⟨rfl,
    ((buildLog_correlation_strict_id exampleEnv (NewMangoLogger facilityInvalidConfig)
      noCorrelationContext infoRecord World.init
      ((NewMangoLogger facilityInvalidConfig).buildLog exampleEnv noCorrelationContext
        infoRecord World.init).2.2
      ((NewMangoLogger facilityInvalidConfig).buildLog exampleEnv noCorrelationContext
        infoRecord World.init).1 rfl rfl).2.1 rfl).2.2⟩

/-! ## One error per event -/

/-- C10 (counterexample): both strict flags on, auto-generate off, a context without type
and without correlation id. Each of the two checks fails on its own, yet the error of
`handleRequiredFields` is the one for type alone, and its text does not contain the
name of the correlation id field. -/
theorem handleRequiredFields_first_error_counterexample :
    (handleEachField exampleEnv applicationOperationContext StructuredLog.zero TYPE
      (NewMangoLogger strictNoGenerateConfig) World.init).2.1
      = some (.wrapError (missingMessage TYPE) errStrictModeOn) ∧
    (handleEachField exampleEnv applicationOperationContext StructuredLog.zero CORRELATION_ID
      (NewMangoLogger strictNoGenerateConfig) World.init).2.1
      = some (.wrapError (missingMessage CORRELATION_ID) errStrictModeOn) ∧
    ((NewMangoLogger strictNoGenerateConfig).handleRequiredFields exampleEnv
      applicationOperationContext StructuredLog.zero World.init).2.1
      = some (.wrapError (missingMessage TYPE) errStrictModeOn) ∧
    occursIn CORRELATION_ID
      (GoError.wrapError (missingMessage TYPE) errStrictModeOn).Error = false ∧
    occursIn "mangologger.type"
      (GoError.wrapError (missingMessage TYPE) errStrictModeOn).Error = true := by
  refine ⟨rfl, rfl, rfl, ?_, ?_⟩ <;> decide

/-- C10 (as amended): when `handleRequiredFields` fails, its single error is the error of
the first field, in the order of the list it checks (type, application, operation, then
correlation id), whose check fails: every field before it passes, the error is what the
check of that one field yields, it wraps the strict-mode sentinel, and its text is the
message for that field alone. Fields after it are not examined. -/
theorem handleRequiredFields_first_error (env : Env) (sl : MangoLogger) (context : Context)
    (lo : StructuredLog) (w : World) (err : GoError)
    (h : (sl.handleRequiredFields env context lo w).2.1 = some err) :
    ∃ pre label post, checkedFields sl w = pre ++ label :: post ∧
      (∀ x ∈ pre, ∀ lo0 w0, (handleEachField env context lo0 x sl w0).2.1 = none) ∧
      (∀ lo0 w0, (handleEachField env context lo0 label sl w0).2.1 = some err) ∧
      err.Is errStrictModeOn = true ∧
      (err.Error = missingMessage label ∨ ∃ v, err.Error = notAllowedMessage label v) := by
  rw [handleRequiredFields_err] at h
  obtain ⟨pre, label, post, hsplit, hlabel, hpre⟩ := List.findSome?_eq_some_iff.mp h
  refine ⟨pre, label, post, hsplit, ?_, ?_, fieldError_Is context sl label err hlabel, ?_⟩
  · intro x hx lo0 w0
    rw [handleEachField_err]
    exact hpre x hx
  · intro lo0 w0
    rw [handleEachField_err]
    exact hlabel
  · unfold fieldError handleEachField handleValueMissing handleExistentValues
      World.uuidNewString at hlabel
    cases hv : GoAny.assertString (context.Value label) <;> rw [hv] at hlabel <;>
      simp only at hlabel <;> split_ifs at hlabel <;> simp at hlabel <;> subst hlabel
    · exact Or.inl rfl
    · exact Or.inl rfl
    · exact Or.inr ⟨_, rfl⟩

/-- C10 (witness): the context without type and correlation id; the error is the one for
type. -/
theorem handleRequiredFields_first_error_witness :
    ∃ pre label post,
      checkedFields (NewMangoLogger strictNoGenerateConfig) World.init
        = pre ++ label :: post ∧
      (∀ x ∈ pre, ∀ lo0 w0, (handleEachField exampleEnv applicationOperationContext lo0 x
        (NewMangoLogger strictNoGenerateConfig) w0).2.1 = none) ∧
      (∀ lo0 w0, (handleEachField exampleEnv applicationOperationContext lo0 label
        (NewMangoLogger strictNoGenerateConfig) w0).2.1
          = some (.wrapError (missingMessage TYPE) errStrictModeOn)) ∧
      (GoError.wrapError (missingMessage TYPE) errStrictModeOn).Is errStrictModeOn = true ∧
      ((GoError.wrapError (missingMessage TYPE) errStrictModeOn).Error = missingMessage label ∨
        ∃ v, (GoError.wrapError (missingMessage TYPE) errStrictModeOn).Error
          = notAllowedMessage label v) :=
  handleRequiredFields_first_error exampleEnv (NewMangoLogger strictNoGenerateConfig)
    applicationOperationContext StructuredLog.zero World.init
    (.wrapError (missingMessage TYPE) errStrictModeOn) rfl

theorem handleFieldsLoop_replicate_correlation_present (env : Env) (context : Context)
    (sl : MangoLogger) (v : String)
    (hPresent : GoAny.assertString (context.Value CORRELATION_ID) = some v)
    (m : Nat) (lo : StructuredLog) (w : World) :
    handleFieldsLoop env context sl (List.replicate m CORRELATION_ID) lo w = (lo, none, w) := by
  induction m with
  | zero => rfl
  | succ m ih =>
    rw [List.replicate_succ, handleFieldsLoop_cons,
      handleEachField_correlation_present env context lo sl w v hPresent]
    exact ih

/-- With string values for all four keys and an allowed type, the loop over a reachable
list only stores type, application and operation. -/
theorem handleFieldsLoop_all_present (env : Env) (context : Context) (sl : MangoLogger)
    (o a t c : String)
    (ho : context.Value OPERATION = some (.str o))
    (ha : context.Value APPLICATION = some (.str a))
    (ht : context.Value TYPE = some (.str t))
    (hc : context.Value CORRELATION_ID = some (.str c))
    (hAllowed : t ∈ ALLOWED_TYPES)
    (m : Nat) (lo : StructuredLog) (w : World) :
    handleFieldsLoop env context sl
        (REQUIRED_FIELDS_init ++ List.replicate m CORRELATION_ID) lo w
      = ({ lo with Type_ := t, Application := a, Operation := o }, none, w) := by
  have h1 : ¬ (TYPE = OPERATION) := by decide
  have h2 : ¬ (TYPE = APPLICATION) := by decide
  have h3 : ¬ (APPLICATION = OPERATION) := by decide
  have hT : ∀ lo0 w0, handleEachField env context lo0 TYPE sl w0
      = ({ lo0 with Type_ := t }, none, w0) := by
    intro lo0 w0
    unfold handleEachField handleExistentValues
    rw [ht]
    by_cases hs : sl.Config.MangoConfig.Strict = true <;>
      simp [GoAny.assertString, hAllowed, h1, h2, hs]
  have hA : ∀ lo0 w0, handleEachField env context lo0 APPLICATION sl w0
      = ({ lo0 with Application := a }, none, w0) := by
    intro lo0 w0
    unfold handleEachField handleExistentValues
    rw [ha]
    simp [GoAny.assertString, h3]
  have hO : ∀ lo0 w0, handleEachField env context lo0 OPERATION sl w0
      = ({ lo0 with Operation := o }, none, w0) := by
    intro lo0 w0
    unfold handleEachField handleExistentValues
    rw [ho]
    simp [GoAny.assertString]
  rw [handleFieldsLoop_append]
  simp only [REQUIRED_FIELDS_init, handleFieldsLoop_cons, hT, hA, hO, handleFieldsLoop]
  rw [handleFieldsLoop_replicate_correlation_present env context sl c
    (by rw [hc]; rfl)]

/-! ## Supplied fields -/

/-- C11: for every configuration and every state of `REQUIRED_FIELDS` a process can reach,
if the context supplies strings for operation, application, type (in the allow-list) and
correlation id, then `buildLog` succeeds and the record carries exactly those four
values, the level and the message of the event; the only identifier drawn is the log
id, so no correlation id is generated. -/
theorem buildLog_supplied_fields (env : Env) (sl : MangoLogger) (context : Context)
    (record : Record) (w : World) (o a t c : String)
    (hReach : RequiredFieldsReachable w.REQUIRED_FIELDS)
    (ho : context.Value OPERATION = some (.str o))
    (ha : context.Value APPLICATION = some (.str a))
    (ht : context.Value TYPE = some (.str t))
    (hc : context.Value CORRELATION_ID = some (.str c))
    (hAllowed : t ∈ ALLOWED_TYPES) :
    ∃ log w1, sl.buildLog env context record w = (log, none, w1) ∧
      log.Operation = o ∧ log.Application = a ∧ log.Type_ = t ∧ log.Correlationid = c ∧
      log.Level = record.Level ∧ log.Message = .str record.Message ∧
      w1.uuidCalls = w.uuidCalls + 1 := by
  obtain ⟨n, hn⟩ := hReach
  have hcs : GoAny.assertString (context.Value CORRELATION_ID) = some c := by rw [hc]; rfl
  have hloop : ∀ lo0 w0, w0.REQUIRED_FIELDS = w.REQUIRED_FIELDS →
      sl.handleRequiredFields env context lo0 w0
        = ({ lo0 with Type_ := t, Application := a, Operation := o }, none,
            { w0 with REQUIRED_FIELDS := checkedFields sl w }) := by
    intro lo0 w0 hw
    have hw0 : { w0 with REQUIRED_FIELDS := w.REQUIRED_FIELDS } = w0 := by
      cases w0
      simp only at hw
      simp [hw]
    unfold MangoLogger.handleRequiredFields checkedFields
    rcases Bool.eq_false_or_eq_true sl.Config.MangoConfig.CorrelationId.Strict with hs | hs
    · simp only [hs, if_true, hw, hn]
      have : REQUIRED_FIELDS_init ++ List.replicate n CORRELATION_ID ++ [CORRELATION_ID]
          = REQUIRED_FIELDS_init ++ List.replicate (n + 1) CORRELATION_ID := by
        rw [List.append_assoc, List.replicate_succ']
      rw [this]
      exact handleFieldsLoop_all_present env context sl o a t c ho ha ht hc hAllowed _ _ _
    · simp only [hs, Bool.false_eq_true, if_false, hw0]
      rw [hw, hn]
      exact handleFieldsLoop_all_present env context sl o a t c ho ha ht hc hAllowed n
        lo0 w0
  unfold MangoLogger.buildLog
  simp only [hloop _ _ (show (sl.makeBaseLog env record w).2.REQUIRED_FIELDS
    = w.REQUIRED_FIELDS from rfl), hcs]
  exact ⟨_, _, rfl, rfl, rfl, rfl, rfl, rfl, rfl, rfl⟩

/-- C11 (witness): the context of the provided-correlation test under the strict
configuration. -/
theorem buildLog_supplied_fields_witness :
    RequiredFieldsReachable World.init.REQUIRED_FIELDS ∧
    ∃ log w1,
      (NewMangoLogger strictNoGenerateConfig).buildLog exampleEnv providedCorrelationContext
        infoRecord World.init = (log, none, w1) ∧
      log.Operation = "operation" ∧ log.Application = "testApp" ∧ log.Type_ = "Business" ∧
      log.Correlationid = "c8a67865-29dd-4e1e-a1a3-990d3075e3bc" ∧
      log.Level = infoRecord.Level ∧ log.Message = .str infoRecord.Message ∧
      w1.uuidCalls = World.init.uuidCalls + 1 :=
  ⟨⟨0, rfl⟩,
    buildLog_supplied_fields exampleEnv (NewMangoLogger strictNoGenerateConfig)
      providedCorrelationContext infoRecord World.init "operation" "testApp" "Business"
      "c8a67865-29dd-4e1e-a1a3-990d3075e3bc" ⟨0, rfl⟩ rfl rfl rfl rfl (by decide)⟩

theorem GoMap.get_set {V : Type} (m : GoMap V) (k : String) (v : V) (k1 : String) :
    GoMap.get (GoMap.set m k v) k1 = if k = k1 then some v else GoMap.get m k1 := by
  induction m with
  | nil => simp [GoMap.set, GoMap.get]
  | cons p rest ih =>
    obtain ⟨k0, v0⟩ := p
    by_cases h0 : k0 = k
    · subst h0
      by_cases h1 : k0 = k1 <;> simp [GoMap.set, GoMap.get, h1]
    · by_cases h1 : k0 = k1
      · subst h1
        have : ¬ (k = k0) := fun h => h0 h.symm
        simp [GoMap.set, GoMap.get, h0, this]
      · simp [GoMap.set, GoMap.get, h0, h1, ih]

theorem GoMap.mem_keys_iff {V : Type} (m : GoMap V) (k : String) :
    k ∈ m.map Prod.fst ↔ (GoMap.get m k).isSome = true := by
  induction m with
  | nil => simp [GoMap.get]
  | cons p rest ih =>
    obtain ⟨k0, v0⟩ := p
    by_cases h : k0 = k
    · simp [GoMap.get, h]
    · have : ¬ (k = k0) := fun h1 => h h1.symm
      simp [GoMap.get, h, this, ← ih]

theorem GoMap.set_keys_nodup {V : Type} (m : GoMap V) (k : String) (v : V)
    (h : (m.map Prod.fst).Nodup) : ((GoMap.set m k v).map Prod.fst).Nodup := by
  induction m with
  | nil => simp [GoMap.set]
  | cons p rest ih =>
    obtain ⟨k0, v0⟩ := p
    simp only [List.map_cons, List.nodup_cons] at h
    by_cases h0 : k0 = k
    · subst h0
      simpa [GoMap.set] using h
    · simp only [GoMap.set, h0, if_false, List.map_cons, List.nodup_cons]
      refine ⟨?_, ih h.2⟩
      rw [GoMap.mem_keys_iff, GoMap.get_set]
      have : ¬ (k = k0) := fun h1 => h0 h1.symm
      simp only [this, if_false]
      rw [← GoMap.mem_keys_iff]
      exact h.1

theorem GoMap.mem_iff_get {V : Type} (m : GoMap V) (h : (m.map Prod.fst).Nodup)
    (k : String) (v : V) : (k, v) ∈ m ↔ GoMap.get m k = some v := by
  induction m with
  | nil => simp [GoMap.get]
  | cons p rest ih =>
    obtain ⟨k0, v0⟩ := p
    simp only [List.map_cons, List.nodup_cons] at h
    by_cases h0 : k0 = k
    · subst h0
      simp only [List.mem_cons, Prod.mk.injEq, true_and, GoMap.get, if_true, Option.some.injEq]
      constructor
      · rintro (h1 | h1)
        · exact h1.symm
        · exact absurd (List.mem_map_of_mem Prod.fst h1) h.1
      · intro h1
        exact Or.inl h1.symm
    · have : ¬ (k = k0) := fun h1 => h0 h1.symm
      simp [GoMap.get, h0, this, ih h.2]

theorem lastWithKey_some {l : List Attr} {k : String} {a : Attr}
    (h : lastWithKey l k = some a) : a.Key = k ∧ a ∈ l := by
  induction l with
  | nil => simp [lastWithKey] at h
  | cons b rest ih =>
    unfold lastWithKey at h
    cases hr : lastWithKey rest k with
    | some x =>
      rw [hr] at h
      simp only [Option.some.injEq] at h
      subst h
      exact ⟨(ih hr).1, List.mem_cons_of_mem _ (ih hr).2⟩
    | none =>
      rw [hr] at h
      simp only at h
      split_ifs at h with hk
      simp only [Option.some.injEq] at h
      subst h
      exact ⟨hk, List.mem_cons_self _ _⟩

theorem lastWithKey_isSome (l : List Attr) (k : String) :
    (lastWithKey l k).isSome = true ↔ k ∈ l.map Attr.Key := by
  induction l with
  | nil => simp [lastWithKey]
  | cons b rest ih =>
    unfold lastWithKey
    cases hr : lastWithKey rest k with
    | some x =>
      have : k ∈ rest.map Attr.Key := ih.mp (by rw [hr]; rfl)
      simp [this]
    | none =>
      have hn : k ∉ rest.map Attr.Key := fun hm => by
        have := ih.mpr hm
        rw [hr] at this
        simp at this
      by_cases hk : b.Key = k
      · simp [hk]
      · have : ¬ (k = b.Key) := fun h => hk h.symm
        simp only [hk, if_false, List.map_cons, List.mem_cons, this, false_or]
        simp only [Option.isSome_none, Bool.false_eq_true, false_iff]
        exact hn

theorem lastWithKey_cons (b : Attr) (rest : List Attr) (k : String) :
    lastWithKey (b :: rest) k =
      match lastWithKey rest k with
      | some x => some x
      | none => if b.Key = k then some b else none := rfl

theorem lastWithKey_append (l1 l2 : List Attr) (k : String) :
    lastWithKey (l1 ++ l2) k =
      match lastWithKey l2 k with
      | some x => some x
      | none => lastWithKey l1 k := by
  induction l1 with
  | nil =>
    simp only [List.nil_append]
    cases h : lastWithKey l2 k <;> simp [lastWithKey]
  | cons b rest ih =>
    simp only [List.cons_append, lastWithKey_cons]
    rw [ih]
    cases h : lastWithKey l2 k <;> simp

/-- The map built by assigning the attributes of `l` in order into `m0`. -/
theorem foldl_set_get (l : List Attr) (m0 : GoMap Attr) (k : String) :
    GoMap.get (l.foldl (fun m attr => GoMap.set m attr.Key attr) m0) k =
      match lastWithKey l k with
      | some x => some x
      | none => GoMap.get m0 k := by
  induction l generalizing m0 with
  | nil => rfl
  | cons b rest ih =>
    simp only [List.foldl_cons]
    rw [ih, GoMap.get_set, lastWithKey_cons]
    cases h : lastWithKey rest k with
    | some x => rfl
    | none =>
      by_cases hk : b.Key = k <;> simp [hk]

theorem foldl_set_keys_nodup (l : List Attr) (m0 : GoMap Attr)
    (h : (m0.map Prod.fst).Nodup) :
    ((l.foldl (fun m attr => GoMap.set m attr.Key attr) m0).map Prod.fst).Nodup := by
  induction l generalizing m0 with
  | nil => exact h
  | cons b rest ih =>
    simp only [List.foldl_cons]
    exact ih _ (GoMap.set_keys_nodup m0 b.Key b h)

theorem mergedMap_get (list1 list2 : List Attr) (k : String) :
    GoMap.get (mergedMap list1 list2) k = lastWithKey (list1 ++ list2) k := by
  unfold mergedMap
  rw [foldl_set_get, foldl_set_get, lastWithKey_append]
  cases h2 : lastWithKey list2 k with
  | some x => rfl
  | none => cases h1 : lastWithKey list1 k <;> simp [GoMap.get]

theorem mergedMap_nodup (list1 list2 : List Attr) :
    ((mergedMap list1 list2).map Prod.fst).Nodup :=
  foldl_set_keys_nodup _ _ (foldl_set_keys_nodup _ _ (by simp))

theorem mergedMap_entry (list1 list2 : List Attr) (kv : String × Attr)
    (h : kv ∈ mergedMap list1 list2) : kv.2.Key = kv.1 := by
  obtain ⟨k, a⟩ := kv
  rw [GoMap.mem_iff_get _ (mergedMap_nodup list1 list2), mergedMap_get] at h
  exact (lastWithKey_some h).1

theorem mergeAttrs_perm (env : Env) (list1 list2 : List Attr) :
    (mergeAttrs env list1 list2).Perm ((mergedMap list1 list2).map Prod.snd) := by
  unfold mergeAttrs
  exact (env.mapRange (mergedMap list1 list2)).property.map _

theorem mergeAttrs_mem (env : Env) (list1 list2 : List Attr) (a : Attr) :
    a ∈ mergeAttrs env list1 list2 ↔ lastWithKey (list1 ++ list2) a.Key = some a := by
  rw [(mergeAttrs_perm env list1 list2).mem_iff, List.mem_map]
  constructor
  · rintro ⟨⟨k, b⟩, hmem, hb⟩
    simp only at hb
    subst hb
    have hk := mergedMap_entry list1 list2 _ hmem
    simp only at hk
    rw [GoMap.mem_iff_get _ (mergedMap_nodup list1 list2), mergedMap_get] at hmem
    rw [hk]
    exact hmem
  · intro h
    refine ⟨(a.Key, a), ?_, rfl⟩
    rw [GoMap.mem_iff_get _ (mergedMap_nodup list1 list2), mergedMap_get]
    exact h

theorem mergeAttrs_keys_perm (env : Env) (list1 list2 : List Attr) :
    ((mergeAttrs env list1 list2).map Attr.Key).Perm ((mergedMap list1 list2).map Prod.fst) := by
  refine ((mergeAttrs_perm env list1 list2).map Attr.Key).trans ?_
  rw [List.map_map]
  apply List.Perm.of_eq
  apply List.map_congr_left
  intro kv hkv
  exact mergedMap_entry list1 list2 kv hkv

/-! ## Attribute merge -/

/-- C12: for all attribute lists, the result of `mergeAttrs` has pairwise distinct keys,
its keys are exactly the keys occurring in `list1` or `list2`, its length is the number
of distinct keys, and an attribute is in the result exactly when it is the last
occurrence of its key in `list2`, or `list2` lacks the key and it is the last occurrence
in `list1`. Merging a:1 with b:2, a:3 gives a:3 and b:2, in whatever order the map is
traversed. -/
theorem mergeAttrs_spec (env : Env) (list1 list2 : List Attr) :
    ((mergeAttrs env list1 list2).map Attr.Key).Nodup ∧
    (∀ k, k ∈ (mergeAttrs env list1 list2).map Attr.Key ↔
      k ∈ list1.map Attr.Key ∨ k ∈ list2.map Attr.Key) ∧
    (mergeAttrs env list1 list2).length = ((list1 ++ list2).map Attr.Key).dedup.length ∧
    (∀ a, a ∈ mergeAttrs env list1 list2 ↔
      (lastWithKey list2 a.Key = some a ∨
        (lastWithKey list2 a.Key = none ∧ lastWithKey list1 a.Key = some a))) ∧
    (mergeAttrs env [{ Key := "a", Value := .str "1" }]
        [{ Key := "b", Value := .str "2" }, { Key := "a", Value := .str "3" }]).Perm
      [{ Key := "a", Value := .str "3" }, { Key := "b", Value := .str "2" }] := by
  have hnd : ((mergeAttrs env list1 list2).map Attr.Key).Nodup :=
    (mergeAttrs_keys_perm env list1 list2).nodup_iff.mpr (mergedMap_nodup list1 list2)
  have hkeys : ∀ k, k ∈ (mergeAttrs env list1 list2).map Attr.Key ↔
      k ∈ (list1 ++ list2).map Attr.Key := by
    intro k
    rw [(mergeAttrs_keys_perm env list1 list2).mem_iff, GoMap.mem_keys_iff, mergedMap_get,
      lastWithKey_isSome]
  refine ⟨hnd, ?_, ?_, ?_, ?_⟩
  · intro k
    rw [hkeys k]
    simp
  · have hp : ((mergeAttrs env list1 list2).map Attr.Key).Perm
        ((list1 ++ list2).map Attr.Key).dedup :=
      (List.perm_ext_iff_of_nodup hnd (List.nodup_dedup _)).mpr
        (fun k => by rw [hkeys k, List.mem_dedup])
    have := hp.length_eq
    simpa using this
  · intro a
    rw [mergeAttrs_mem, lastWithKey_append]
    cases h2 : lastWithKey list2 a.Key <;> simp
  · exact mergeAttrs_perm env _ _

/-- With output and a sink enabled, a built record and its serialization, `Handle` is the
chain of the three stages. -/
theorem Handle_eq_stages (env : Env) (sl : MangoLogger) (context : Context)
    (record : Record) (w w1 : World) (log : StructuredLog) (jsonOut : String)
    (hOut : sl.Config.Out.Enabled = true) (hSink : someSinkEnabled sl.Config)
    (hBuild : sl.buildLog env context record w = (log, none, w1))
    (hJson : jsonMarshal env log = .ok jsonOut) :
    sl.Handle env context record w =
      match (consoleStage env sl log jsonOut w1).1 with
      | some e => (some e, sl.Config, (consoleStage env sl log jsonOut w1).2)
      | none =>
        match (fileStage env sl log jsonOut (consoleStage env sl log jsonOut w1).2).1 with
        | some e => (some e, sl.Config,
            (fileStage env sl log jsonOut (consoleStage env sl log jsonOut w1).2).2)
        | none => syslogStage env sl log jsonOut
            (fileStage env sl log jsonOut (consoleStage env sl log jsonOut w1).2).2 := by
  unfold MangoLogger.Handle
  simp only [hOut, sink_gate_false sl.Config hSink, hBuild, hJson]
  simp only [consoleStage, fileStage, syslogStage]
  rfl

theorem consoleStage_success (env : Env) (sl : MangoLogger) (log : StructuredLog)
    (jsonOut : String) (w : World)
    (h : (consoleStage env sl log jsonOut w).1 = none) :
    (consoleStage env sl log jsonOut w).2 =
      { w with Stdout := w.Stdout ++ consoleStdout env sl log jsonOut,
               Stderr := w.Stderr ++ consoleStderr env sl log jsonOut } := by
  have h1 : ¬ (LevelDebug = LevelInfo) := by decide
  have h2 : ¬ (LevelDebug = LevelWarn) := by decide
  have h3 : ¬ (LevelDebug = LevelError) := by decide
  have h4 : ¬ (LevelInfo = LevelWarn) := by decide
  have h5 : ¬ (LevelInfo = LevelError) := by decide
  unfold consoleStage MangoLogger.handlePromptOutput at h ⊢
  unfold consoleStdout consoleStderr
  by_cases hc : sl.Config.Out.Cli.Enabled = true
  · simp only [hc, if_true] at h ⊢
    by_cases hd : log.Level = LevelDebug
    · simp only [hd, if_true, h2, h3, or_self, if_false]
      by_cases hv : sl.Config.Out.Cli.Verbose = true <;>
        simp [hv, World.Println]
    · simp only [hd, if_false] at h ⊢
      by_cases hi : log.Level = LevelInfo
      · simp only [hi, if_true, h4, h5, or_self, if_false]
        by_cases hf : sl.Config.Out.Cli.Friendly = true <;>
          simp [hf, World.Println]
      · simp only [hi, if_false] at h ⊢
        by_cases hw : log.Level = LevelWarn ∨ log.Level = LevelError
        · simp only [hw, if_true]
          by_cases hf : sl.Config.Out.Cli.Friendly = true <;>
            simp [hf, World.PrintlnErr]
        · simp [hw] at h
  · simp [hc]

theorem fileStage_success (env : Env) (sl : MangoLogger) (log : StructuredLog)
    (jsonOut : String) (w : World)
    (hOut : sl.Config.Out.Enabled = true)
    (h : (fileStage env sl log jsonOut w).1 = none) :
    (fileStage env sl log jsonOut w).2 =
      { w with LogWriter := w.LogWriter ++ fileWrites sl log jsonOut } := by
  unfold fileStage MangoLogger.handleFileOutput MangoLogger.writeStringToLogFile at h ⊢
  unfold fileWrites
  by_cases hc : sl.Config.Out.File.Enabled = true
  · simp only [hc, if_true, hOut] at h ⊢
    by_cases hd : log.Level = LevelDebug
    · simp only [hd, if_true]
      by_cases hv : sl.Config.Out.File.Debug = true <;> simp [hv]
    · simp only [hd, if_false] at h ⊢
      by_cases hi : log.Level = LevelInfo
      · simp [hi]
      · simp only [hi, if_false] at h ⊢
        by_cases hw : log.Level = LevelWarn ∨ log.Level = LevelError
        · simp [hw]
        · simp [hw] at h
  · simp [hc]

theorem syslogStage_success (env : Env) (sl : MangoLogger) (log : StructuredLog)
    (jsonOut : String) (w : World)
    (h : (syslogStage env sl log jsonOut w).1 = none) :
    (syslogStage env sl log jsonOut w).2.2 =
      { w with Syslog := w.Syslog ++ syslogEvents sl log jsonOut } := by
  unfold syslogStage MangoLogger.handleSyslogOutput at h ⊢
  unfold syslogEvents
  by_cases hc : sl.Config.Out.Syslog.Facility = ""
  · simp [hc]
  · simp only [ne_eq, hc, not_false_eq_true, if_true] at h ⊢
    by_cases hs : syslogSeverity log.Level = LOG_EMERG
    · simp [hs] at h
    · simp only [hs, if_false] at h ⊢
      cases hf : syslogFacility sl.Config.Out.Syslog.Facility with
      | none => simp [hf] at h
      | some facility =>
        simp only [hf] at h ⊢
        cases hn : env.syslogNew (facility ||| syslogSeverity log.Level) log.Application with
        | some err => simp [hn] at h
        | none => simp [hn]

/-! ## One serialization for all sinks -/

/-- C13: in a successful `Handle` call with output and a sink enabled, one record is built
(`buildLog` runs once) and serialized once, and everything the sinks emit is made from
that one serialization `j`: the file writer receives `j` and a newline (unless a debug
record is gated off), syslog receives `j` unchanged on one connection, standard output
and standard error receive `j` or a transform of `j`. No further identifier is drawn
after the record is built. -/
theorem Handle_single_serialization (env : Env) (sl : MangoLogger) (context : Context)
    (record : Record) (w w2 : World) (config2 : LogConfig)
    (hOut : sl.Config.Out.Enabled = true) (hSink : someSinkEnabled sl.Config)
    (h : sl.Handle env context record w = (none, config2, w2)) :
    ∃ log w1 j, sl.buildLog env context record w = (log, none, w1) ∧
      jsonMarshal env log = .ok j ∧ j = env.jsonEncode log ∧
      w2.Stdout = w.Stdout ++ consoleStdout env sl log j ∧
      w2.Stderr = w.Stderr ++ consoleStderr env sl log j ∧
      w2.LogWriter = w.LogWriter ++ fileWrites sl log j ∧
      w2.Syslog = w.Syslog ++ syslogEvents sl log j ∧
      w2.uuidCalls = w1.uuidCalls := by
  rcases hb : sl.buildLog env context record w with ⟨log, e, w1⟩
  cases e with
  | some err =>
    rw [Handle_of_buildLog_error env sl context record w w1 log err hOut hSink hb] at h
    simp at h
  | none =>
    cases hj : jsonMarshal env log with
    | error err =>
      unfold MangoLogger.Handle at h
      simp [hOut, sink_gate_false sl.Config hSink, hb, hj] at h
    | ok j =>
      have hje : j = env.jsonEncode log := by
        unfold jsonMarshal at hj
        split_ifs at hj
        simp only [Except.ok.injEq] at hj
        exact hj.symm
      rw [Handle_eq_stages env sl context record w w1 log j hOut hSink hb hj] at h
      obtain ⟨k, hk⟩ := buildLog_world env sl context record w
      rw [hb] at hk
      simp only [List.append_nil] at hk
      cases hc : (consoleStage env sl log j w1).1 with
      | some e => simp [hc] at h
      | none =>
        have hcw := consoleStage_success env sl log j w1 hc
        simp only [hc] at h
        cases hf : (fileStage env sl log j (consoleStage env sl log j w1).2).1 with
        | some e => simp [hf] at h
        | none =>
          have hfw := fileStage_success env sl log j _ hOut hf
          simp only [hf] at h
          have hs1 : (syslogStage env sl log j
              (fileStage env sl log j (consoleStage env sl log j w1).2).2).1 = none := by
            rw [h]
          have hsw := syslogStage_success env sl log j _ hs1
          rw [h] at hsw
          simp only at hsw
          rw [hfw, hcw, hk] at hsw
          subst hsw
          exact ⟨log, _, j, rfl, hj, hje, rfl, rfl, rfl, rfl, by rw [hk]⟩

/-- C13 (witness): console, file and syslog enabled, an info record. -/
theorem Handle_single_serialization_witness :
    ∃ log w1 j,
      (NewMangoLogger allSinksConfig).buildLog exampleEnv noCorrelationContext infoRecord
        World.init = (log, none, w1) ∧
      jsonMarshal exampleEnv log = .ok j ∧ j = exampleEnv.jsonEncode log ∧
      ["friendly\n"] = World.init.Stdout
        ++ consoleStdout exampleEnv (NewMangoLogger allSinksConfig) log j ∧
      [] = World.init.Stderr ++ consoleStderr exampleEnv (NewMangoLogger allSinksConfig) log j ∧
      ["json:00000000-0000-0000-0000-000000000000\n"]
        = World.init.LogWriter ++ fileWrites (NewMangoLogger allSinksConfig) log j ∧
      [SyslogEvent.dial 190 "testApp",
        SyslogEvent.write 190 "testApp" "json:00000000-0000-0000-0000-000000000000",
        SyslogEvent.close]
        = World.init.Syslog ++ syslogEvents (NewMangoLogger allSinksConfig) log j ∧
      2 = w1.uuidCalls :=
  Handle_single_serialization exampleEnv (NewMangoLogger allSinksConfig) noCorrelationContext
    infoRecord World.init
    { Stdout := ["friendly\n"], Stderr := [],
      LogWriter := ["json:00000000-0000-0000-0000-000000000000\n"],
      Syslog := [SyslogEvent.dial 190 "testApp",
        SyslogEvent.write 190 "testApp" "json:00000000-0000-0000-0000-000000000000",
        SyslogEvent.close],
      REQUIRED_FIELDS := [TYPE, APPLICATION, OPERATION, CORRELATION_ID], uuidCalls := 2 }
    { (NewMangoLogger allSinksConfig).Config with
      Out := { (NewMangoLogger allSinksConfig).Config.Out with
        Syslog := { Facility := "local7", priority := 190 } } }
    rfl (Or.inl rfl) rfl

/-! ## Disabled output -/

/-- C14: if global output is disabled, or console and file are disabled and no syslog
facility is configured, `Handle` returns success and changes the world only by printing
one notice: `REQUIRED_FIELDS` is not touched and no identifier is drawn, so no validation
ran and no record was built, and no sink output exists. The two notices differ; the
notice for globally disabled output takes precedence. -/
theorem Handle_disabled (env : Env) (sl : MangoLogger) (context : Context) (record : Record)
    (w : World)
    (h : sl.Config.Out.Enabled = false ∨ ¬ someSinkEnabled sl.Config) :
    sl.Handle env context record w =
      (none, sl.Config,
        { w with Stdout := w.Stdout ++
          [if sl.Config.Out.Enabled = false then
              "No logging enabled! Check config.out.enabled.\n"
            else "Effectively no logging enabled! The config.out.file.enabled, config.out.cli.enabled and config.out.syslog.facility flags are all false.\n"] }) ∧
    "No logging enabled! Check config.out.enabled.\n" ≠
      "Effectively no logging enabled! The config.out.file.enabled, config.out.cli.enabled and config.out.syslog.facility flags are all false.\n" := by
  refine ⟨?_, by decide⟩
  unfold MangoLogger.Handle
  rcases Bool.eq_false_or_eq_true sl.Config.Out.Enabled with ho | ho
  · rcases h with h | h
    · rw [ho] at h
      simp at h
    · unfold someSinkEnabled at h
      push_neg at h
      obtain ⟨h1, h2, h3⟩ := h
      simp [ho, h1, h2, h3, World.Println]
  · simp [ho, World.Println]

/-- C14 (witness): strict configuration, output disabled, empty context. -/
theorem Handle_disabled_witness :
    (NewMangoLogger outputDisabledConfig).Config.Out.Enabled = false ∧
    (NewMangoLogger outputDisabledConfig).Handle exampleEnv [] infoRecord World.init =
      (none, (NewMangoLogger outputDisabledConfig).Config,
        { World.init with Stdout := ["No logging enabled! Check config.out.enabled.\n"] }) :=
  ⟨rfl, (Handle_disabled exampleEnv (NewMangoLogger outputDisabledConfig) [] infoRecord
    World.init (Or.inl rfl)).1⟩

/-! ## State across calls -/

/-- C15 (the code at the failing input): a non-strict logger without auto-generate builds a
record for a context without correlation id in a fresh process. After one earlier
call of a correlation-strict logger the same call fails, because the earlier
call left `correlationid` in `REQUIRED_FIELDS`. -/
theorem buildLog_depends_on_earlier_calls :
    ((NewMangoLogger consoleOnlyConfig).buildLog exampleEnv noCorrelationContext infoRecord
      World.init).2.1 = none ∧
    ((NewMangoLogger strictNoGenerateConfig).buildLog exampleEnv providedCorrelationContext
      infoRecord World.init).2.1 = none ∧
    ((NewMangoLogger consoleOnlyConfig).buildLog exampleEnv noCorrelationContext infoRecord
      ((NewMangoLogger strictNoGenerateConfig).buildLog exampleEnv providedCorrelationContext
        infoRecord World.init).2.2).2.1
      = some (.wrapError (missingMessage CORRELATION_ID) errStrictModeOn) ∧
    ((NewMangoLogger consoleOnlyConfig).Handle exampleEnv noCorrelationContext infoRecord
      World.init).1 = none ∧
    ((NewMangoLogger consoleOnlyConfig).Handle exampleEnv noCorrelationContext infoRecord
      ((NewMangoLogger strictNoGenerateConfig).Handle exampleEnv providedCorrelationContext
        infoRecord World.init).2.2).1
      = some (.wrapError (missingMessage CORRELATION_ID) errStrictModeOn) :=
  ⟨rfl, rfl, rfl, rfl, rfl⟩

/-! ## Console sink -/

/-- C16: the console sink on the four recognised levels, `j` being the serialized record.
It always returns success. Debug: one line on standard output, the verbose transform of
`j`, when verbose is on, nothing on either stream otherwise. Info: one line on standard
output and nothing on standard error. Warn and error: one line on standard error and
nothing on standard output. For info, warn and error the line is the friendly transform
of `j` when friendly is on and `j` itself otherwise. -/
theorem handlePromptOutput_table (env : Env) (sl : MangoLogger) (log : StructuredLog)
    (j : String) (w : World) :
    sl.handlePromptOutput env { log with Level := LevelDebug } j w =
      (none,
        if sl.Config.Out.Cli.Verbose then
          { w with Stdout := w.Stdout ++
            [(formatWithGoJQ env j sl.Config.Out.Cli.VerboseFormat).1 ++ "\n"] }
        else w) ∧
    sl.handlePromptOutput env { log with Level := LevelInfo } j w =
      (none,
        { w with Stdout := w.Stdout ++
          [(if sl.Config.Out.Cli.Friendly then
              (formatWithGoJQ env j sl.Config.Out.Cli.FriendlyFormat).1 else j) ++ "\n"] }) ∧
    sl.handlePromptOutput env { log with Level := LevelWarn } j w =
      (none,
        { w with Stderr := w.Stderr ++
          [(if sl.Config.Out.Cli.Friendly then
              (formatWithGoJQ env j sl.Config.Out.Cli.FriendlyFormat).1 else j) ++ "\n"] }) ∧
    sl.handlePromptOutput env { log with Level := LevelError } j w =
      (none,
        { w with Stderr := w.Stderr ++
          [(if sl.Config.Out.Cli.Friendly then
              (formatWithGoJQ env j sl.Config.Out.Cli.FriendlyFormat).1 else j) ++ "\n"] }) := by
  have h1 : ¬ (LevelInfo = LevelDebug) := by decide
  have h2 : ¬ (LevelWarn = LevelDebug) := by decide
  have h3 : ¬ (LevelError = LevelDebug) := by decide
  have h4 : ¬ (LevelWarn = LevelInfo) := by decide
  have h5 : ¬ (LevelError = LevelInfo) := by decide
  unfold MangoLogger.handlePromptOutput World.Println World.PrintlnErr
  refine ⟨?_, ?_, ?_, ?_⟩
  · by_cases hv : sl.Config.Out.Cli.Verbose = true <;> simp [hv]
  · by_cases hf : sl.Config.Out.Cli.Friendly = true <;> simp [hf, h1]
  · by_cases hf : sl.Config.Out.Cli.Friendly = true <;> simp [hf, h2, h4]
  · by_cases hf : sl.Config.Out.Cli.Friendly = true <;> simp [hf, h3, h5]

/-! ## Unrecognised levels -/

theorem syslogSeverity_unrecognised (level : Level) (h : ¬ recognisedLevel level) :
    syslogSeverity level = LOG_EMERG := by
  unfold recognisedLevel at h
  push_neg at h
  unfold syslogSeverity
  simp [h.1, h.2.1, h.2.2.1, h.2.2.2]

theorem syslogSeverity_recognised (level : Level) (h : recognisedLevel level) :
    syslogSeverity level ≠ LOG_EMERG := by
  unfold recognisedLevel at h
  rcases h with h | h | h | h <;> subst h <;> decide

theorem syslogNew_message_ne (s : String) :
    "error writing to syslog: " ++ s ≠ errRecordLevel.Error := by
  intro h
  have h2 := congrArg (fun t => t.data.head?) h
  simp [errRecordLevel, GoError.Error] at h2

theorem handlePromptOutput_recognised (env : Env) (sl : MangoLogger) (log : StructuredLog)
    (j : String) (w : World) (h : recognisedLevel log.Level) :
    (sl.handlePromptOutput env log j w).1 = none := by
  have d1 : ¬ (LevelInfo = LevelDebug) := by decide
  have d2 : ¬ (LevelWarn = LevelDebug) := by decide
  have d3 : ¬ (LevelError = LevelDebug) := by decide
  have d4 : ¬ (LevelWarn = LevelInfo) := by decide
  have d5 : ¬ (LevelError = LevelInfo) := by decide
  unfold MangoLogger.handlePromptOutput
  unfold recognisedLevel at h
  rcases h with h | h | h | h <;> rw [h] <;>
    simp only [d1, d2, d3, d4, d5, if_true, if_false, true_or, or_true] <;>
    split_ifs <;> rfl

/-- C17: for a level that is not debug, info, warn or error, each of the console sink, the
file sink and the syslog sink returns the error with the text "record level not one of:
debug, info, warn or error" and leaves standard error, the file writer, syslog and the
stored priority untouched. For a recognised level no sink returns an error with that
text, given that the log writer and the syslog transport never produce it themselves. -/
theorem sinks_level_error (env : Env) (sl : MangoLogger) (log : StructuredLog) (j : String)
    (w : World)
    (hWriter : ∀ h s e, env.logWriterWrite h s = some e → e.Error ≠ errRecordLevel.Error)
    (hSyslog : ∀ p t s e, env.syslogWrite p t s = some e → e.Error ≠ errRecordLevel.Error) :
    errRecordLevel.Error = "record level not one of: debug, info, warn or error" ∧
    (¬ recognisedLevel log.Level →
      (∃ w1, sl.handlePromptOutput env log j w = (some errRecordLevel, w1) ∧
        w1.Stderr = w.Stderr ∧ w1.LogWriter = w.LogWriter ∧ w1.Syslog = w.Syslog) ∧
      (∃ w1, sl.handleFileOutput env log j w = (some errRecordLevel, w1) ∧
        w1.Stderr = w.Stderr ∧ w1.LogWriter = w.LogWriter ∧ w1.Syslog = w.Syslog) ∧
      (∃ w1, sl.handleSyslogOutput env log j w = (some errRecordLevel, sl.Config, w1) ∧
        w1.Stderr = w.Stderr ∧ w1.LogWriter = w.LogWriter ∧ w1.Syslog = w.Syslog)) ∧
    (recognisedLevel log.Level →
      (∀ e, (sl.handlePromptOutput env log j w).1 = some e →
        e.Error ≠ errRecordLevel.Error) ∧
      (∀ e, (sl.handleFileOutput env log j w).1 = some e → e.Error ≠ errRecordLevel.Error) ∧
      (∀ e, (sl.handleSyslogOutput env log j w).1 = some e →
        e.Error ≠ errRecordLevel.Error)) := by
  refine ⟨rfl, ?_, ?_⟩
  · intro hl
    have hs := syslogSeverity_unrecognised log.Level hl
    unfold recognisedLevel at hl
    push_neg at hl
    obtain ⟨h1, h2, h3, h4⟩ := hl
    refine ⟨?_, ?_, ?_⟩
    · unfold MangoLogger.handlePromptOutput
      simp only [h1, h2, h3, h4, or_self, if_false]
      exact ⟨_, rfl, rfl, rfl, rfl⟩
    · unfold MangoLogger.handleFileOutput
      simp only [h1, h2, h3, h4, or_self, if_false]
      exact ⟨_, rfl, rfl, rfl, rfl⟩
    · unfold MangoLogger.handleSyslogOutput
      simp only [hs, if_true]
      exact ⟨_, rfl, rfl, rfl, rfl⟩
  · intro hl
    have hs := syslogSeverity_recognised log.Level hl
    refine ⟨?_, ?_, ?_⟩
    · intro e he
      rw [handlePromptOutput_recognised env sl log j w hl] at he
      simp at he
    · intro e he
      unfold MangoLogger.handleFileOutput MangoLogger.writeStringToLogFile at he
      have d1 : ¬ (LevelInfo = LevelDebug) := by decide
      have d2 : ¬ (LevelWarn = LevelDebug) := by decide
      have d3 : ¬ (LevelError = LevelDebug) := by decide
      have d4 : ¬ (LevelWarn = LevelInfo) := by decide
      have d5 : ¬ (LevelError = LevelInfo) := by decide
      unfold recognisedLevel at hl
      rcases hl with h | h | h | h <;> rw [h] at he <;>
        simp only [d1, d2, d3, d4, d5, if_true, if_false, true_or, or_true] at he <;>
        split_ifs at he <;> exact hWriter _ _ _ he
    · intro e he
      unfold MangoLogger.handleSyslogOutput at he
      simp only [hs, if_false] at he
      cases hf : syslogFacility sl.Config.Out.Syslog.Facility with
      | none =>
        simp only [hf, Option.some.injEq] at he
        subst he
        decide
      | some facility =>
        simp only [hf] at he
        cases hn : env.syslogNew (facility ||| syslogSeverity log.Level) log.Application with
        | some err =>
          simp only [hn, Option.some.injEq] at he
          subst he
          exact syslogNew_message_ne _
        | none =>
          simp only [hn] at he
          exact hSyslog _ _ _ _ he

/-- C17 (witness): libraries that never fail, the level -1. -/
theorem sinks_level_error_witness :
    ∃ w1, (NewMangoLogger allSinksConfig).handleFileOutput exampleEnv
        { StructuredLog.zero with Level := -1 } "j" World.init = (some errRecordLevel, w1) ∧
      w1.Stderr = World.init.Stderr ∧ w1.LogWriter = World.init.LogWriter ∧
      w1.Syslog = World.init.Syslog :=
  ((sinks_level_error exampleEnv (NewMangoLogger allSinksConfig)
    { StructuredLog.zero with Level := -1 } "j" World.init
    (fun _ _ _ he => by simp [exampleEnv] at he)
    (fun _ _ _ _ he => by simp [exampleEnv] at he)).2.1
    (by unfold recognisedLevel; decide)).2.1

/-! ## File sink -/

/-- C18 (counterexample): global output is off and the file sink and its debug flag are on;
`handleFileOutput` writes nothing for an info record and nothing for a debug record. -/
theorem handleFileOutput_gating_counterexample :
    (NewMangoLogger fileOnlyOutputDisabledConfig).Config.Out.File.Debug = true ∧
    (NewMangoLogger fileOnlyOutputDisabledConfig).handleFileOutput exampleEnv
      { StructuredLog.zero with Level := LevelInfo } "j" World.init = (none, World.init) ∧
    (NewMangoLogger fileOnlyOutputDisabledConfig).handleFileOutput exampleEnv
      { StructuredLog.zero with Level := LevelDebug } "j" World.init = (none, World.init) :=
  ⟨rfl, rfl, rfl⟩

/-- C18 (as amended): with global output and the file sink enabled, as when `Handle`
invokes the sink, `handleFileOutput` on a debug record writes nothing and returns success
when the file debug flag is off, and hands exactly one line, the serialized record
followed by one newline, to the log writer when the flag is on; on info, warn and error
records it hands over exactly that line whatever the debug flag is. In the writing cases
the result is the outcome of that one write. -/
theorem handleFileOutput_gating (env : Env) (sl : MangoLogger) (log : StructuredLog)
    (j : String) (w : World) (hOut : sl.Config.Out.Enabled = true)
    (_hFile : sl.Config.Out.File.Enabled = true) :
    sl.handleFileOutput env { log with Level := LevelDebug } j w =
      (if sl.Config.Out.File.Debug then
        (env.logWriterWrite w.LogWriter (j ++ "\n"),
          { w with LogWriter := w.LogWriter ++ [j ++ "\n"] })
      else (none, w)) ∧
    sl.handleFileOutput env { log with Level := LevelInfo } j w =
      (env.logWriterWrite w.LogWriter (j ++ "\n"),
        { w with LogWriter := w.LogWriter ++ [j ++ "\n"] }) ∧
    sl.handleFileOutput env { log with Level := LevelWarn } j w =
      (env.logWriterWrite w.LogWriter (j ++ "\n"),
        { w with LogWriter := w.LogWriter ++ [j ++ "\n"] }) ∧
    sl.handleFileOutput env { log with Level := LevelError } j w =
      (env.logWriterWrite w.LogWriter (j ++ "\n"),
        { w with LogWriter := w.LogWriter ++ [j ++ "\n"] }) := by
  have d1 : ¬ (LevelInfo = LevelDebug) := by decide
  have d2 : ¬ (LevelWarn = LevelDebug) := by decide
  have d3 : ¬ (LevelError = LevelDebug) := by decide
  have d4 : ¬ (LevelWarn = LevelInfo) := by decide
  have d5 : ¬ (LevelError = LevelInfo) := by decide
  unfold MangoLogger.handleFileOutput MangoLogger.writeStringToLogFile
  refine ⟨?_, ?_, ?_, ?_⟩
  · by_cases hd : sl.Config.Out.File.Debug = true <;> simp [hd, hOut]
  · simp [d1, hOut]
  · simp [d2, d4, hOut]
  · simp [d3, d5, hOut]

/-- C18 (witness): output and file sink on, file debug off: the debug record is dropped,
the info record is written. -/
theorem handleFileOutput_gating_witness :
    (NewMangoLogger fileOnlyConfig).Config.Out.Enabled = true ∧
    (NewMangoLogger fileOnlyConfig).Config.Out.File.Enabled = true ∧
    (NewMangoLogger fileOnlyConfig).handleFileOutput exampleEnv
      { StructuredLog.zero with Level := LevelDebug } "j" World.init = (none, World.init) ∧
    (NewMangoLogger fileOnlyConfig).handleFileOutput exampleEnv
      { StructuredLog.zero with Level := LevelInfo } "j" World.init
      = (none, { World.init with LogWriter := ["j\n"] }) :=
  ⟨rfl, rfl,
    (handleFileOutput_gating exampleEnv (NewMangoLogger fileOnlyConfig) StructuredLog.zero "j"
      World.init rfl rfl).1,
    (handleFileOutput_gating exampleEnv (NewMangoLogger fileOnlyConfig) StructuredLog.zero "j"
      World.init rfl rfl).2.1⟩

/-! ## Syslog priority -/

theorem syslogFacility_table :
    ∀ p ∈ facilityTable, syslogFacility p.1 = some (p.2 <<< 3) := by decide

theorem syslogSeverity_table :
    ∀ q ∈ severityTable, syslogSeverity q.1 = q.2 ∧ q.2 ≠ LOG_EMERG := by decide

theorem priority_arith :
    ∀ p ∈ facilityTable, ∀ q ∈ severityTable, (p.2 <<< 3) ||| q.2 = 8 * p.2 + q.2 := by
  decide

/-- The priority `handleSyslogOutput` stores once level and facility are accepted. -/
theorem handleSyslogOutput_stored (env : Env) (sl : MangoLogger) (log : StructuredLog)
    (j : String) (w : World) (facility : Nat)
    (hs : syslogSeverity log.Level ≠ LOG_EMERG)
    (hf : syslogFacility sl.Config.Out.Syslog.Facility = some facility) :
    (sl.handleSyslogOutput env log j w).2.1.Out.Syslog.priority
      = facility ||| syslogSeverity log.Level := by
  unfold MangoLogger.handleSyslogOutput
  simp only [hs, if_false, hf]
  cases env.syslogNew (facility ||| syslogSeverity log.Level) log.Application <;> rfl

/-- C19: for each of the nineteen named facilities and each of the four levels, the
priority the syslog sink stores on the configuration is the facility code shifted left by
three, or-ed with the severity code, which is eight times the facility code plus the
severity code. -/
theorem handleSyslogOutput_priority (env : Env) (sl : MangoLogger) (log : StructuredLog)
    (j : String) (w : World) (p : String × Nat) (q : Level × Nat)
    (hp : p ∈ facilityTable) (hq : q ∈ severityTable)
    (hFacility : sl.Config.Out.Syslog.Facility = p.1) (hLevel : log.Level = q.1) :
    (sl.handleSyslogOutput env log j w).2.1.Out.Syslog.priority = (p.2 <<< 3) ||| q.2 ∧
    (sl.handleSyslogOutput env log j w).2.1.Out.Syslog.priority = 8 * p.2 + q.2 := by
  have hs := syslogSeverity_table q hq
  have hf := syslogFacility_table p hp
  rw [← hLevel] at hs
  rw [← hFacility] at hf
  have h := handleSyslogOutput_stored env sl log j w _ (by rw [hs.1]; exact hs.2) hf
  rw [hs.1] at h
  exact ⟨h, by rw [h]; exact priority_arith p hp q hq⟩

/-- C19 (witness): facility local7 at level info gives 190. -/
theorem handleSyslogOutput_priority_witness :
    ((NewMangoLogger allSinksConfig).handleSyslogOutput exampleEnv
      { StructuredLog.zero with Level := LevelInfo } "j" World.init).2.1.Out.Syslog.priority
      = 190 :=
  (handleSyslogOutput_priority exampleEnv (NewMangoLogger allSinksConfig)
    { StructuredLog.zero with Level := LevelInfo } "j" World.init ("local7", 23)
    (LevelInfo, 6) (by decide) (by decide) rfl rfl).2

/-- C20: for a facility name outside the table of nineteen (the empty name included) and a
recognised level, the syslog sink returns the error "facility level not valid", opens no
connection and writes no message, and leaves the configuration, with its stored
priority, as it was; it prints one diagnostic on standard output. -/
theorem handleSyslogOutput_invalid_facility (env : Env) (sl : MangoLogger)
    (log : StructuredLog) (j : String) (w : World)
    (hFacility : ∀ p ∈ facilityTable, sl.Config.Out.Syslog.Facility ≠ p.1)
    (hLevel : recognisedLevel log.Level) :
    sl.handleSyslogOutput env log j w =
      (some errFacility, sl.Config,
        { w with Stdout := w.Stdout ++ ["Facility level not valid\n"] }) ∧
    errFacility.Error = "facility level not valid" ∧
    (sl.handleSyslogOutput env log j w).2.2.Syslog = w.Syslog ∧
    (sl.handleSyslogOutput env log j w).2.1.Out.Syslog.priority
      = sl.Config.Out.Syslog.priority := by
  have hs := syslogSeverity_recognised log.Level hLevel
  have hf : syslogFacility sl.Config.Out.Syslog.Facility = none := by
    simp only [facilityTable, List.mem_cons, List.mem_singleton, List.not_mem_nil, or_false,
      forall_eq_or_imp, forall_eq] at hFacility
    unfold syslogFacility
    simp [hFacility]
  have h : sl.handleSyslogOutput env log j w =
      (some errFacility, sl.Config,
        { w with Stdout := w.Stdout ++ ["Facility level not valid\n"] }) := by
    unfold MangoLogger.handleSyslogOutput
    simp only [hs, if_false, hf]
    rfl
  rw [h]
  exact ⟨rfl, rfl, rfl, rfl⟩

/-- C20 (witness): the facility name of the invalid-facility test at level info. -/
theorem handleSyslogOutput_invalid_facility_witness :
    (NewMangoLogger facilityInvalidConfig).handleSyslogOutput exampleEnv
      { StructuredLog.zero with Level := LevelInfo } "j" World.init =
      (some errFacility, (NewMangoLogger facilityInvalidConfig).Config,
        { World.init with Stdout := ["Facility level not valid\n"] }) :=
  (handleSyslogOutput_invalid_facility exampleEnv (NewMangoLogger facilityInvalidConfig)
    { StructuredLog.zero with Level := LevelInfo } "j" World.init (by decide)
    (by unfold recognisedLevel; decide)).1

/-! ## Enabled, defaults, the type error text -/

/-- C21: `Enabled` is true exactly for the levels -4 (debug), 0 (info), 4 (warn) and
8 (error), whatever the handler, its configuration and the context are; -1 gives false. -/
theorem Enabled_iff (sl : MangoLogger) (context : Context) (level : Level) :
    (sl.Enabled context level = true ↔ level = -4 ∨ level = 0 ∨ level = 4 ∨ level = 8) ∧
    (∀ (sl2 : MangoLogger) (context2 : Context),
      sl2.Enabled context2 level = sl.Enabled context level) ∧
    sl.Enabled context (-1) = false := by
  refine ⟨?_, fun _ _ => rfl, rfl⟩
  unfold MangoLogger.Enabled LevelDebug LevelInfo LevelWarn LevelError
  constructor
  · intro h
    by_contra hn
    push_neg at hn
    simp [hn.1, hn.2.1, hn.2.2.1, hn.2.2.2] at h
  · rintro (h | h | h | h) <;> subst h <;> decide

/-- C23: the configuration held by `NewMangoLogger c` has the verbose format of `c` when
that is not empty and "." otherwise, the friendly format of `c` when that is not empty
and the default template otherwise, and every other field as in `c`; defaulting twice
is defaulting once. -/
theorem NewMangoLogger_config (c : LogConfig) :
    (NewMangoLogger c).Config.Out.Cli.VerboseFormat
      = (if c.Out.Cli.VerboseFormat = "" then "." else c.Out.Cli.VerboseFormat) ∧
    (NewMangoLogger c).Config.Out.Cli.FriendlyFormat
      = (if c.Out.Cli.FriendlyFormat = "" then
          "\"[\\(.level)] - \\(.ts) - \\(.operation) - \\(.message) - \\(.attributes)\""
        else c.Out.Cli.FriendlyFormat) ∧
    (NewMangoLogger c).Config.MangoConfig = c.MangoConfig ∧
    (NewMangoLogger c).Config.Out.Enabled = c.Out.Enabled ∧
    (NewMangoLogger c).Config.Out.File = c.Out.File ∧
    (NewMangoLogger c).Config.Out.Syslog = c.Out.Syslog ∧
    (NewMangoLogger c).Config.Out.Cli.Enabled = c.Out.Cli.Enabled ∧
    (NewMangoLogger c).Config.Out.Cli.Friendly = c.Out.Cli.Friendly ∧
    (NewMangoLogger c).Config.Out.Cli.Verbose = c.Out.Cli.Verbose ∧
    applyDefaultFormats (applyDefaultFormats c) = applyDefaultFormats c ∧
    (NewMangoLogger (NewMangoLogger c).Config).Config = (NewMangoLogger c).Config := by
  have hd : ¬ (DefaultVerboseFormat = "") := by decide
  have hf : ¬ (DefaultFriendlyFormat = "") := by decide
  have hidem : applyDefaultFormats (applyDefaultFormats c) = applyDefaultFormats c := by
    unfold applyDefaultFormats
    by_cases h1 : c.Out.Cli.VerboseFormat = "" <;>
      by_cases h2 : c.Out.Cli.FriendlyFormat = "" <;> simp [h1, h2, hd, hf]
  refine ⟨?_, ?_, ?_, ?_, ?_, ?_, ?_, ?_, ?_, hidem, hidem⟩ <;>
    unfold NewMangoLogger applyDefaultFormats <;>
    by_cases h1 : c.Out.Cli.VerboseFormat = "" <;>
    by_cases h2 : c.Out.Cli.FriendlyFormat = "" <;>
    simp [h1, h2, DefaultVerboseFormat, DefaultFriendlyFormat]

/-- C24: under general strict mode, from any state of `REQUIRED_FIELDS` a process can
reach (so with or without correlation-strict), if the type of the context is a string
`v` outside the allow-list then `buildLog` fails, whatever the other fields are, and the
text of its error is exactly the strict-mode text for type with `v` in it. -/
theorem buildLog_type_error_text (env : Env) (sl : MangoLogger) (context : Context)
    (record : Record) (w : World) (v : String)
    (hStrict : sl.Config.MangoConfig.Strict = true)
    (hReach : RequiredFieldsReachable w.REQUIRED_FIELDS)
    (hv : context.Value TYPE = some (.str v))
    (hNot : v ∉ ALLOWED_TYPES) :
    ∃ log err w1, sl.buildLog env context record w = (log, some err, w1) ∧
      err.Error = "[STRICT_MODE ON] without required context fields [type application operation] - [type] required in context and not present (or wrong type - expected string). Current value [" ++ v ++ "] is not in the allowed list: [\"Business\" \"Security\" \"Performance\"]" := by
  obtain ⟨n, hn⟩ := hReach
  have h1 : ¬ (TYPE = OPERATION) := by decide
  have h2 : ¬ (TYPE = APPLICATION) := by decide
  have hfe : fieldError context sl TYPE
      = some (.wrapError (notAllowedMessage TYPE v) errStrictModeOn) := by
    unfold fieldError handleEachField handleExistentValues
    rw [hv]
    simp [GoAny.assertString, h1, h2, hStrict, hNot]
  have hlist : checkedFields sl w = TYPE :: (checkedFields sl w).tail := by
    unfold checkedFields
    split_ifs <;> simp [hn, REQUIRED_FIELDS_init]
  have herr := buildLog_err env sl context record w
  rw [hlist, List.findSome?_cons, hfe] at herr
  simp only at herr
  refine ⟨(sl.buildLog env context record w).1,
    .wrapError (notAllowedMessage TYPE v) errStrictModeOn,
    (sl.buildLog env context record w).2.2, ?_, ?_⟩
  · rw [← herr]
  · have hp : errStrictModeOn.Error ++ " - [" ++ TYPE ++ "] required in context and not present (or wrong type - expected string). Current value ["
        = "[STRICT_MODE ON] without required context fields [type application operation] - [type] required in context and not present (or wrong type - expected string). Current value [" := by
      rfl
    have hq : "] is not in the allowed list: " ++ fmtQ ALLOWED_TYPES
        = "] is not in the allowed list: [\"Business\" \"Security\" \"Performance\"]" := by
      rfl
    show notAllowedMessage TYPE v = _
    unfold notAllowedMessage
    rw [hp, String.append_assoc, hq]

/-- C24 (witness): the run of `TestMangoLogger_WrongType`, the type being "type". -/
theorem buildLog_type_error_text_witness :
    ∃ log err w1,
      (NewMangoLogger facilityInvalidConfig).buildLog exampleEnv
        (Context.WithValue noCorrelationContext TYPE (.str "type")) infoRecord World.init
        = (log, some err, w1) ∧
      err.Error = "[STRICT_MODE ON] without required context fields [type application operation] - [type] required in context and not present (or wrong type - expected string). Current value [" ++ "type" ++ "] is not in the allowed list: [\"Business\" \"Security\" \"Performance\"]" :=
  buildLog_type_error_text exampleEnv (NewMangoLogger facilityInvalidConfig)
    (Context.WithValue noCorrelationContext TYPE (.str "type")) infoRecord World.init "type"
    rfl ⟨0, rfl⟩ rfl (by decide)

/-! ## WithAttrs -/

theorem Memory.getD_set_self (mem : Memory) (i : Nat) (v : List Attr) (h : i < mem.length) :
    (mem.set i v).getD i [] = v := by
  simp [List.getD_eq_getElem?_getD, List.getElem?_set, h]

theorem Memory.getD_out_of_range (mem : Memory) (i : Nat) (h : mem.length ≤ i) :
    mem.getD i [] = [] := by
  simp [List.getD_eq_getElem?_getD, List.getElem?_eq_none h]

theorem Memory.getD_append_left (mem : Memory) (i : Nat) (v : List Attr)
    (h : i < mem.length) : (mem ++ [v]).getD i [] = mem.getD i [] := by
  simp [List.getD_eq_getElem?_getD, List.getElem?_append_left h]

theorem Memory.getD_append_new (mem : Memory) (v : List Attr) :
    (mem ++ [v]).getD mem.length [] = v := by
  simp [List.getD_eq_getElem?_getD]

theorem Memory.read_length (mem : Memory) (s : SliceHeader) (h : s.valid mem) :
    (mem.read s).length = s.len := by
  unfold Memory.read
  rw [List.length_take, h.2]
  exact Nat.min_eq_left h.1

/-- What `append` does, read back through the old and the new header. -/
theorem goAppend_read (growCap : Nat → Nat → Nat) (mem : Memory) (s : SliceHeader)
    (xs : List Attr) (h : s.valid mem) :
    (goAppend growCap mem s xs).2.read (goAppend growCap mem s xs).1 = mem.read s ++ xs ∧
    (goAppend growCap mem s xs).2.read s = mem.read s ∧
    (goAppend growCap mem s xs).1.valid (goAppend growCap mem s xs).2 := by
  have hlen := Memory.read_length mem s h
  obtain ⟨hle, hcap⟩ := h
  unfold goAppend
  by_cases hfit : s.len + xs.length ≤ s.cap
  · simp only [hfit, if_true]
    by_cases hin : s.array < mem.length
    · have htake : ((mem.getD s.array []).take s.len).length = s.len := hlen
      refine ⟨?_, ?_, ?_, ?_⟩
      · unfold Memory.read
        simp only [Memory.getD_set_self mem _ _ hin]
        rw [List.append_assoc, List.take_append_eq_append_take, htake]
        have h1 : s.len + xs.length - s.len = xs.length := by omega
        rw [List.take_of_length_le (by rw [htake]; omega), h1,
          List.take_append_eq_append_take, List.take_of_length_le (Nat.le_refl _)]
        simp
      · unfold Memory.read
        simp only [Memory.getD_set_self mem _ _ hin]
        rw [List.append_assoc, List.take_append_eq_append_take, htake]
        simp
      · show s.len + xs.length ≤ s.cap
        exact hfit
      · simp only [Memory.getD_set_self mem _ _ hin]
        simp only [List.length_append, List.length_drop, htake, hcap]
        omega
    · have hout : mem.length ≤ s.array := Nat.le_of_not_lt hin
      have hnil := Memory.getD_out_of_range mem s.array hout
      have hc0 : s.cap = 0 := by rw [← hcap, hnil]; rfl
      have hl0 : s.len = 0 := by omega
      have hx0 : xs = [] := by
        apply List.eq_nil_of_length_eq_zero
        omega
      subst hx0
      have hset : mem.set s.array ((mem.getD s.array []).take s.len ++ []
          ++ (mem.getD s.array []).drop (s.len + ([] : List Attr).length)) = mem := by
        apply List.set_eq_of_length_le
        exact hout
      rw [hset]
      refine ⟨?_, rfl, ?_, ?_⟩
      · unfold Memory.read
        simp [hl0]
      · show s.len + 0 ≤ s.cap
        omega
      · exact hcap
  · simp only [hfit, if_false]
    refine ⟨?_, ?_, ?_, ?_⟩
    · unfold Memory.read
      simp only [Memory.getD_append_new]
      rw [List.append_assoc, List.take_append_eq_append_take]
      have hl : ((mem.getD s.array []).take s.len).length = s.len := hlen
      rw [List.take_of_length_le (by rw [hl]; omega), hl]
      have h1 : s.len + xs.length - s.len = xs.length := by omega
      rw [h1, List.take_append_eq_append_take, List.take_of_length_le (Nat.le_refl _)]
      simp
    · unfold Memory.read
      by_cases hin : s.array < mem.length
      · rw [Memory.getD_append_left mem _ _ hin]
      · have hout : mem.length ≤ s.array := Nat.le_of_not_lt hin
        have hnil := Memory.getD_out_of_range mem s.array hout
        have hc0 : s.cap = 0 := by rw [← hcap, hnil]; rfl
        have hl0 : s.len = 0 := by omega
        simp [hl0]
    · show s.len + xs.length ≤ max (s.len + xs.length) (growCap s.cap (s.len + xs.length))
      exact Nat.le_max_left _ _
    · simp only [Memory.getD_append_new]
      simp only [List.length_append, List.length_replicate, hlen]
      have := Nat.le_max_left (s.len + xs.length) (growCap s.cap (s.len + xs.length))
      omega

/-- C22: for every handler `h` whose attribute slice is within its backing array and
every attribute list `a`, the handler `WithAttrs(a)` returns has the attributes of `h`
followed by `a` in the same order and the configuration of `h` (the log writer is the
one shared writer of the process); read after the call, `h` still has exactly its own
attributes. The slice of the new handler is again within its backing array. -/
theorem WithAttrs_spec (growCap : Nat → Nat → Nat) (sl : MangoLoggerRef) (attrs : List Attr)
    (mem : Memory) (hValid : sl.attrs.valid mem) :
    ((sl.WithAttrs growCap attrs mem).1.view (sl.WithAttrs growCap attrs mem).2).attrs
      = (sl.view mem).attrs ++ attrs ∧
    (sl.WithAttrs growCap attrs mem).1.Config = sl.Config ∧
    (sl.WithAttrs growCap attrs mem).1.view (sl.WithAttrs growCap attrs mem).2
      = (sl.view mem).WithAttrs attrs ∧
    sl.view (sl.WithAttrs growCap attrs mem).2 = sl.view mem ∧
    (sl.WithAttrs growCap attrs mem).1.attrs.valid (sl.WithAttrs growCap attrs mem).2 := by
  obtain ⟨h1, h2, h3⟩ := goAppend_read growCap mem sl.attrs attrs hValid
  refine ⟨h1, rfl, ?_, ?_, h3⟩
  · show MangoLogger.mk _ _ = MangoLogger.mk _ _
    exact congrArg (fun l => MangoLogger.mk l sl.Config) h1
  · show MangoLogger.mk _ _ = MangoLogger.mk _ _
    exact congrArg (fun l => MangoLogger.mk l sl.Config) h2

/-- C22 (witness): a handler with three attributes in an array of four cells gets a
fourth one. -/
theorem WithAttrs_spec_witness :
    SliceHeader.valid
      [[⟨"x", .str "1"⟩, ⟨"y", .str "2"⟩, ⟨"z", .str "3"⟩, zeroAttr]]
      { array := 0, len := 3, cap := 4 } ∧
    (((MangoLoggerRef.mk { array := 0, len := 3, cap := 4 } consoleOnlyConfig).WithAttrs
        (fun _ n => 2 * n) [⟨"p", .str "4"⟩]
        [[⟨"x", .str "1"⟩, ⟨"y", .str "2"⟩, ⟨"z", .str "3"⟩, zeroAttr]]).1.view
      ((MangoLoggerRef.mk { array := 0, len := 3, cap := 4 } consoleOnlyConfig).WithAttrs
        (fun _ n => 2 * n) [⟨"p", .str "4"⟩]
        [[⟨"x", .str "1"⟩, ⟨"y", .str "2"⟩, ⟨"z", .str "3"⟩, zeroAttr]]).2).attrs
      = [⟨"x", .str "1"⟩, ⟨"y", .str "2"⟩, ⟨"z", .str "3"⟩, ⟨"p", .str "4"⟩] :=
  ⟨⟨by decide, rfl⟩,
    (WithAttrs_spec (fun _ n => 2 * n)
      (MangoLoggerRef.mk { array := 0, len := 3, cap := 4 } consoleOnlyConfig)
      [⟨"p", .str "4"⟩]
      [[⟨"x", .str "1"⟩, ⟨"y", .str "2"⟩, ⟨"z", .str "3"⟩, zeroAttr]]
      ⟨by decide, rfl⟩).1⟩

/-- Two handlers derived from one parent with spare capacity share its backing array:
the second derivation overwrites the attribute the first one added. -/
theorem WithAttrs_siblings_share :
    ((MangoLoggerRef.mk { array := 0, len := 3, cap := 4 } consoleOnlyConfig).WithAttrs
        (fun _ n => 2 * n) [⟨"p", .str "4"⟩]
        [[⟨"x", .str "1"⟩, ⟨"y", .str "2"⟩, ⟨"z", .str "3"⟩, zeroAttr]]).1.view
      ((MangoLoggerRef.mk { array := 0, len := 3, cap := 4 } consoleOnlyConfig).WithAttrs
        (fun _ n => 2 * n) [⟨"q", .str "5"⟩]
        ((MangoLoggerRef.mk { array := 0, len := 3, cap := 4 } consoleOnlyConfig).WithAttrs
          (fun _ n => 2 * n) [⟨"p", .str "4"⟩]
          [[⟨"x", .str "1"⟩, ⟨"y", .str "2"⟩, ⟨"z", .str "3"⟩, zeroAttr]]).2).2
      = { attrs := [⟨"x", .str "1"⟩, ⟨"y", .str "2"⟩, ⟨"z", .str "3"⟩, ⟨"q", .str "5"⟩],
          Config := consoleOnlyConfig } := by
  rfl

/-! ## slices: EqualsIgnoreOrder -/

theorem goEq_iff {T : Type} [DecidableEq T] [GoEq T] (x y : T) :
    goEq x y = true ↔ GoEq.selfEqual x = true ∧ x = y := by
  unfold goEq
  simp

theorem mapGet_nil {T : Type} [DecidableEq T] [GoEq T] (key : T) :
    mapGet ([] : List (T × Int)) key = 0 := rfl

theorem mapGet_cons {T : Type} [DecidableEq T] [GoEq T] (k : T) (v : Int)
    (rest : List (T × Int)) (key : T) :
    mapGet ((k, v) :: rest) key = if goEq k key then v else mapGet rest key := rfl

theorem mapSet_nil {T : Type} [DecidableEq T] [GoEq T] (key : T) (v : Int) :
    mapSet ([] : List (T × Int)) key v = [(key, v)] := rfl

theorem mapSet_cons {T : Type} [DecidableEq T] [GoEq T] (k : T) (v0 : Int)
    (rest : List (T × Int)) (key : T) (v : Int) :
    mapSet ((k, v0) :: rest) key v =
      if goEq k key then (k, v) :: rest else (k, v0) :: mapSet rest key v := rfl

/-- A key that differs from itself is never found. -/
theorem mapGet_not_selfEqual {T : Type} [DecidableEq T] [GoEq T] (m : List (T × Int))
    (key : T) (h : GoEq.selfEqual key = false) : mapGet m key = 0 := by
  induction m with
  | nil => rfl
  | cons e rest ih =>
    obtain ⟨k, v⟩ := e
    rw [mapGet_cons]
    have : goEq k key = false := by
      cases hg : goEq k key
      · rfl
      · obtain ⟨h1, h2⟩ := (goEq_iff k key).1 hg
        rw [h2, h] at h1
        cases h1
    rw [this]
    simpa using ih

/-- Reading the map after an assignment. -/
theorem mapGet_mapSet {T : Type} [DecidableEq T] [GoEq T] (m : List (T × Int))
    (key : T) (v : Int) (x : T) :
    mapGet (mapSet m key v) x = if goEq key x then v else mapGet m x := by
  induction m with
  | nil =>
    rw [mapSet_nil, mapGet_cons, mapGet_nil]
  | cons e rest ih =>
    obtain ⟨k, v0⟩ := e
    rw [mapSet_cons]
    by_cases hk : goEq k key = true
    · obtain ⟨h1, h2⟩ := (goEq_iff k key).1 hk
      subst h2
      rw [if_pos hk, mapGet_cons, mapGet_cons]
      by_cases hx : goEq k x = true
      · rw [if_pos hx, if_pos hx]
      · rw [if_neg hx, if_neg hx, if_neg hx]
    · rw [if_neg hk, mapGet_cons, mapGet_cons, ih]
      by_cases hx : goEq k x = true
      · obtain ⟨h1, h2⟩ := (goEq_iff k x).1 hx
        subst h2
        have hkx : ¬ (goEq key k = true) := by
          intro h
          obtain ⟨h3, h4⟩ := (goEq_iff key k).1 h
          subst h4
          exact hk hx
        rw [if_pos hx, if_neg hkx, if_pos hx]
      · rw [if_neg hx, if_neg hx]

/-- After the first loop of `EqualsIgnoreOrder` the counter of a value that equals itself
has grown by its number of occurrences; a value that differs from itself has none. -/
theorem frequency_foldl {T : Type} [DecidableEq T] [GoEq T] (s : List T)
    (f : List (T × Int)) (x : T) :
    mapGet (s.foldl (fun frequency key => mapSet frequency key (mapGet frequency key + 1)) f) x
      = mapGet f x + (if GoEq.selfEqual x = true then (s.count x : Int) else 0) := by
  induction s generalizing f with
  | nil => simp
  | cons a rest ih =>
    rw [List.foldl_cons, ih, mapGet_mapSet]
    by_cases hs : GoEq.selfEqual x = true
    · rw [if_pos hs, if_pos hs]
      by_cases hax : a = x
      · subst hax
        have hg : goEq a a = true := (goEq_iff a a).2 ⟨hs, rfl⟩
        rw [if_pos hg, List.count_cons_self]
        push_cast
        omega
      · have hg : ¬ (goEq a x = true) := fun h => hax ((goEq_iff a x).1 h).2
        rw [if_neg hg, List.count_cons_of_ne (fun e => hax e.symm)]
    · rw [if_neg hs, if_neg hs]
      have hg : ¬ (goEq a x = true) := by
        intro h
        obtain ⟨h1, h2⟩ := (goEq_iff a x).1 h
        subst h2
        exact hs h1
      rw [if_neg hg]

/-- The second loop of `EqualsIgnoreOrder` runs to its end exactly when no value occurs in
the slice more often than its counter allows. -/
theorem equalsLoop_iff {T : Type} [DecidableEq T] [GoEq T] (s : List T) :
    ∀ f : List (T × Int), (∀ x, 0 ≤ mapGet f x) →
      (equalsLoop f s = true ↔ ∀ x, (s.count x : Int) ≤ mapGet f x) := by
  induction s with
  | nil =>
    intro f hf
    simp [equalsLoop, hf]
  | cons key rest ih =>
    intro f hf
    unfold equalsLoop
    by_cases h0 : mapGet f key = 0
    · rw [if_pos h0]
      constructor
      · intro h
        cases h
      · intro h
        have := h key
        rw [List.count_cons_self, h0] at this
        push_cast at this
        omega
    · rw [if_neg h0]
      have hsel : GoEq.selfEqual key = true := by
        cases hs : GoEq.selfEqual key
        · exact absurd (mapGet_not_selfEqual f key hs) h0
        · rfl
      have hpos : 0 < mapGet f key := lt_of_le_of_ne (hf key) (fun e => h0 e.symm)
      have hf2 : ∀ x, 0 ≤ mapGet (mapSet f key (mapGet f key - 1)) x := by
        intro x
        rw [mapGet_mapSet]
        split_ifs
        · omega
        · exact hf x
      rw [ih _ hf2]
      constructor
      · intro h x
        have := h x
        rw [mapGet_mapSet] at this
        by_cases hx : key = x
        · subst hx
          rw [if_pos ((goEq_iff key key).2 ⟨hsel, rfl⟩)] at this
          rw [List.count_cons_self]
          push_cast
          omega
        · rw [if_neg (fun hg => hx ((goEq_iff key x).1 hg).2)] at this
          rw [List.count_cons_of_ne (fun e => hx e.symm)]
          exact this
      · intro h x
        have := h x
        rw [mapGet_mapSet]
        by_cases hx : key = x
        · subst hx
          rw [if_pos ((goEq_iff key key).2 ⟨hsel, rfl⟩)]
          rw [List.count_cons_self] at this
          push_cast at this
          omega
        · rw [if_neg (fun hg => hx ((goEq_iff key x).1 hg).2)]
          rw [List.count_cons_of_ne (fun e => hx e.symm)] at this
          exact this

/-- The result of `EqualsIgnoreOrder` on all slices: true exactly when the slices are
permutations of each other and hold no value that differs from itself. -/
theorem EqualsIgnoreOrder_true_iff {T : Type} [DecidableEq T] [GoEq T] (s1 s2 : List T) :
    EqualsIgnoreOrder s1 s2 = true ↔
      (s1.Perm s2 ∧ ∀ x ∈ s1, GoEq.selfEqual x = true) := by
  unfold EqualsIgnoreOrder
  by_cases hlen : s1.length = s2.length
  · rw [if_neg (by simpa using hlen)]
    rw [equalsLoop_iff s2 _ (by
      intro x
      rw [frequency_foldl, mapGet_nil]
      split_ifs
      · omega
      · omega)]
    constructor
    · intro h
      have hle : ∀ x, s2.count x ≤ s1.count x := by
        intro x
        have := h x
        rw [frequency_foldl, mapGet_nil] at this
        split_ifs at this
        · omega
        · omega
      have hsub : s2.Subperm s1 := List.subperm_ext_iff.2 (fun x _ => hle x)
      have hperm : s2.Perm s1 := hsub.perm_of_length_le (le_of_eq hlen)
      refine ⟨hperm.symm, ?_⟩
      intro x hx
      have hx2 : x ∈ s2 := hperm.symm.subset hx
      have hc : 0 < s2.count x := List.count_pos_iff.2 hx2
      have := h x
      rw [frequency_foldl, mapGet_nil] at this
      cases hs : GoEq.selfEqual x
      · rw [hs] at this
        simp only [Bool.false_eq_true, if_false] at this
        omega
      · rfl
    · rintro ⟨hp, hall⟩ x
      rw [frequency_foldl, mapGet_nil, hp.count_eq x]
      by_cases hs : GoEq.selfEqual x = true
      · rw [if_pos hs]
        omega
      · rw [if_neg hs]
        have hx : x ∉ s2 := fun hx => hs (hall x (hp.symm.subset hx))
        rw [List.count_eq_zero_of_not_mem hx]
        simp
  · rw [if_pos (by simpa using hlen)]
    constructor
    · intro h
      cases h
    · rintro ⟨hp, _⟩
      exact absurd hp.length_eq hlen

/-- C26: on the slice holding one NaN, compared with itself, `EqualsIgnoreOrder` returns
false although the slice is a permutation of itself: the key NaN is never found in the
map. That is the only way the function departs from "true exactly for permutations": on
all slices it is true exactly when `s1` is a permutation of `s2` and no element of `s1`
differs from itself. So for slices whose elements all equal themselves it is true exactly
when `s1` is a permutation of `s2`, which is to say that every value occurs equally often
in both. Slices of different lengths compare false, and so do slices with the same elements
in different frequencies. -/
theorem EqualsIgnoreOrder_iff {T : Type} [DecidableEq T] [GoEq T] (s1 s2 : List T) :
    (EqualsIgnoreOrder [GoFloat.nan] [GoFloat.nan] = false ∧
      [GoFloat.nan].Perm [GoFloat.nan]) ∧
    (EqualsIgnoreOrder s1 s2 = true ↔
      (s1.Perm s2 ∧ ∀ x ∈ s1, GoEq.selfEqual x = true)) ∧
    ((∀ x ∈ s1, GoEq.selfEqual x = true) →
      (EqualsIgnoreOrder s1 s2 = true ↔ s1.Perm s2) ∧
      (EqualsIgnoreOrder s1 s2 = true ↔ ∀ v, s1.count v = s2.count v)) ∧
    (s1.length ≠ s2.length → EqualsIgnoreOrder s1 s2 = false) ∧
    EqualsIgnoreOrder [1, 2, 2, 3] [1, 2, 3, 3] = false := by
  refine ⟨⟨by decide, List.Perm.refl _⟩, EqualsIgnoreOrder_true_iff s1 s2, ?_, ?_, by decide⟩
  · intro hall
    have h1 : EqualsIgnoreOrder s1 s2 = true ↔ s1.Perm s2 := by
      rw [EqualsIgnoreOrder_true_iff]
      exact ⟨fun h => h.1, fun h => ⟨h, hall⟩⟩
    exact ⟨h1, h1.trans List.perm_iff_count⟩
  · intro h
    unfold EqualsIgnoreOrder
    rw [if_pos h]

/-- C26 on slices of numbers, whose elements all equal themselves: the examples of the
tests, in the general statement. -/
theorem EqualsIgnoreOrder_iff_witness :
    (∀ x ∈ [GoFloat.num 1, GoFloat.num 2, GoFloat.num 2], GoEq.selfEqual x = true) ∧
    (EqualsIgnoreOrder [GoFloat.num 1, GoFloat.num 2, GoFloat.num 2]
        [GoFloat.num 2, GoFloat.num 1, GoFloat.num 2] = true ↔
      [GoFloat.num 1, GoFloat.num 2, GoFloat.num 2].Perm
        [GoFloat.num 2, GoFloat.num 1, GoFloat.num 2]) :=
  ⟨by decide,
    ((EqualsIgnoreOrder_iff [GoFloat.num 1, GoFloat.num 2, GoFloat.num 2]
      [GoFloat.num 2, GoFloat.num 1, GoFloat.num 2]).2.2.1 (by decide)).1⟩

/-! ## slices: IndexOf and IndexOfAll -/

theorem indexOfLoop_spec {T : Type} [DecidableEq T] (l : List T) (v : T) (i : Nat) :
    (v ∉ l → indexOfLoop l v i = -1) ∧
    (v ∈ l → ∃ k : Nat, indexOfLoop l v i = ((i + k : Nat) : Int) ∧ k < l.length ∧
      l[k]? = some v ∧ ∀ j, j < k → l[j]? ≠ some v) := by
  induction l generalizing i with
  | nil => simp [indexOfLoop]
  | cons x rest ih =>
    unfold indexOfLoop
    by_cases hx : x = v
    · subst hx
      refine ⟨fun h => absurd (List.mem_cons_self _ _) h, fun _ => ⟨0, ?_, ?_, ?_, ?_⟩⟩
      · simp
      · simp
      · simp
      · intro j hj
        omega
    · simp only [hx, if_false]
      have hne : ¬ (v = x) := fun e => hx e.symm
      refine ⟨fun h => (ih (i + 1)).1 (fun hm => h (List.mem_cons_of_mem _ hm)), ?_⟩
      intro hm
      have hm2 : v ∈ rest := by
        rcases List.mem_cons.mp hm with h | h
        · exact absurd h hne
        · exact h
      obtain ⟨k, hk1, hk2, hk3, hk4⟩ := (ih (i + 1)).2 hm2
      refine ⟨k + 1, ?_, ?_, ?_, ?_⟩
      · rw [hk1]
        congr 1
        omega
      · simp
        omega
      · simpa using hk3
      · intro j hj
        cases j with
        | zero => simp [hx]
        | succ j =>
          simp only [List.getElem?_cons_succ]
          exact hk4 j (by omega)

/-- C29: `IndexOf(s, v)` is -1 when `v` does not occur in `s`, in particular for the
empty slice; otherwise it is the smallest index at which `s` holds `v`: an index within
the slice before which no element equals `v`. -/
theorem IndexOf_spec {T : Type} [DecidableEq T] (s : List T) (v : T) :
    (v ∉ s → IndexOf s v = -1) ∧
    IndexOf ([] : List T) v = -1 ∧
    (v ∈ s → ∃ i : Nat, IndexOf s v = (i : Int) ∧ i < s.length ∧ s[i]? = some v ∧
      ∀ j, j < i → s[j]? ≠ some v) := by
  refine ⟨(indexOfLoop_spec s v 0).1, rfl, ?_⟩
  intro hm
  obtain ⟨k, hk1, hk2, hk3, hk4⟩ := (indexOfLoop_spec s v 0).2 hm
  refine ⟨k, ?_, hk2, hk3, hk4⟩
  unfold IndexOf
  rw [hk1]
  simp

theorem indexOfAllLoop_spec {T : Type} [DecidableEq T] (l : List T) (v : T) (i : Nat)
    (acc : List Int) :
    indexOfAllLoop l v i acc =
      acc ++ ((List.range l.length).filter (fun k => decide (l[k]? = some v))).map
        (fun k => ((i + k : Nat) : Int)) := by
  induction l generalizing i acc with
  | nil => simp [indexOfAllLoop]
  | cons x rest ih =>
    unfold indexOfAllLoop
    rw [List.length_cons, List.range_succ_eq_map]
    have hmap : ((List.map Nat.succ (List.range rest.length)).filter
          (fun k => decide ((x :: rest)[k]? = some v))).map (fun k => ((i + k : Nat) : Int))
        = ((List.range rest.length).filter (fun k => decide (rest[k]? = some v))).map
          (fun k => ((i + 1 + k : Nat) : Int)) := by
      rw [List.filter_map, List.map_map]
      have hf : ((fun k => decide ((x :: rest)[k]? = some v)) ∘ Nat.succ)
          = (fun k => decide (rest[k]? = some v)) := by
        funext k
        simp
      rw [hf]
      apply List.map_congr_left
      intro k _
      simp only [Function.comp]
      congr 1
      omega
    by_cases hx : x = v
    · subst hx
      simp only [if_true]
      rw [ih, List.filter_cons]
      simp only [List.getElem?_cons_zero, decide_True, if_true, List.map_cons, hmap]
      simp
    · simp only [hx, if_false]
      rw [ih, List.filter_cons]
      have : ¬ (some x = some v) := fun e => hx (Option.some.inj e)
      simp only [List.getElem?_cons_zero, this, decide_False, Bool.false_eq_true, if_false,
        hmap]

/-- C30: `IndexOfAll(s, v)` lists, in strictly increasing order, exactly the indices
below `len(s)` at which `s` holds `v`; it is empty when `v` does not occur. -/
theorem IndexOfAll_spec {T : Type} [DecidableEq T] (s : List T) (v : T) :
    IndexOfAll s v =
      ((List.range s.length).filter (fun k => decide (s[k]? = some v))).map
        (fun k : Nat => (k : Int)) ∧
    (IndexOfAll s v).Pairwise (fun a b => a < b) ∧
    (∀ i : Int, i ∈ IndexOfAll s v ↔ ∃ n : Nat, i = (n : Int) ∧ n < s.length ∧
      s[n]? = some v) ∧
    (v ∉ s → IndexOfAll s v = []) := by
  have h : IndexOfAll s v =
      ((List.range s.length).filter (fun k => decide (s[k]? = some v))).map
        (fun k : Nat => (k : Int)) := by
    unfold IndexOfAll
    rw [indexOfAllLoop_spec]
    simp
  refine ⟨h, ?_, ?_, ?_⟩
  · rw [h]
    rw [List.pairwise_map]
    apply List.Pairwise.filter
    exact (List.pairwise_lt_range s.length).imp (fun hab => by exact_mod_cast hab)
  · intro i
    rw [h]
    simp only [List.mem_map, List.mem_filter, List.mem_range, decide_eq_true_eq]
    constructor
    · rintro ⟨n, ⟨hn, hv⟩, rfl⟩
      exact ⟨n, rfl, hn, hv⟩
    · rintro ⟨n, rfl, hn, hv⟩
      exact ⟨n, ⟨hn, hv⟩, rfl⟩
  · intro hv
    rw [h]
    have : (List.range s.length).filter (fun k => decide (s[k]? = some v)) = [] := by
      rw [List.filter_eq_nil_iff]
      intro k _ hk
      simp only [decide_eq_true_eq] at hk
      exact hv (List.getElem?_mem hk)
    rw [this]
    rfl

/-! ## slices: Unique -/

theorem firstOccurrences_cons {T : Type} [DecidableEq T] [GoEq T] (a : T) (l : List T) :
    firstOccurrences (a :: l) = a :: (firstOccurrences l).filter (fun x => !(goEq a x)) := rfl

theorem uniqueLoop_nil {T : Type} [DecidableEq T] [GoEq T] (seen res : List T) :
    uniqueLoop [] seen res = res := rfl

theorem uniqueLoop_cons {T : Type} [DecidableEq T] [GoEq T] (item : T)
    (rest seen res : List T) :
    uniqueLoop (item :: rest) seen res =
      if seen.any (fun k => goEq k item) then uniqueLoop rest seen res
      else uniqueLoop rest (item :: seen) (res ++ [item]) := rfl

/-- The loop of `Unique` appends, in order, the elements not found among the keys. -/
theorem uniqueLoop_spec {T : Type} [DecidableEq T] [GoEq T] (l : List T) :
    ∀ (seen res : List T), (∀ x, x ∈ seen ↔ x ∈ res) →
      uniqueLoop l seen res =
        res ++ (firstOccurrences l).filter (fun x => !(res.any (fun k => goEq k x))) := by
  induction l with
  | nil =>
    intro seen res _
    simp [uniqueLoop_nil, firstOccurrences]
  | cons a rest ih =>
    intro seen res hs
    have hany : ∀ x, seen.any (fun k => goEq k x) = res.any (fun k => goEq k x) := by
      intro x
      rw [Bool.eq_iff_iff, List.any_eq_true, List.any_eq_true]
      constructor
      · rintro ⟨k, hk, hg⟩
        exact ⟨k, (hs k).1 hk, hg⟩
      · rintro ⟨k, hk, hg⟩
        exact ⟨k, (hs k).2 hk, hg⟩
    rw [uniqueLoop_cons, hany a]
    by_cases ha : res.any (fun k => goEq k a) = true
    · rw [if_pos ha, ih seen res hs]
      congr 1
      rw [firstOccurrences_cons, List.filter_cons]
      simp only [ha, Bool.not_true, Bool.false_eq_true, if_false]
      rw [List.filter_filter]
      apply List.filter_congr
      intro x _
      by_cases hx : goEq a x = true
      · have hax : a = x := ((goEq_iff a x).1 hx).2
        subst hax
        simp [ha]
      · simp [hx]
    · rw [if_neg ha]
      have hs2 : ∀ x, x ∈ a :: seen ↔ x ∈ res ++ [a] := by
        intro x
        simp only [List.mem_cons, List.mem_append, List.mem_singleton, hs x, List.not_mem_nil,
          or_false]
        exact or_comm
      rw [ih (a :: seen) (res ++ [a]) hs2]
      rw [firstOccurrences_cons, List.filter_cons]
      simp only [ha, Bool.not_false, if_true]
      rw [List.append_assoc, List.singleton_append, List.filter_filter]
      congr 2
      apply List.filter_congr
      intro x _
      simp only [List.any_append, List.any_cons, List.any_nil, Bool.or_false, Bool.not_or]

theorem Unique_eq_firstOccurrences {T : Type} [DecidableEq T] [GoEq T] (s : List T) :
    Unique s = firstOccurrences s := by
  unfold Unique
  rw [uniqueLoop_spec s [] [] (fun _ => Iff.rfl)]
  simp

theorem firstOccurrences_mem {T : Type} [DecidableEq T] [GoEq T] (s : List T) (x : T) :
    x ∈ firstOccurrences s ↔ x ∈ s := by
  induction s with
  | nil => simp [firstOccurrences]
  | cons a rest ih =>
    rw [firstOccurrences_cons]
    simp only [List.mem_cons, List.mem_filter, ih, Bool.not_eq_true']
    constructor
    · rintro (h | ⟨h, _⟩)
      · exact Or.inl h
      · exact Or.inr h
    · rintro (h | h)
      · exact Or.inl h
      · by_cases hxa : x = a
        · exact Or.inl hxa
        · refine Or.inr ⟨h, ?_⟩
          cases hg : goEq a x
          · rfl
          · exact absurd ((goEq_iff a x).1 hg).2.symm hxa

theorem firstOccurrences_sublist {T : Type} [DecidableEq T] [GoEq T] (s : List T) :
    (firstOccurrences s).Sublist s := by
  induction s with
  | nil => simp [firstOccurrences]
  | cons a rest ih =>
    rw [firstOccurrences_cons]
    exact ((List.filter_sublist _).trans ih).cons₂ a

/-- No element of the result is `==` to a later one. -/
theorem firstOccurrences_pairwise {T : Type} [DecidableEq T] [GoEq T] (s : List T) :
    (firstOccurrences s).Pairwise (fun x y => goEq x y = false) := by
  induction s with
  | nil => simp [firstOccurrences]
  | cons a rest ih =>
    rw [firstOccurrences_cons, List.pairwise_cons]
    constructor
    · intro y hy
      simpa using (List.mem_filter.mp hy).2
    · exact List.Pairwise.filter _ ih

theorem firstOccurrences_nodup {T : Type} [DecidableEq T] [GoEq T] (s : List T)
    (hall : ∀ x ∈ s, GoEq.selfEqual x = true) : (firstOccurrences s).Nodup := by
  unfold List.Nodup
  refine (firstOccurrences_pairwise s).imp_of_mem ?_
  intro x y hx _ hxy he
  have hsel := hall x ((firstOccurrences_mem s x).1 hx)
  rw [(goEq_iff x y).2 ⟨hsel, he⟩] at hxy
  cases hxy

theorem firstOccurrences_indexOf {T : Type} [DecidableEq T] [GoEq T] (s : List T)
    (hall : ∀ x ∈ s, GoEq.selfEqual x = true) :
    (firstOccurrences s).Pairwise (fun x y => s.indexOf x < s.indexOf y) := by
  induction s with
  | nil => simp [firstOccurrences]
  | cons a rest ih =>
    have ha : GoEq.selfEqual a = true := hall a (List.mem_cons_self a rest)
    have hne : ∀ y, y ∈ (firstOccurrences rest).filter (fun x => !(goEq a x)) → y ≠ a := by
      intro y hy e
      have h1 : goEq a y = false := by simpa using (List.mem_filter.mp hy).2
      rw [(goEq_iff a y).2 ⟨ha, e.symm⟩] at h1
      cases h1
    rw [firstOccurrences_cons]
    rw [List.pairwise_cons]
    constructor
    · intro y hy
      have hya : y ≠ a := hne y hy
      rw [List.indexOf_cons_self, List.indexOf_cons_ne _ (fun e => hya e.symm)]
      exact Nat.succ_pos _
    · have h2 := List.Pairwise.filter (fun x => !(goEq a x))
        (ih (fun x hx => hall x (List.mem_cons_of_mem a hx)))
      refine h2.imp_of_mem ?_
      intro x y hx hy hxy
      have hxa : x ≠ a := hne x hx
      have hya : y ≠ a := hne y hy
      rw [List.indexOf_cons_ne _ (fun e => hxa e.symm),
        List.indexOf_cons_ne _ (fun e => hya e.symm)]
      exact Nat.succ_lt_succ hxy

theorem uniqueMemLoop_zero {T : Type} [DecidableEq T] [GoEq T] (zero : T)
    (growCap : Nat → Nat → Nat) (slice : SliceHeader) (i : Nat) (seen : List T)
    (result : SliceHeader) (mem : Arrays T) :
    uniqueMemLoop zero growCap slice 0 i seen result mem = (result, mem) := rfl

theorem uniqueMemLoop_succ {T : Type} [DecidableEq T] [GoEq T] (zero : T)
    (growCap : Nat → Nat → Nat) (slice : SliceHeader) (n i : Nat) (seen : List T)
    (result : SliceHeader) (mem : Arrays T) :
    uniqueMemLoop zero growCap slice (n + 1) i seen result mem =
      if seen.any (fun k => goEq k (((mem.getD slice.array [])[i]?).getD zero)) then
        uniqueMemLoop zero growCap slice n (i + 1) seen result mem
      else
        uniqueMemLoop zero growCap slice n (i + 1)
          ((((mem.getD slice.array [])[i]?).getD zero) :: seen)
          (appendOne zero growCap mem result (((mem.getD slice.array [])[i]?).getD zero)).1
          (appendOne zero growCap mem result (((mem.getD slice.array [])[i]?).getD zero)).2 :=
  rfl

theorem Arrays.getD_snoc_old {T : Type} (mem : Arrays T) (arr : List T) (a : Nat)
    (h : a < mem.length) : (mem ++ [arr]).getD a [] = mem.getD a [] := by
  simp [List.getD_eq_getElem?_getD, List.getElem?_append_left h]

theorem Arrays.getD_snoc_new {T : Type} (mem : Arrays T) (arr : List T) :
    (mem ++ [arr]).getD mem.length [] = arr := by
  simp [List.getD_eq_getElem?_getD]

theorem Arrays.set_snoc_new {T : Type} (mem : Arrays T) (arr arr2 : List T) :
    (mem ++ [arr]).set mem.length arr2 = mem ++ [arr2] := by
  rw [List.set_append_right _ _ (le_refl _)]
  simp

/-- The loop of `Unique` in memory writes only into the array `make` allocated, which has
room for every element, and builds there the result of the loop on values. -/
theorem uniqueMemLoop_spec {T : Type} [DecidableEq T] [GoEq T] (zero : T)
    (growCap : Nat → Nat → Nat) (mem : Arrays T) (slice : SliceHeader)
    (hv : slice.len ≤ (mem.getD slice.array []).length) :
    ∀ (n i : Nat) (seen res tail : List T), i + n = slice.len → res.length ≤ i →
      (res ++ tail).length = slice.len → (∀ x, x ∈ seen ↔ x ∈ res) →
      ∃ tail2 : List T,
        uniqueMemLoop zero growCap slice n i seen
            { array := mem.length, len := res.length, cap := slice.len }
            (mem ++ [res ++ tail])
          = ({ array := mem.length,
               len := (uniqueLoop ((Arrays.read mem slice).drop i) seen res).length,
               cap := slice.len },
             mem ++ [uniqueLoop ((Arrays.read mem slice).drop i) seen res ++ tail2]) := by
  have hlen : (Arrays.read mem slice).length = slice.len := by
    unfold Arrays.read
    rw [List.length_take]
    omega
  intro n
  induction n with
  | zero =>
    intro i seen res tail hi _ _ _
    refine ⟨tail, ?_⟩
    rw [uniqueMemLoop_zero, List.drop_of_length_le (by omega), uniqueLoop_nil]
  | succ n ih =>
    intro i seen res tail hi hres htail hs
    have hiL : i < slice.len := by omega
    have harr : slice.array < mem.length := by
      by_contra hc
      have h0 : mem.getD slice.array [] = [] := by
        simp [List.getD_eq_getElem?_getD, List.getElem?_eq_none (not_lt.mp hc)]
      rw [h0] at hv
      simp at hv
      omega
    have hi2 : i < (mem.getD slice.array []).length := by omega
    have hitem : (((mem ++ [res ++ tail]).getD slice.array [])[i]?).getD zero
        = (mem.getD slice.array [])[i] := by
      rw [Arrays.getD_snoc_old mem _ _ harr, List.getElem?_eq_getElem hi2]
      rfl
    have hdrop : (Arrays.read mem slice).drop i
        = (mem.getD slice.array [])[i] :: (Arrays.read mem slice).drop (i + 1) := by
      have hi3 : i < (Arrays.read mem slice).length := by omega
      rw [List.drop_eq_getElem_cons hi3]
      congr 1
      unfold Arrays.read
      rw [List.getElem_take]
    rw [uniqueMemLoop_succ, hitem, hdrop, uniqueLoop_cons]
    by_cases hfound : seen.any (fun k => goEq k (mem.getD slice.array [])[i]) = true
    · rw [if_pos hfound, if_pos hfound]
      exact ih (i + 1) seen res tail (by omega) (by omega) htail hs
    · rw [if_neg hfound, if_neg hfound]
      have hroom : res.length + 1 ≤ slice.len := by omega
      have htl : tail ≠ [] := by
        intro h
        rw [h, List.append_nil] at htail
        omega
      obtain ⟨t0, tail1, rfl⟩ := List.exists_cons_of_ne_nil htl
      have happ : appendOne zero growCap (mem ++ [res ++ t0 :: tail1])
          { array := mem.length, len := res.length, cap := slice.len }
          (mem.getD slice.array [])[i]
          = ({ array := mem.length, len := (res ++ [(mem.getD slice.array [])[i]]).length,
               cap := slice.len },
             mem ++ [(res ++ [(mem.getD slice.array [])[i]]) ++ tail1]) := by
        unfold appendOne
        simp only
        rw [if_pos hroom, Arrays.getD_snoc_new, Arrays.set_snoc_new]
        congr 2
        · simp
        · congr 1
          rw [List.set_append_right _ _ (le_refl _)]
          simp
      rw [happ]
      have hs2 : ∀ x, x ∈ (mem.getD slice.array [])[i] :: seen
          ↔ x ∈ res ++ [(mem.getD slice.array [])[i]] := by
        intro x
        simp only [List.mem_cons, List.mem_append, List.mem_singleton, hs x, List.not_mem_nil,
          or_false]
        exact or_comm
      exact ih (i + 1) _ _ tail1 (by omega) (by simp; omega) (by simp at htail ⊢; omega) hs2

/-- The function `Unique` on slices in memory: the memory after the call is the memory
before it with one more array, the one `make` allocated; the result is a slice of that
array, and its elements are the result of `Unique` on the elements of the input. -/
theorem UniqueMem_spec {T : Type} [DecidableEq T] [GoEq T] (zero : T)
    (growCap : Nat → Nat → Nat) (mem : Arrays T) (slice : SliceHeader)
    (hv : slice.len ≤ (mem.getD slice.array []).length) :
    (∃ arr : List T, (UniqueMem zero growCap mem slice).2 = mem ++ [arr]) ∧
    (UniqueMem zero growCap mem slice).1.array = mem.length ∧
    Arrays.read (UniqueMem zero growCap mem slice).2 (UniqueMem zero growCap mem slice).1
      = Unique (Arrays.read mem slice) ∧
    Arrays.read (UniqueMem zero growCap mem slice).2 slice = Arrays.read mem slice := by
  obtain ⟨tail2, h⟩ := uniqueMemLoop_spec zero growCap mem slice hv slice.len 0 [] []
    (List.replicate slice.len zero) (by omega) (by simp) (by simp) (fun _ => Iff.rfl)
  have hU : UniqueMem zero growCap mem slice
      = ({ array := mem.length, len := (Unique (Arrays.read mem slice)).length,
           cap := slice.len },
         mem ++ [Unique (Arrays.read mem slice) ++ tail2]) := by
    unfold UniqueMem makeSlice Unique
    simpa using h
  rw [hU]
  refine ⟨⟨_, rfl⟩, rfl, ?_, ?_⟩
  · unfold Arrays.read
    simp only
    rw [Arrays.getD_snoc_new]
    simp
  · unfold Arrays.read
    by_cases harr : slice.array < mem.length
    · rw [Arrays.getD_snoc_old mem _ _ harr]
    · have h0 : mem.getD slice.array [] = [] := by
        simp [List.getD_eq_getElem?_getD, List.getElem?_eq_none (not_lt.mp harr)]
      rw [h0] at hv ⊢
      have hz : slice.len = 0 := by simpa using hv
      rw [hz]
      simp

/-- C28: on the slice holding NaN twice `Unique` returns both, so the result holds a value
twice: the key NaN is never found in the map of seen values. That is the only way the
function departs from the deduplication it is documented as. On every slice the result is
`s` with each element removed that is `==` to an earlier one: it holds exactly the values
of `s`, is a subsequence of `s`, and no element of it is `==` to a later one. For a slice
whose elements all equal themselves the result holds no value twice and lists the values
in the order of their first occurrence in `s`. The input is not modified: on slices in
memory, the memory after the call is the memory before it with one more array, in which
the result lies, so the input slice reads as before. -/
theorem Unique_spec {T : Type} [DecidableEq T] [GoEq T] (s : List T) :
    (Unique [GoFloat.nan, GoFloat.nan] = [GoFloat.nan, GoFloat.nan] ∧
      ¬ (Unique [GoFloat.nan, GoFloat.nan]).Nodup) ∧
    Unique s = firstOccurrences s ∧
    (∀ x, x ∈ Unique s ↔ x ∈ s) ∧
    (Unique s).Sublist s ∧
    (Unique s).Pairwise (fun x y => goEq x y = false) ∧
    ((∀ x ∈ s, GoEq.selfEqual x = true) →
      (Unique s).Nodup ∧
      (Unique s).Pairwise (fun x y => s.indexOf x < s.indexOf y)) ∧
    (∀ (zero : T) (growCap : Nat → Nat → Nat) (mem : Arrays T) (slice : SliceHeader),
      slice.len ≤ (mem.getD slice.array []).length → Arrays.read mem slice = s →
      (∃ arr : List T, (UniqueMem zero growCap mem slice).2 = mem ++ [arr]) ∧
      Arrays.read (UniqueMem zero growCap mem slice).2 (UniqueMem zero growCap mem slice).1
        = Unique s ∧
      Arrays.read (UniqueMem zero growCap mem slice).2 slice = s) := by
  refine ⟨⟨by decide, by decide⟩, Unique_eq_firstOccurrences s, ?_⟩
  rw [Unique_eq_firstOccurrences s]
  refine ⟨firstOccurrences_mem s, firstOccurrences_sublist s, firstOccurrences_pairwise s,
    fun hall => ⟨firstOccurrences_nodup s hall, firstOccurrences_indexOf s hall⟩, ?_⟩
  intro zero growCap mem slice hv hs
  obtain ⟨h1, _, h3, h4⟩ := UniqueMem_spec zero growCap mem slice hv
  rw [hs] at h3 h4
  rw [← Unique_eq_firstOccurrences s]
  exact ⟨h1, h3, h4⟩

/-- C28 on the first slice of `TestUnique`, whose elements all equal themselves, as values
and as a slice of length and capacity 5 on the only array in memory. -/
theorem Unique_spec_witness :
    ((∀ x ∈ ["a", "b", "a", "c", "b"], GoEq.selfEqual x = true) ∧
      Unique ["a", "b", "a", "c", "b"] = ["a", "b", "c"] ∧
      (Unique ["a", "b", "a", "c", "b"]).Nodup) ∧
    (UniqueMem "" (fun _ n => n) [["a", "b", "a", "c", "b"]]
        { array := 0, len := 5, cap := 5 }
      = ({ array := 1, len := 3, cap := 5 },
          [["a", "b", "a", "c", "b"], ["a", "b", "c", "", ""]]) ∧
      Arrays.read (UniqueMem "" (fun _ n => n) [["a", "b", "a", "c", "b"]]
          { array := 0, len := 5, cap := 5 }).2 { array := 0, len := 5, cap := 5 }
        = ["a", "b", "a", "c", "b"]) :=
  ⟨⟨by decide, by decide,
    ((Unique_spec ["a", "b", "a", "c", "b"]).2.2.2.2.2.1 (by decide)).1⟩,
   by decide,
   ((Unique_spec ["a", "b", "a", "c", "b"]).2.2.2.2.2.2 "" (fun _ n => n)
      [["a", "b", "a", "c", "b"]] { array := 0, len := 5, cap := 5 }
      (by decide) (by decide)).2.2⟩

/-! ## slices: Chunk -/

theorem wrapInt_of_range (x : Int) (h0 : -2 ^ 63 ≤ x) (h1 : x < 2 ^ 63) : wrapInt x = x := by
  unfold wrapInt
  omega

theorem chunkLoop_zero {T : Type} (slice : List T) (size i : Int) (chunks : List (List T)) :
    chunkLoop slice size 0 i chunks =
      if i < (slice.length : Int) then .ok none else .ok (some chunks) := rfl

theorem chunkLoop_succ {T : Type} (slice : List T) (size i : Int) (fuel : Nat)
    (chunks : List (List T)) :
    chunkLoop slice size (fuel + 1) i chunks =
      if i < (slice.length : Int) then
        if 0 ≤ i ∧ i ≤ (if wrapInt (i + size) > (slice.length : Int) then (slice.length : Int)
            else wrapInt (i + size)) then
          chunkLoop slice size fuel (wrapInt (i + size))
            (chunks ++ [subslice slice i.toNat
              (if wrapInt (i + size) > (slice.length : Int) then (slice.length : Int)
                else wrapInt (i + size)).toNat])
        else .error "slice bounds out of range"
      else .ok (some chunks) := rfl

/-- Chunk `k` exists exactly when its start lies inside the slice. -/
theorem ceil_lt_iff (L n k : Nat) (hn : 0 < n) : k < (L + n - 1) / n ↔ k * n < L := by
  rw [Nat.lt_iff_add_one_le, Nat.le_div_iff_mul_le hn, Nat.add_mul]
  omega

theorem subslice_segment {T : Type} (s : List T) (n k : Nat) :
    subslice s (k * n) (if (k + 1) * n > s.length then s.length else (k + 1) * n)
      = segment s n k := by
  unfold subslice segment
  have hk : (k + 1) * n = k * n + n := by rw [Nat.add_mul, Nat.one_mul]
  by_cases h : (k + 1) * n > s.length
  · rw [if_pos h]
    rw [List.take_of_length_le, List.take_of_length_le]
    · rw [List.length_drop]
      omega
    · rw [List.length_drop]
  · rw [if_neg h]
    congr 1
    omega

theorem segment_length {T : Type} (s : List T) (n k : Nat) :
    (segment s n k).length = min n (s.length - k * n) := by
  unfold segment
  rw [List.length_take, List.length_drop]

theorem segments_flatten {T : Type} (s : List T) (n N : Nat) :
    ((List.range N).map (segment s n)).flatten = s.take (N * n) := by
  induction N with
  | zero => simp
  | succ N ih =>
    rw [List.range_succ, List.map_append, List.flatten_append, ih]
    simp only [List.map_cons, List.map_nil, List.flatten_cons, List.flatten_nil,
      List.append_nil]
    unfold segment
    rw [Nat.add_mul, Nat.one_mul, List.take_add]

/-- With enough fuel the loop of `Chunk`, entered at the start of chunk `k`, appends the
remaining chunks and stops, provided the end of the last chunk fits the type `int`. -/
theorem chunkLoop_run {T : Type} (s : List T) (n : Nat) (hn : 0 < n)
    (hmax : (s.length + n - 1) / n * n ≤ 2 ^ 63 - 1) :
    ∀ (fuel k : Nat) (chunks : List (List T)), (s.length + n - 1) / n ≤ k + fuel →
      chunkLoop s (n : Int) fuel ((k * n : Nat) : Int) chunks =
        .ok (some (chunks ++
          (List.range' k ((s.length + n - 1) / n - k)).map (segment s n))) := by
  intro fuel
  induction fuel with
  | zero =>
    intro k chunks hk
    have hnot : ¬ (k * n < s.length) := fun h => by
      have := (ceil_lt_iff s.length n k hn).2 h
      omega
    have hnot2 : ¬ (((k * n : Nat) : Int) < (s.length : Int)) := by
      intro h
      exact hnot (by exact_mod_cast h)
    rw [chunkLoop_zero, if_neg hnot2]
    have : (s.length + n - 1) / n - k = 0 := by omega
    rw [this]
    simp
  | succ fuel ih =>
    intro k chunks hk
    by_cases hlt : k * n < s.length
    · have hkN : k < (s.length + n - 1) / n := (ceil_lt_iff s.length n k hn).2 hlt
      have hk1 : (k + 1) * n = k * n + n := by rw [Nat.add_mul, Nat.one_mul]
      have hle : (k + 1) * n ≤ (s.length + n - 1) / n * n :=
        Nat.mul_le_mul_right n hkN
      have hsum : ((k * n : Nat) : Int) + (n : Int) = (((k + 1) * n : Nat) : Int) := by
        rw [hk1]
        push_cast
        rfl
      have hw : wrapInt (((k * n : Nat) : Int) + (n : Int)) = (((k + 1) * n : Nat) : Int) := by
        rw [hsum]
        apply wrapInt_of_range
        · omega
        · omega
      have hlt2 : ((k * n : Nat) : Int) < (s.length : Int) := by exact_mod_cast hlt
      rw [chunkLoop_succ, if_pos hlt2, hw]
      have he : (if (((k + 1) * n : Nat) : Int) > (s.length : Int) then (s.length : Int)
            else (((k + 1) * n : Nat) : Int))
          = ((if (k + 1) * n > s.length then s.length else (k + 1) * n : Nat) : Int) := by
        by_cases h : (k + 1) * n > s.length
        · have h2 : (((k + 1) * n : Nat) : Int) > (s.length : Int) := by exact_mod_cast h
          rw [if_pos h, if_pos h2]
        · have h2 : ¬ ((((k + 1) * n : Nat) : Int) > (s.length : Int)) := by
            intro h3
            exact h (by exact_mod_cast h3)
          rw [if_neg h, if_neg h2]
      rw [he]
      have hb : 0 ≤ ((k * n : Nat) : Int) ∧ ((k * n : Nat) : Int)
          ≤ ((if (k + 1) * n > s.length then s.length else (k + 1) * n : Nat) : Int) := by
        refine ⟨Int.ofNat_nonneg _, ?_⟩
        apply Int.ofNat_le.mpr
        split_ifs <;> omega
      rw [if_pos hb, Int.toNat_ofNat, Int.toNat_ofNat, subslice_segment, ih (k + 1) _ (by omega)]
      have hr : (s.length + n - 1) / n - k = ((s.length + n - 1) / n - (k + 1)) + 1 := by
        omega
      rw [hr, List.range'_succ, List.map_cons, List.append_assoc, List.singleton_append]
    · have hnot2 : ¬ (((k * n : Nat) : Int) < (s.length : Int)) := by
        intro h
        exact hlt (by exact_mod_cast h)
      rw [chunkLoop_succ, if_neg hnot2]
      have : ¬ (k < (s.length + n - 1) / n) := fun h =>
        hlt ((ceil_lt_iff s.length n k hn).1 h)
      have : (s.length + n - 1) / n - k = 0 := by omega
      rw [this]
      simp

/-- The number of chunks is at most the length of the slice. -/
theorem ceil_le_length (L n : Nat) (hn : 0 < n) : (L + n - 1) / n ≤ L := by
  apply Nat.le_of_lt_succ
  rw [Nat.div_lt_iff_lt_mul hn, Nat.succ_mul]
  have : L ≤ L * n := Nat.le_mul_of_pos_right L hn
  omega

/-- The end of the last chunk fits the type `int` when the slice has at most `2 ^ 62`
elements. -/
theorem ceil_mul_le (L n : Nat) (hn : 0 < n) (hn2 : n ≤ 2 ^ 63 - 1) (hL : L ≤ 2 ^ 62) :
    (L + n - 1) / n * n ≤ 2 ^ 63 - 1 := by
  have h1 : (L + n - 1) / n * n ≤ L + n - 1 := Nat.div_mul_le_self _ _
  by_cases h : L ≤ n
  · have h2 : (L + n - 1) / n ≤ 1 := by
      apply Nat.le_of_lt_succ
      rw [Nat.div_lt_iff_lt_mul hn]
      omega
    have h3 : (L + n - 1) / n * n ≤ 1 * n := Nat.mul_le_mul_right n h2
    omega
  · omega

/-- For a positive size `n` such that the end `ceil(len(s) / n) * n` of the last full
stride is an `int`, `Chunk` returns the segments of the slice. -/
theorem Chunk_eq {T : Type} (s : List T) (n : Nat) (hn : 0 < n)
    (hmax : (s.length + n - 1) / n * n ≤ 2 ^ 63 - 1) :
    Chunk s (n : Int) =
      .ok (some ((List.range ((s.length + n - 1) / n)).map (segment s n))) := by
  unfold Chunk
  have hpos : ¬ ((n : Int) ≤ 0) := by omega
  rw [if_neg hpos]
  have h := chunkLoop_run s n hn hmax s.length 0 []
    (by have := ceil_le_length s.length n hn; omega)
  simp only [Nat.zero_mul, Nat.sub_zero, List.nil_append] at h
  rw [List.range_eq_range']
  exact h

/-- When `ceil(len(s) / n) * n` is not an `int`, the sum `i + size` wraps around to a
negative number in the last iteration of the loop of `Chunk`, and the slice expression
panics. -/
theorem chunkLoop_overflow {T : Type} (s : List T) (n : Nat) (hn : 0 < n)
    (hn2 : n ≤ 2 ^ 63 - 1) (hL : s.length ≤ 2 ^ 63 - 1)
    (hbig : 2 ^ 63 - 1 < (s.length + n - 1) / n * n) :
    ∀ (fuel k : Nat) (chunks : List (List T)), k < (s.length + n - 1) / n →
      (s.length + n - 1) / n ≤ k + fuel →
      chunkLoop s (n : Int) fuel ((k * n : Nat) : Int) chunks
        = .error "slice bounds out of range" := by
  intro fuel
  induction fuel with
  | zero =>
    intro k chunks hk hf
    omega
  | succ fuel ih =>
    intro k chunks hk hf
    have hlt : k * n < s.length := (ceil_lt_iff s.length n k hn).1 hk
    have hlt2 : ((k * n : Nat) : Int) < (s.length : Int) := by exact_mod_cast hlt
    have hk1 : (k + 1) * n = k * n + n := by rw [Nat.add_mul, Nat.one_mul]
    rw [chunkLoop_succ, if_pos hlt2]
    by_cases hnext : k + 1 < (s.length + n - 1) / n
    · have hlt3 : (k + 1) * n < s.length := (ceil_lt_iff s.length n (k + 1) hn).1 hnext
      have hsum : ((k * n : Nat) : Int) + (n : Int) = (((k + 1) * n : Nat) : Int) := by
        rw [hk1]
        push_cast
        rfl
      have hw : wrapInt (((k * n : Nat) : Int) + (n : Int)) = (((k + 1) * n : Nat) : Int) := by
        rw [hsum]
        apply wrapInt_of_range
        · omega
        · omega
      rw [hw]
      have hb : 0 ≤ ((k * n : Nat) : Int) ∧ ((k * n : Nat) : Int)
          ≤ (if (((k + 1) * n : Nat) : Int) > (s.length : Int) then (s.length : Int)
              else (((k + 1) * n : Nat) : Int)) := by
        refine ⟨Int.ofNat_nonneg _, ?_⟩
        split_ifs <;> omega
      rw [if_pos hb]
      exact ih (k + 1) _ hnext (by omega)
    · have hN : (s.length + n - 1) / n = k + 1 := by omega
      rw [hN] at hbig
      have hw : wrapInt (((k * n : Nat) : Int) + (n : Int)) < 0 := by
        unfold wrapInt
        omega
      have hb : ¬ (0 ≤ ((k * n : Nat) : Int) ∧ ((k * n : Nat) : Int)
          ≤ (if wrapInt (((k * n : Nat) : Int) + (n : Int)) > (s.length : Int)
              then (s.length : Int) else wrapInt (((k * n : Nat) : Int) + (n : Int)))) := by
        rintro ⟨_, h⟩
        split_ifs at h <;> omega
      rw [if_neg hb]

/-- For a positive size `n` that is an `int` and a slice for which `ceil(len(s) / n) * n`
is not an `int`, `Chunk` panics in the slice expression. -/
theorem Chunk_overflow {T : Type} (s : List T) (n : Nat) (hn : 0 < n)
    (hn2 : n ≤ 2 ^ 63 - 1) (hL : s.length ≤ 2 ^ 63 - 1)
    (hbig : 2 ^ 63 - 1 < (s.length + n - 1) / n * n) :
    Chunk s (n : Int) = .error "slice bounds out of range" := by
  unfold Chunk
  have hpos : ¬ ((n : Int) ≤ 0) := by omega
  rw [if_neg hpos]
  have hN : 0 < (s.length + n - 1) / n := by
    by_contra h0
    have h1 : (s.length + n - 1) / n = 0 := Nat.eq_zero_of_not_pos h0
    rw [h1] at hbig
    omega
  have h := chunkLoop_overflow s n hn hn2 hL hbig s.length 0 [] hN
    (by have := ceil_le_length s.length n hn; omega)
  simp only [Nat.zero_mul] at h
  exact h

/-- Taking the first `N` segments of width `n` covers `s` once `N * n` reaches its
length. -/
theorem segments_cover {T : Type} (s : List T) (n : Nat) (hn : 0 < n) :
    ((List.range ((s.length + n - 1) / n)).map (segment s n)).flatten = s := by
  rw [segments_flatten]
  apply List.take_of_length_le
  by_contra hc
  have h1 : (s.length + n - 1) / n * n < s.length := by omega
  have h2 := (ceil_lt_iff s.length n _ hn).2 h1
  omega

/-- C27 (as amended): for every size `<= 0`, `Chunk` panics, whatever the slice. For a
positive size such that `ceil(len(s) / size) * size`, the value `i` reaches when the loop
ends, is at most the largest `int`, `Chunk` terminates without a panic and returns the
consecutive segments of `s` in order: chunk `k` is the run of `size` elements from index
`k * size`, cut off at the end of `s`, and together they give back `s`. Their number is
`ceil(len(s) / size)`, the least `m` with `len(s) <= m * size`. Every chunk but the last
has exactly `size` elements, the last has between 1 and `size`, and an empty `s` gives no
chunks. When `ceil(len(s) / size) * size` exceeds the largest `int`, `i + size` overflows
in the last iteration and `Chunk` panics in the slice expression. Every slice of at most
`2 ^ 62` elements is in the first case. -/
theorem Chunk_spec {T : Type} (s : List T) (size : Int) :
    (size ≤ 0 → Chunk s size = .error "Chunk: size must be greater than 0") ∧
    (0 < size →
      (((s.length + size.toNat - 1) / size.toNat * size.toNat : Nat) : Int) ≤ maxInt →
      ∃ chunks : List (List T),
        Chunk s size = .ok (some chunks) ∧
        chunks = (List.range ((s.length + size.toNat - 1) / size.toNat)).map
          (segment s size.toNat) ∧
        chunks.flatten = s ∧
        chunks.length = (s.length + size.toNat - 1) / size.toNat ∧
        s.length ≤ chunks.length * size.toNat ∧
        (∀ m : Nat, s.length ≤ m * size.toNat → chunks.length ≤ m) ∧
        (∀ (k : Nat) (c : List T), k + 1 < chunks.length → chunks[k]? = some c →
          c.length = size.toNat) ∧
        (∀ c : List T, chunks.getLast? = some c → 1 ≤ c.length ∧ c.length ≤ size.toNat) ∧
        (s = [] → chunks = [])) ∧
    (0 < size → size ≤ maxInt → (s.length : Int) ≤ maxInt →
      maxInt < (((s.length + size.toNat - 1) / size.toNat * size.toNat : Nat) : Int) →
      Chunk s size = .error "slice bounds out of range") ∧
    (0 < size → size ≤ maxInt → s.length ≤ 2 ^ 62 →
      (((s.length + size.toNat - 1) / size.toNat * size.toNat : Nat) : Int) ≤ maxInt) := by
  refine ⟨?_, ?_, ?_, ?_⟩
  · intro h
    unfold Chunk
    rw [if_pos h]
  · intro hpos hmax
    obtain ⟨n, rfl⟩ := Int.eq_ofNat_of_zero_le (le_of_lt hpos)
    have hn : 0 < n := by omega
    simp only [Int.toNat_ofNat] at hmax ⊢
    have hmax2 : (s.length + n - 1) / n * n ≤ 2 ^ 63 - 1 := by
      unfold maxInt at hmax
      omega
    have hlen : ((List.range ((s.length + n - 1) / n)).map (segment s n)).length
        = (s.length + n - 1) / n := by
      rw [List.length_map, List.length_range]
    have hcover : s.length ≤ (s.length + n - 1) / n * n := by
      by_contra hc
      have h1 : (s.length + n - 1) / n * n < s.length := by omega
      have h2 := (ceil_lt_iff s.length n _ hn).2 h1
      omega
    refine ⟨_, Chunk_eq s n hn hmax2, rfl, segments_cover s n hn, hlen, ?_, ?_, ?_, ?_, ?_⟩
    · rw [hlen]
      exact hcover
    · intro m hm
      rw [hlen]
      by_contra hc
      have h1 : m < (s.length + n - 1) / n := by omega
      have h2 := (ceil_lt_iff s.length n m hn).1 h1
      omega
    · intro k c hk hc
      rw [hlen] at hk
      rw [List.getElem?_map, List.getElem?_range (by omega)] at hc
      simp only [Option.map_some', Option.some.injEq] at hc
      rw [← hc, segment_length]
      have h2 := (ceil_lt_iff s.length n (k + 1) hn).1 hk
      rw [Nat.add_mul, Nat.one_mul] at h2
      omega
    · intro c hc
      rw [List.getLast?_eq_getElem?, hlen] at hc
      rw [List.getElem?_map] at hc
      by_cases hN : (s.length + n - 1) / n = 0
      · rw [hN] at hc
        simp at hc
      · rw [List.getElem?_range (by omega)] at hc
        simp only [Option.map_some', Option.some.injEq] at hc
        rw [← hc, segment_length]
        have h2 := (ceil_lt_iff s.length n ((s.length + n - 1) / n - 1) hn).1 (by omega)
        omega
    · intro hs
      subst hs
      have : (([] : List T).length + n - 1) / n = 0 := by
        simp only [List.length_nil, Nat.zero_add]
        exact Nat.div_eq_of_lt (by omega)
      rw [this]
      rfl
  · intro hpos hsize hL hbig
    obtain ⟨n, rfl⟩ := Int.eq_ofNat_of_zero_le (le_of_lt hpos)
    simp only [Int.toNat_ofNat] at hbig
    unfold maxInt at hsize hL hbig
    have hb : 2 ^ 63 - 1 < (s.length + n - 1) / n * n := by
      generalize (s.length + n - 1) / n * n = P at hbig
      omega
    exact Chunk_overflow s n (by omega) (by omega) (by omega) hb
  · intro hpos hsize hL
    obtain ⟨n, rfl⟩ := Int.eq_ofNat_of_zero_le (le_of_lt hpos)
    simp only [Int.toNat_ofNat]
    unfold maxInt at hsize ⊢
    have := ceil_mul_le s.length n (by omega) (by omega) hL
    omega

/-- C27 at five elements chunked by two, and at size zero. -/
theorem Chunk_spec_witness :
    Chunk [1, 2, 3, 4, 5] (0 : Int) = .error "Chunk: size must be greater than 0" ∧
    ∃ chunks : List (List Nat),
      Chunk [1, 2, 3, 4, 5] (2 : Int) = .ok (some chunks) ∧
      chunks = [[1, 2], [3, 4], [5]] :=
  ⟨(Chunk_spec [1, 2, 3, 4, 5] 0).1 (by decide),
    match (Chunk_spec [1, 2, 3, 4, 5] 2).2.1 (by decide) (by decide) with
    | ⟨chunks, h1, h2, _⟩ => ⟨chunks, h1, h2.trans (by decide)⟩⟩

/-- C27 (counterexample): a slice of `2 ^ 63 - 1` elements of the type `struct{}` and the
size `2 ^ 62 + 1`. The first chunk is made; then `i + size` is `2 ^ 63 + 2`, which wraps
around to a negative `end`, and the slice expression panics. -/
theorem Chunk_spec_counterexample :
    Chunk (List.replicate (2 ^ 63 - 1) ()) (2 ^ 62 + 1)
      = .error "slice bounds out of range" := by
  have h := Chunk_overflow (List.replicate (2 ^ 63 - 1) ()) (2 ^ 62 + 1) (by norm_num)
    (by norm_num) (by rw [List.length_replicate])
    (by rw [List.length_replicate]; norm_num)
  have hc : (((2 ^ 62 + 1 : Nat)) : Int) = 2 ^ 62 + 1 := by norm_num
  rw [hc] at h
  exact h

/-! ## slices: Flatten -/

theorem wrapInt_add_wrapInt (a b : Int) : wrapInt (wrapInt a + b) = wrapInt (a + b) := by
  unfold wrapInt
  omega

theorem flatten_total {T : Type} (slices : List (List T)) (t : Int) :
    slices.foldl (fun total s => wrapInt (total + (s.length : Int))) (wrapInt t)
      = wrapInt (t + (((slices.map List.length).sum : Nat) : Int)) := by
  induction slices generalizing t with
  | nil => simp
  | cons s rest ih =>
    rw [List.foldl_cons, wrapInt_add_wrapInt, ih]
    congr 1
    simp only [List.map_cons, List.sum_cons]
    push_cast
    omega

theorem flattenLoop_nil {T : Type} (out : List T) : flattenLoop [] out = .ok out := rfl

theorem flattenLoop_cons {T : Type} (s : List T) (rest : List (List T)) (out : List T) :
    flattenLoop (s :: rest) out =
      match appendAll out s with
      | .error e => .error e
      | .ok out1 => flattenLoop rest out1 := rfl

/-- The append loop of `Flatten` succeeds exactly when the final length is an `int`. -/
theorem flattenLoop_eq {T : Type} (slices : List (List T)) :
    ∀ out : List T, (out.length : Int) ≤ maxInt →
      flattenLoop slices out =
        if ((out.length + (slices.map List.length).sum : Nat) : Int) ≤ maxInt
        then .ok (out ++ slices.flatten) else .error "growslice: len out of range" := by
  induction slices with
  | nil =>
    intro out hout
    simp [flattenLoop_nil, hout]
  | cons s rest ih =>
    intro out hout
    rw [flattenLoop_cons]
    unfold appendAll
    by_cases h : ((out.length + s.length : Nat) : Int) > maxInt
    · rw [if_pos h]
      have h2 : ¬ (((out.length + ((s :: rest).map List.length).sum : Nat) : Int) ≤ maxInt) := by
        simp only [List.map_cons, List.sum_cons]
        omega
      rw [if_neg h2]
    · rw [if_neg h]
      simp only
      have h3 : (((out ++ s).length : Nat) : Int) ≤ maxInt := by
        rw [List.length_append]
        omega
      rw [ih (out ++ s) h3]
      simp only [List.map_cons, List.sum_cons, List.flatten_cons, List.length_append,
        List.append_assoc, Nat.add_assoc]

/-- The result of `Flatten` in closed form. -/
theorem Flatten_eq {T : Type} (slices : List (List T)) :
    Flatten slices =
      if wrapInt (((slices.map List.length).sum : Nat) : Int) < 0
      then .error "makeslice: cap out of range"
      else if (((slices.map List.length).sum : Nat) : Int) ≤ maxInt
      then .ok slices.flatten else .error "growslice: len out of range" := by
  unfold Flatten
  have h0 : (0 : Int) = wrapInt 0 := by
    unfold wrapInt
    omega
  have ht := flatten_total slices 0
  rw [← h0, Int.zero_add] at ht
  simp only [ht]
  have hl := flattenLoop_eq slices [] (by unfold maxInt; simp)
  simp only [List.length_nil, Nat.zero_add, List.nil_append] at hl
  rw [hl]

theorem Flatten_of_le {T : Type} (slices : List (List T))
    (h : (((slices.map List.length).sum : Nat) : Int) ≤ maxInt) :
    Flatten slices = .ok slices.flatten := by
  rw [Flatten_eq]
  have h1 : ¬ (wrapInt (((slices.map List.length).sum : Nat) : Int) < 0) := by
    unfold maxInt at h
    rw [wrapInt_of_range _ (by omega) (by omega)]
    omega
  rw [if_neg h1, if_pos h]

theorem Flatten_of_gt {T : Type} (slices : List (List T))
    (h : maxInt < (((slices.map List.length).sum : Nat) : Int)) :
    Flatten slices = .error "makeslice: cap out of range" ∨
    Flatten slices = .error "growslice: len out of range" := by
  rw [Flatten_eq]
  by_cases h1 : wrapInt (((slices.map List.length).sum : Nat) : Int) < 0
  · rw [if_pos h1]
    exact Or.inl rfl
  · rw [if_neg h1, if_neg (by omega)]
    exact Or.inr rfl

/-- C25 (as amended): when the lengths of the inner slices sum to at most the largest
`int`, `Flatten` returns the concatenation of the inner slices in order, and its length is
the sum of the inner lengths; when the sum is larger, `Flatten` panics, in `make` or in
`append`. Whenever `Flatten` returns, the result is that concatenation. An empty inner
slice contributes nothing: leaving it out does not change the outcome. An empty outer
slice, or one holding only empty slices, gives the empty result. -/
theorem Flatten_spec {T : Type} (slices : List (List T)) :
    ((((slices.map List.length).sum : Nat) : Int) ≤ maxInt →
      Flatten slices = .ok slices.flatten ∧
      slices.flatten.length = (slices.map List.length).sum) ∧
    (maxInt < (((slices.map List.length).sum : Nat) : Int) →
      Flatten slices = .error "makeslice: cap out of range" ∨
      Flatten slices = .error "growslice: len out of range") ∧
    (∀ out : List T, Flatten slices = .ok out →
      out = slices.flatten ∧ out.length = (slices.map List.length).sum) ∧
    (∀ a b : List (List T), Flatten (a ++ [] :: b) = Flatten (a ++ b)) ∧
    Flatten ([] : List (List T)) = .ok [] ∧
    ((∀ s ∈ slices, s = []) → Flatten slices = .ok []) := by
  refine ⟨?_, Flatten_of_gt slices, ?_, ?_, ?_, ?_⟩
  · intro h
    exact ⟨Flatten_of_le slices h, List.length_flatten slices⟩
  · intro out hout
    by_cases h : (((slices.map List.length).sum : Nat) : Int) ≤ maxInt
    · rw [Flatten_of_le slices h] at hout
      injection hout with hout
      subst hout
      exact ⟨rfl, List.length_flatten slices⟩
    · rcases Flatten_of_gt slices (by omega) with h2 | h2
      · rw [h2] at hout
        cases hout
      · rw [h2] at hout
        cases hout
  · intro a b
    rw [Flatten_eq, Flatten_eq]
    simp
  · rfl
  · intro h
    have hf : slices.flatten = [] := by
      rw [List.flatten_eq_nil_iff]
      exact h
    have hs : (slices.map List.length).sum = 0 := by
      rw [← List.length_flatten, hf]
      rfl
    rw [Flatten_of_le slices (by rw [hs]; unfold maxInt; simp), hf]

/-- C25 at the example of the documentation, `Flatten([][]int{{1, 2}, {3, 4, 5}})`. -/
theorem Flatten_spec_witness :
    Flatten [[1, 2], [3, 4, 5]] = .ok [1, 2, 3, 4, 5] ∧
    [1, 2, 3, 4, 5].length = 2 + 3 :=
  (Flatten_spec [[1, 2], [3, 4, 5]]).1 (by decide)

/-- C25 (counterexample): two slices of `2 ^ 62` elements of the type `struct{}`. The sum
of their lengths wraps around to `-2 ^ 63`, and `make` panics on the negative capacity. -/
theorem Flatten_spec_counterexample :
    Flatten [List.replicate (2 ^ 62) (), List.replicate (2 ^ 62) ()]
      = .error "makeslice: cap out of range" := by
  rw [Flatten_eq]
  simp only [List.map_cons, List.map_nil, List.length_replicate, List.sum_cons, List.sum_nil]
  rw [if_pos]
  unfold wrapInt
  norm_num

/-! ## slices: Chunk then Flatten -/

/-- C39 (as amended): for a positive size such that `ceil(len(s) / size) * size` is at
most the largest `int`, `Chunk` returns chunks and `Flatten` of them returns `s`: the same
elements in the same order. Every slice of at most `2 ^ 62` elements, with a positive
size, is such a case. -/
theorem Flatten_Chunk {T : Type} (s : List T) (size : Int) (hpos : 0 < size) :
    ((((s.length + size.toNat - 1) / size.toNat * size.toNat : Nat) : Int) ≤ maxInt →
      ∃ chunks : List (List T),
        Chunk s size = .ok (some chunks) ∧ Flatten chunks = .ok s) ∧
    (size ≤ maxInt → s.length ≤ 2 ^ 62 →
      ∃ chunks : List (List T),
        Chunk s size = .ok (some chunks) ∧ Flatten chunks = .ok s) := by
  obtain ⟨n, rfl⟩ := Int.eq_ofNat_of_zero_le (le_of_lt hpos)
  have hn : 0 < n := by omega
  simp only [Int.toNat_ofNat]
  have hmain : (s.length + n - 1) / n * n ≤ 2 ^ 63 - 1 →
      ∃ chunks : List (List T),
        Chunk s (n : Int) = .ok (some chunks) ∧ Flatten chunks = .ok s := by
    intro hmax
    refine ⟨_, Chunk_eq s n hn hmax, ?_⟩
    have hcover : s.length ≤ (s.length + n - 1) / n * n := by
      by_contra hc
      have h1 : (s.length + n - 1) / n * n < s.length := by omega
      have h2 := (ceil_lt_iff s.length n _ hn).2 h1
      omega
    have hsum : (((List.range ((s.length + n - 1) / n)).map (segment s n)).map
        List.length).sum = s.length := by
      rw [← List.length_flatten, segments_cover s n hn]
    rw [Flatten_of_le _ (by rw [hsum]; unfold maxInt; omega), segments_cover s n hn]
  constructor
  · intro hmax
    unfold maxInt at hmax
    exact hmain (by omega)
  · intro hsize hL
    unfold maxInt at hsize
    exact hmain (ceil_mul_le s.length n hn (by omega) hL)

/-- C39 at seven elements chunked by three. -/
theorem Flatten_Chunk_witness :
    ∃ chunks : List (List Nat),
      Chunk [1, 2, 3, 4, 5, 6, 7] (3 : Int) = .ok (some chunks) ∧
      Flatten chunks = .ok [1, 2, 3, 4, 5, 6, 7] :=
  (Flatten_Chunk [1, 2, 3, 4, 5, 6, 7] 3 (by decide)).1 (by decide)

/-- C39 (counterexample): for a slice of `2 ^ 63 - 1` elements of the type `struct{}` and
the size `2 ^ 62 + 1`, `Chunk` panics, so no chunks reach `Flatten` and the round trip
gives nothing back. -/
theorem Flatten_Chunk_counterexample :
    ¬ ∃ chunks : List (List Unit),
      Chunk (List.replicate (2 ^ 63 - 1) ()) (2 ^ 62 + 1) = .ok (some chunks) ∧
      Flatten chunks = .ok (List.replicate (2 ^ 63 - 1) ()) := by
  have h := Chunk_overflow (List.replicate (2 ^ 63 - 1) ()) (2 ^ 62 + 1) (by norm_num)
    (by norm_num) (by rw [List.length_replicate])
    (by rw [List.length_replicate]; norm_num)
  have hc : (((2 ^ 62 + 1 : Nat)) : Int) = 2 ^ 62 + 1 := by norm_num
  rw [hc] at h
  rintro ⟨chunks, hchunks, _⟩
  rw [h] at hchunks
  cases hchunks

/-! ## slices: the search functions agree -/

theorem Contains_iff {T : Type} [DecidableEq T] (s : List T) (v : T) :
    Contains s v = true ↔ v ∈ s := by
  induction s with
  | nil => simp [Contains]
  | cons x rest ih =>
    unfold Contains
    by_cases hx : x = v
    · simp [hx]
    · have hne : ¬ (v = x) := fun e => hx e.symm
      simp [hx, hne, ih]

theorem ContainsCount_foldl {T : Type} [DecidableEq T] (s : List T) (v : T) (c : Int) :
    s.foldl (fun count x => if x = v then count + 1 else count) c = c + (s.count v : Int) := by
  induction s generalizing c with
  | nil => simp
  | cons x rest ih =>
    rw [List.foldl_cons, ih]
    by_cases hx : x = v
    · subst hx
      simp only [if_true, List.count_cons_self]
      push_cast
      omega
    · have hb : (x == v) = false := by simpa using hx
      simp only [hx, if_false, List.count_cons, hb, Bool.false_eq_true, Nat.add_zero]

theorem ContainsCount_eq_count {T : Type} [DecidableEq T] (s : List T) (v : T) :
    ContainsCount s v = (s.count v : Int) := by
  unfold ContainsCount
  rw [ContainsCount_foldl]
  simp

theorem indexOfAllLoop_length {T : Type} [DecidableEq T] (l : List T) (v : T) (i : Nat)
    (acc : List Int) :
    (indexOfAllLoop l v i acc).length = acc.length + l.count v := by
  induction l generalizing i acc with
  | nil => simp [indexOfAllLoop]
  | cons x rest ih =>
    unfold indexOfAllLoop
    by_cases hx : x = v
    · subst hx
      simp only [if_true, ih, List.length_append, List.length_singleton, List.count_cons_self]
      omega
    · have hb : (x == v) = false := by simpa using hx
      simp only [hx, if_false, ih, List.count_cons, hb, Bool.false_eq_true, Nat.add_zero]

theorem indexOfAllLoop_acc {T : Type} [DecidableEq T] (l : List T) (v : T) (i : Nat)
    (acc : List Int) :
    indexOfAllLoop l v i acc = acc ++ indexOfAllLoop l v i [] := by
  rw [indexOfAllLoop_spec l v i acc, indexOfAllLoop_spec l v i []]
  simp

theorem indexOfAllLoop_head {T : Type} [DecidableEq T] (l : List T) (v : T) (i : Nat)
    (h : v ∈ l) :
    (indexOfAllLoop l v i []).head? = some (indexOfLoop l v i) := by
  induction l generalizing i with
  | nil => simp at h
  | cons x rest ih =>
    unfold indexOfAllLoop indexOfLoop
    by_cases hx : x = v
    · simp only [hx, if_true]
      rw [indexOfAllLoop_acc]
      simp
    · simp only [hx, if_false]
      have hm : v ∈ rest := by
        rcases List.mem_cons.mp h with e | e
        · exact absurd e.symm hx
        · exact e
      exact ih (i + 1) hm

/-- C40: `Contains(s, v)` is true exactly when `IndexOf(s, v)` is not -1, and exactly when
`ContainsCount(s, v)` is positive. `ContainsCount(s, v)` is the length of
`IndexOfAll(s, v)` and lies between 0 and `len(s)`. When `v` occurs in `s`, the first entry
of `IndexOfAll(s, v)` is `IndexOf(s, v)`. `Contains` on the empty slice is false. -/
theorem search_functions_agree {T : Type} [DecidableEq T] (s : List T) (v : T) :
    (Contains s v = true ↔ IndexOf s v ≠ -1) ∧
    (IndexOf s v ≠ -1 ↔ ContainsCount s v > 0) ∧
    ContainsCount s v = ((IndexOfAll s v).length : Int) ∧
    0 ≤ ContainsCount s v ∧ ContainsCount s v ≤ (s.length : Int) ∧
    (v ∈ s → (IndexOfAll s v).head? = some (IndexOf s v)) ∧
    (v ∈ s ↔ Contains s v = true) ∧
    Contains ([] : List T) v = false := by
  have hidx : IndexOf s v ≠ -1 ↔ v ∈ s := by
    constructor
    · intro h
      by_contra hm
      exact h ((indexOfLoop_spec s v 0).1 hm)
    · intro hm
      obtain ⟨k, hk, _⟩ := (indexOfLoop_spec s v 0).2 hm
      unfold IndexOf
      rw [hk]
      omega
  have hcnt : ContainsCount s v > 0 ↔ v ∈ s := by
    rw [ContainsCount_eq_count, ← List.count_pos_iff]
    omega
  refine ⟨(Contains_iff s v).trans hidx.symm, hidx.trans hcnt.symm, ?_, ?_, ?_, ?_,
    (Contains_iff s v).symm, rfl⟩
  · rw [ContainsCount_eq_count]
    unfold IndexOfAll
    rw [indexOfAllLoop_length]
    simp
  · rw [ContainsCount_eq_count]
    omega
  · rw [ContainsCount_eq_count]
    exact_mod_cast List.count_le_length v s
  · intro hm
    exact indexOfAllLoop_head s v 0 hm

/-! ## slices: Reverse -/

theorem reverseLoop_zero {T : Type} (slice : List T) (i j : Int) :
    reverseLoop 0 slice i j = if i < j then .ok none else .ok (some slice) := rfl

theorem reverseLoop_succ {T : Type} (fuel : Nat) (slice : List T) (i j : Int) :
    reverseLoop (fuel + 1) slice i j =
      if i < j then
        match swapAt slice i j with
        | none => .error "index out of range"
        | some slice1 => reverseLoop fuel slice1 (i + 1) (j - 1)
      else .ok (some slice) := rfl

/-- Inside the slice, the swap reads both elements and writes them crosswise. -/
theorem swapAt_inside {T : Type} (slice : List T) (p q : Nat) (a b : T)
    (hp : p < slice.length) (hq : q < slice.length)
    (ha : slice[q]? = some a) (hb : slice[p]? = some b) :
    swapAt slice (p : Int) (q : Int) = some ((slice.set p a).set q b) := by
  unfold swapAt
  have hc : 0 ≤ (p : Int) ∧ (p : Int) < (slice.length : Int) ∧ 0 ≤ (q : Int) ∧
      (q : Int) < (slice.length : Int) := by omega
  rw [if_pos hc]
  simp only [Int.toNat_ofNat, ha, hb]

/-- Once the loop has no more pairs to swap, a slice that is reversed outside the middle
is reversed. -/
theorem reversed_of_done {T : Type} (s cur : List T) (k : Nat)
    (hk : s.length ≤ 2 * k + 1) (hlen : cur.length = s.length)
    (hinv : ∀ idx, idx < s.length → cur[idx]? =
      if idx < k ∨ s.length - k ≤ idx then s[s.length - 1 - idx]? else s[idx]?) :
    cur = s.reverse := by
  apply List.ext_getElem?
  intro idx
  by_cases hidx : idx < s.length
  · rw [hinv idx hidx, List.getElem?_reverse hidx]
    split_ifs with h
    · rfl
    · have : s.length - 1 - idx = idx := by omega
      rw [this]
  · rw [List.getElem?_eq_none (by omega), List.getElem?_eq_none (by simp; omega)]

/-- With enough fuel the loop of `Reverse`, entered with the outer `k` elements on either
side already exchanged, ends with the reversed slice. -/
theorem reverseLoop_run {T : Type} (s : List T) :
    ∀ (fuel k : Nat) (cur : List T), s.length ≤ 2 * (k + fuel) + 1 →
      cur.length = s.length →
      (∀ idx, idx < s.length → cur[idx]? =
        if idx < k ∨ s.length - k ≤ idx then s[s.length - 1 - idx]? else s[idx]?) →
      reverseLoop fuel cur (k : Int) ((s.length : Int) - 1 - (k : Int))
        = .ok (some s.reverse) := by
  intro fuel
  induction fuel with
  | zero =>
    intro k cur hk hlen hinv
    have hnot : ¬ ((k : Int) < (s.length : Int) - 1 - (k : Int)) := by omega
    rw [reverseLoop_zero, if_neg hnot, reversed_of_done s cur k (by omega) hlen hinv]
  | succ fuel ih =>
    intro k cur hk hlen hinv
    by_cases hlt : (k : Int) < (s.length : Int) - 1 - (k : Int)
    · have hq : (s.length : Int) - 1 - (k : Int) = ((s.length - 1 - k : Nat) : Int) := by
        omega
      have hkq : k < s.length - 1 - k := by omega
      obtain ⟨a, ha⟩ : ∃ a, s[s.length - 1 - k]? = some a :=
        ⟨_, List.getElem?_eq_getElem (by omega)⟩
      obtain ⟨b, hb⟩ : ∃ b, s[k]? = some b := ⟨_, List.getElem?_eq_getElem (by omega)⟩
      have hca : cur[s.length - 1 - k]? = some a := by
        rw [hinv _ (by omega), if_neg (by omega)]
        exact ha
      have hcb : cur[k]? = some b := by
        rw [hinv _ (by omega), if_neg (by omega)]
        exact hb
      rw [reverseLoop_succ, if_pos hlt, hq,
        swapAt_inside cur k (s.length - 1 - k) a b (by omega) (by omega) hca hcb]
      simp only
      have hnext : ((s.length - 1 - k : Nat) : Int) - 1
          = (s.length : Int) - 1 - ((k + 1 : Nat) : Int) := by omega
      have hi : (k : Int) + 1 = ((k + 1 : Nat) : Int) := by omega
      rw [hnext, hi]
      apply ih (k + 1)
      · omega
      · simp [hlen]
      · intro idx hidx
        rw [List.getElem?_set, List.getElem?_set]
        by_cases h1 : s.length - 1 - k = idx
        · have hl : s.length - 1 - k < (cur.set k a).length := by
            rw [List.length_set]
            omega
          rw [if_pos h1, if_pos hl, if_pos (by omega)]
          have : s.length - 1 - idx = k := by omega
          rw [this, hb]
        · rw [if_neg h1]
          by_cases h2 : k = idx
          · rw [if_pos h2, if_pos (by omega), if_pos (by omega), ← h2, ha]
          · rw [if_neg h2, hinv idx hidx]
            by_cases h3 : idx < k ∨ s.length - k ≤ idx
            · rw [if_pos h3, if_pos (by omega)]
            · rw [if_neg h3, if_neg (by omega)]
    · rw [reverseLoop_succ, if_neg hlt, reversed_of_done s cur k (by omega) hlen hinv]

theorem Reverse_eq {T : Type} (s : List T) : Reverse s = .ok (some s.reverse) := by
  unfold Reverse
  have h := reverseLoop_run s s.length 0 s (by omega) rfl (by
    intro idx hidx
    rw [if_neg (by omega)])
  simpa using h

/-- C31: `Reverse` ends without a panic and leaves a slice `r` of the same length whose
element at index `i` is the original element at index `n-1-i`; a slice of length 0 or 1
(the nil slice is the empty list) keeps its contents; reversing the result gives back the
original contents. -/
theorem Reverse_spec {T : Type} (s : List T) :
    ∃ r : List T, Reverse s = .ok (some r) ∧
      r.length = s.length ∧
      (∀ i, i < s.length → r[i]? = s[s.length - 1 - i]?) ∧
      (s.length ≤ 1 → r = s) ∧
      Reverse r = .ok (some s) ∧
      r = s.reverse := by
  refine ⟨s.reverse, Reverse_eq s, List.length_reverse s, ?_, ?_, ?_, rfl⟩
  · intro i hi
    exact List.getElem?_reverse hi
  · intro h
    match s, h with
    | [], _ => rfl
    | [_], _ => rfl
    | _ :: _ :: _, h => simp at h
  · rw [Reverse_eq, List.reverse_reverse]

/-! ## Syslog priority: lossless encoding -/

theorem severityTable_bounds : ∀ q ∈ severityTable, 3 ≤ q.2 ∧ q.2 < 8 := by decide

theorem facilityTable_bounds : ∀ p ∈ facilityTable, p.2 ≤ 23 := by decide

theorem facilityTable_injective :
    ∀ p ∈ facilityTable, ∀ p2 ∈ facilityTable, p.2 = p2.2 → p.1 = p2.1 := by decide

theorem severityTable_injective :
    ∀ q ∈ severityTable, ∀ q2 ∈ severityTable, q.2 = q2.2 → q.1 = q2.1 := by decide

/-- The stored priority of an accepted facility and a recognised level, as a number. -/
theorem handleSyslogOutput_stored_table (env : Env) (sl : MangoLogger) (log : StructuredLog)
    (j : String) (w : World) (p : String × Nat) (q : Level × Nat)
    (hp : p ∈ facilityTable) (hq : q ∈ severityTable)
    (hFacility : sl.Config.Out.Syslog.Facility = p.1) (hLevel : log.Level = q.1) :
    (sl.handleSyslogOutput env log j w).2.1.Out.Syslog.priority = 8 * p.2 + q.2 := by
  have hs := syslogSeverity_table q hq
  have hf := syslogFacility_table p hp
  rw [← hLevel] at hs
  rw [← hFacility] at hf
  have h := handleSyslogOutput_stored env sl log j w _ (by rw [hs.1]; exact hs.2) hf
  rw [hs.1] at h
  rw [h]
  exact priority_arith p hp q hq

/-- C37: for an accepted facility name (code `p.2`) and a recognised level (severity
`q.2`), the priority the syslog sink stores has the severity as its remainder modulo 8 and
the facility code as its quotient by 8; the severity part is not 0 (emergency); the
priority lies between 3 and 191; and a second accepted facility and recognised level
storing the same priority are the same facility name and the same level. -/
theorem syslog_priority_lossless (env : Env) (sl sl2 : MangoLogger)
    (log log2 : StructuredLog) (j j2 : String) (w w2 : World)
    (p p2 : String × Nat) (q q2 : Level × Nat)
    (hp : p ∈ facilityTable) (hq : q ∈ severityTable)
    (hp2 : p2 ∈ facilityTable) (hq2 : q2 ∈ severityTable)
    (hFacility : sl.Config.Out.Syslog.Facility = p.1) (hLevel : log.Level = q.1)
    (hFacility2 : sl2.Config.Out.Syslog.Facility = p2.1) (hLevel2 : log2.Level = q2.1) :
    (sl.handleSyslogOutput env log j w).2.1.Out.Syslog.priority % 8 = q.2 ∧
    (sl.handleSyslogOutput env log j w).2.1.Out.Syslog.priority / 8 = p.2 ∧
    (sl.handleSyslogOutput env log j w).2.1.Out.Syslog.priority % 8 ≠ LOG_EMERG ∧
    3 ≤ (sl.handleSyslogOutput env log j w).2.1.Out.Syslog.priority ∧
    (sl.handleSyslogOutput env log j w).2.1.Out.Syslog.priority ≤ 191 ∧
    ((sl.handleSyslogOutput env log j w).2.1.Out.Syslog.priority
        = (sl2.handleSyslogOutput env log2 j2 w2).2.1.Out.Syslog.priority →
      sl.Config.Out.Syslog.Facility = sl2.Config.Out.Syslog.Facility ∧
        log.Level = log2.Level) := by
  have h1 := handleSyslogOutput_stored_table env sl log j w p q hp hq hFacility hLevel
  have h2 := handleSyslogOutput_stored_table env sl2 log2 j2 w2 p2 q2 hp2 hq2 hFacility2 hLevel2
  have hb := severityTable_bounds q hq
  have hb2 := severityTable_bounds q2 hq2
  have hf := facilityTable_bounds p hp
  have he : LOG_EMERG = 0 := rfl
  rw [h1, h2, he]
  refine ⟨by omega, by omega, by omega, by omega, by omega, ?_⟩
  intro heq
  have hpe : p.2 = p2.2 := by omega
  have hqe : q.2 = q2.2 := by omega
  rw [hFacility, hFacility2, hLevel, hLevel2]
  exact ⟨facilityTable_injective p hp p2 hp2 hpe, severityTable_injective q hq q2 hq2 hqe⟩

/-- C37 (witness): local7 at info stores a priority with severity part 6 and facility
part 23. -/
theorem syslog_priority_lossless_witness :
    ((NewMangoLogger allSinksConfig).handleSyslogOutput exampleEnv
      { StructuredLog.zero with Level := LevelInfo } "j" World.init).2.1.Out.Syslog.priority
        % 8 = 6 ∧
    ((NewMangoLogger allSinksConfig).handleSyslogOutput exampleEnv
      { StructuredLog.zero with Level := LevelInfo } "j" World.init).2.1.Out.Syslog.priority
        / 8 = 23 :=
  have h := syslog_priority_lossless exampleEnv (NewMangoLogger allSinksConfig)
    (NewMangoLogger allSinksConfig) { StructuredLog.zero with Level := LevelInfo }
    { StructuredLog.zero with Level := LevelError } "j" "j" World.init World.init
    ("local7", 23) ("local7", 23) (LevelInfo, 6) (LevelError, 3)
    (by decide) (by decide) (by decide) (by decide) rfl rfl rfl rfl
  ⟨h.1, h.2.1⟩

/-! ## Attribute map of a record -/

theorem ToMap_foldl_get (l : List Attr) (m0 : GoMap GoAny) (k : String) :
    GoMap.get (l.foldl (fun result attr => GoMap.set result attr.Key attr.Value) m0) k =
      match lastWithKey l k with
      | some x => some x.Value
      | none => GoMap.get m0 k := by
  induction l generalizing m0 with
  | nil => rfl
  | cons b rest ih =>
    simp only [List.foldl_cons]
    rw [ih, GoMap.get_set, lastWithKey_cons]
    cases h : lastWithKey rest k with
    | some x => rfl
    | none =>
      by_cases hk : b.Key = k <;> simp [hk]

theorem ToMap_get (l : List Attr) (k : String) :
    GoMap.get (ToMap l) k = (lastWithKey l k).map Attr.Value := by
  unfold ToMap
  rw [ToMap_foldl_get]
  cases h : lastWithKey l k <;> simp [GoMap.get]

theorem ToMap_foldl_nodup (l : List Attr) (m0 : GoMap GoAny)
    (h : (m0.map Prod.fst).Nodup) :
    ((l.foldl (fun result attr => GoMap.set result attr.Key attr.Value) m0).map
      Prod.fst).Nodup := by
  induction l generalizing m0 with
  | nil => exact h
  | cons b rest ih =>
    simp only [List.foldl_cons]
    exact ih _ (GoMap.set_keys_nodup m0 b.Key b.Value h)

theorem ToMap_nodup (l : List Attr) : ((ToMap l).map Prod.fst).Nodup :=
  ToMap_foldl_nodup l [] (by simp)

/-- Two maps with the same lookups have the same entries. -/
theorem GoMap.perm_of_get_eq {V : Type} (m1 m2 : GoMap V)
    (h1 : (m1.map Prod.fst).Nodup) (h2 : (m2.map Prod.fst).Nodup)
    (h : ∀ k, GoMap.get m1 k = GoMap.get m2 k) : m1.Perm m2 := by
  rw [List.perm_ext_iff_of_nodup (List.Nodup.of_map _ h1) (List.Nodup.of_map _ h2)]
  rintro ⟨k, v⟩
  rw [GoMap.mem_iff_get m1 h1, GoMap.mem_iff_get m2 h2, h k]

theorem mergeAttrs_keys_nodup (env : Env) (list1 list2 : List Attr) :
    ((mergeAttrs env list1 list2).map Attr.Key).Nodup :=
  (mergeAttrs_keys_perm env list1 list2).nodup_iff.mpr (mergedMap_nodup list1 list2)

/-- In a list with distinct keys every attribute is the last one with its key. -/
theorem lastWithKey_of_nodup (m : List Attr) (hnd : (m.map Attr.Key).Nodup) (a : Attr)
    (ha : a ∈ m) : lastWithKey m a.Key = some a := by
  induction m with
  | nil => simp at ha
  | cons b rest ih =>
    simp only [List.map_cons, List.nodup_cons] at hnd
    rw [lastWithKey_cons]
    rcases List.mem_cons.mp ha with e | e
    · subst e
      have hn : lastWithKey rest a.Key = none := by
        cases hr : lastWithKey rest a.Key with
        | none => rfl
        | some x =>
          have := (lastWithKey_isSome rest a.Key).mp (by rw [hr]; rfl)
          exact absurd this hnd.1
      rw [hn]
      simp
    · rw [ih hnd.2 e]

theorem lastWithKey_mergeAttrs (env : Env) (list1 list2 : List Attr) (k : String) :
    lastWithKey (mergeAttrs env list1 list2) k = lastWithKey (list1 ++ list2) k := by
  cases h : lastWithKey (list1 ++ list2) k with
  | some a =>
    have hk := (lastWithKey_some h).1
    have hm : a ∈ mergeAttrs env list1 list2 := by
      rw [mergeAttrs_mem, hk]
      exact h
    have := lastWithKey_of_nodup _ (mergeAttrs_keys_nodup env list1 list2) a hm
    rw [hk] at this
    exact this
  | none =>
    cases hr : lastWithKey (mergeAttrs env list1 list2) k with
    | none => rfl
    | some x =>
      have hx := lastWithKey_some hr
      have := (mergeAttrs_mem env list1 list2 x).mp hx.2
      rw [hx.1, h] at this
      simp at this

theorem foldl_snoc_eq (l init : List Attr) :
    l.foldl (fun attrs attr => attrs ++ [attr]) init = init ++ l := by
  induction l generalizing init with
  | nil => simp
  | cons b rest ih => simp [ih]

theorem getAllAttrs_eq (record : Record) : getAllAttrs record = record.attrs := by
  unfold getAllAttrs
  rw [foldl_snoc_eq]
  rfl

/-- C38: converting the merged list to a map gives the same map as converting the plain
concatenation: the two maps agree at every key and hold the same entries. The map sends a
key to the value of its last occurrence in `list1` followed by `list2`, whatever order
`mergeAttrs` returned its entries in; so do the attributes of a record, with the handler
attributes for `list1` and the call attributes for `list2`. -/
theorem ToMap_mergeAttrs (env : Env) (list1 list2 : List Attr) :
    (∀ k, GoMap.get (ToMap (mergeAttrs env list1 list2)) k
      = GoMap.get (ToMap (list1 ++ list2)) k) ∧
    (ToMap (mergeAttrs env list1 list2)).Perm (ToMap (list1 ++ list2)) ∧
    (∀ k, GoMap.get (ToMap (mergeAttrs env list1 list2)) k
      = (lastWithKey (list1 ++ list2) k).map Attr.Value) ∧
    (∀ env2 : Env, ∀ k, GoMap.get (ToMap (mergeAttrs env2 list1 list2)) k
      = GoMap.get (ToMap (mergeAttrs env list1 list2)) k) ∧
    (∀ (sl : MangoLogger) (record : Record) (w : World) (k : String),
      GoMap.get (sl.makeBaseLog env record w).1.Attributes k
        = (lastWithKey (sl.attrs ++ record.attrs) k).map Attr.Value) := by
  have hget : ∀ (e : Env) (a b : List Attr) (k : String),
      GoMap.get (ToMap (mergeAttrs e a b)) k = (lastWithKey (a ++ b) k).map Attr.Value := by
    intro e a b k
    rw [ToMap_get, lastWithKey_mergeAttrs]
  have heq : ∀ k, GoMap.get (ToMap (mergeAttrs env list1 list2)) k
      = GoMap.get (ToMap (list1 ++ list2)) k := by
    intro k
    rw [hget, ToMap_get]
  refine ⟨heq, GoMap.perm_of_get_eq _ _ (ToMap_nodup _) (ToMap_nodup _) heq,
    hget env list1 list2, ?_, ?_⟩
  · intro env2 k
    rw [hget, hget]
  · intro sl record w k
    have : (sl.makeBaseLog env record w).1.Attributes
        = ToMap (mergeAttrs env sl.attrs (getAllAttrs record)) := rfl
    rw [this, hget, getAllAttrs_eq]

/-! ## The required-field list across runs -/

theorem handleRequiredFields_fields (env : Env) (sl : MangoLogger) (context : Context)
    (lo : StructuredLog) (w : World) :
    (sl.handleRequiredFields env context lo w).2.2.REQUIRED_FIELDS
      = if sl.Config.MangoConfig.CorrelationId.Strict = true
        then w.REQUIRED_FIELDS ++ [CORRELATION_ID] else w.REQUIRED_FIELDS := by
  obtain ⟨k, hk⟩ := handleRequiredFields_world env sl context lo w
  rw [hk]
  rfl

theorem buildLog_fields (env : Env) (sl : MangoLogger) (context : Context)
    (record : Record) (w : World) :
    (sl.buildLog env context record w).2.2.REQUIRED_FIELDS
      = if sl.Config.MangoConfig.CorrelationId.Strict = true
        then w.REQUIRED_FIELDS ++ [CORRELATION_ID] else w.REQUIRED_FIELDS := by
  obtain ⟨k, hk⟩ := buildLog_world env sl context record w
  rw [hk]
  rfl

theorem strictRuns_cons (r : ValidationRun) (rest : List ValidationRun) :
    strictRuns (r :: rest)
      = if r.sl.Config.MangoConfig.CorrelationId.Strict = true then strictRuns rest + 1
        else strictRuns rest := by
  unfold strictRuns
  rw [List.filter_cons]
  split_ifs <;> simp

theorem runValidations_fields (env : Env) (runs : List ValidationRun) (w : World) :
    (runValidations env runs w).REQUIRED_FIELDS
      = w.REQUIRED_FIELDS ++ List.replicate (strictRuns runs) CORRELATION_ID := by
  induction runs generalizing w with
  | nil => simp [runValidations, strictRuns]
  | cons r rest ih =>
    unfold runValidations
    rw [ih, handleRequiredFields_fields, strictRuns_cons]
    split_ifs
    · rw [List.replicate_succ, List.append_assoc, List.singleton_append]
    · rfl

/-- C36: a run of `handleRequiredFields` (and so of `buildLog`) with correlation-strict on
appends exactly one `correlationid` to the process-wide list, a run with it off leaves the
list as it is, whether or not the run ends in an error. After any sequence of runs the list
is the earlier list followed by one `correlationid` per correlation-strict run, so the
earlier entries are kept; in a process that started with the initial list it begins with
type, application, operation, every further entry is `correlationid`, and its length is 3
plus the number of correlation-strict runs. -/
theorem REQUIRED_FIELDS_invariant (env : Env) (runs : List ValidationRun) (w : World) :
    (∀ (sl : MangoLogger) (context : Context) (lo : StructuredLog) (w0 : World),
      (sl.handleRequiredFields env context lo w0).2.2.REQUIRED_FIELDS
        = if sl.Config.MangoConfig.CorrelationId.Strict = true
          then w0.REQUIRED_FIELDS ++ [CORRELATION_ID] else w0.REQUIRED_FIELDS) ∧
    (∀ (sl : MangoLogger) (context : Context) (record : Record) (w0 : World),
      (sl.buildLog env context record w0).2.2.REQUIRED_FIELDS
        = if sl.Config.MangoConfig.CorrelationId.Strict = true
          then w0.REQUIRED_FIELDS ++ [CORRELATION_ID] else w0.REQUIRED_FIELDS) ∧
    (runValidations env runs w).REQUIRED_FIELDS
      = w.REQUIRED_FIELDS ++ List.replicate (strictRuns runs) CORRELATION_ID ∧
    (runValidations env runs World.init).REQUIRED_FIELDS
      = [TYPE, APPLICATION, OPERATION] ++ List.replicate (strictRuns runs) CORRELATION_ID ∧
    (runValidations env runs World.init).REQUIRED_FIELDS.take 3
      = [TYPE, APPLICATION, OPERATION] ∧
    (∀ x ∈ (runValidations env runs World.init).REQUIRED_FIELDS.drop 3, x = CORRELATION_ID) ∧
    (runValidations env runs World.init).REQUIRED_FIELDS.length = 3 + strictRuns runs ∧
    (strictRuns runs = runs.length →
      (runValidations env runs World.init).REQUIRED_FIELDS.length = 3 + runs.length) := by
  have hinit : (runValidations env runs World.init).REQUIRED_FIELDS
      = [TYPE, APPLICATION, OPERATION] ++ List.replicate (strictRuns runs) CORRELATION_ID :=
    runValidations_fields env runs World.init
  refine ⟨handleRequiredFields_fields env, buildLog_fields env,
    runValidations_fields env runs w, hinit, ?_, ?_, ?_, ?_⟩
  · rw [hinit]
    rfl
  · rw [hinit]
    intro x hx
    have : x ∈ List.replicate (strictRuns runs) CORRELATION_ID := by simpa using hx
    exact (List.mem_replicate.mp this).2
  · rw [hinit]
    simp
    omega
  · intro h
    rw [hinit]
    simp
    omega

/-! ## Console sink: a failing transform -/

/-- Each way the transform can fail makes `formatWithGoJQ` return the empty text with the
error. -/
theorem formatWithGoJQ_failures (env : Env) (obj query : String) :
    (∀ e, env.jsonUnmarshal obj = .error e → formatWithGoJQ env obj query = ("", some e)) ∧
    (∀ v e, env.jsonUnmarshal obj = .ok v → env.gojqParse query = .error e →
      formatWithGoJQ env obj query = ("", some e)) ∧
    (∀ v q e, env.jsonUnmarshal obj = .ok v → env.gojqParse query = .ok q →
      lastResult (q v) none = .error e → formatWithGoJQ env obj query = ("", some e)) ∧
    (∀ v q r e, env.jsonUnmarshal obj = .ok v → env.gojqParse query = .ok q →
      lastResult (q v) none = .ok r → env.jsonMarshalAny r = .error e →
      formatWithGoJQ env obj query = ("", some e)) := by
  refine ⟨?_, ?_, ?_, ?_⟩
  · intro e h
    unfold formatWithGoJQ
    rw [h]
  · intro v e h1 h2
    unfold formatWithGoJQ
    rw [h1, h2]
  · intro v q e h1 h2 h3
    unfold formatWithGoJQ
    rw [h1, h2]
    simp only [h3]
  · intro v q r e h1 h2 h3 h4
    unfold formatWithGoJQ
    rw [h1, h2]
    simp only [h3, h4]

/-- Whenever `formatWithGoJQ` returns an error its text is empty. -/
theorem formatWithGoJQ_error_text (env : Env) (obj query : String) (e : GoError)
    (h : (formatWithGoJQ env obj query).2 = some e) : (formatWithGoJQ env obj query).1 = "" := by
  unfold formatWithGoJQ at h ⊢
  cases h1 : env.jsonUnmarshal obj with
  | error e1 => rfl
  | ok v =>
    rw [h1] at h
    simp only at h ⊢
    cases h2 : env.gojqParse query with
    | error e2 => rfl
    | ok q =>
      rw [h2] at h
      simp only at h ⊢
      cases h3 : lastResult (q v) none with
      | error e3 => rfl
      | ok r =>
        rw [h3] at h
        simp only at h ⊢
        cases h4 : env.jsonMarshalAny r with
        | error e4 => rfl
        | ok s =>
          rw [h4] at h
          simp at h

/-- C34 (counterexample): the serialized record is not parseable JSON, the record is an
info record and friendly mode is on; the console sink returns success and writes a line
break to standard output. -/
theorem handlePromptOutput_transform_failure_counterexample :
    (NewMangoLogger allSinksConfig).Config.Out.Cli.Friendly = true ∧
    (formatWithGoJQ unparseableEnv "not json"
      (NewMangoLogger allSinksConfig).Config.Out.Cli.FriendlyFormat).2
        = some (.errorString "invalid character") ∧
    (NewMangoLogger allSinksConfig).handlePromptOutput unparseableEnv
      { StructuredLog.zero with Level := LevelInfo } "not json" World.init
      = (none, { World.init with Stdout := ["\n"] }) ∧
    ((NewMangoLogger allSinksConfig).handlePromptOutput unparseableEnv
      { StructuredLog.zero with Level := LevelInfo } "not json" World.init).2.Stdout
      ≠ World.init.Stdout :=
  ⟨rfl, rfl, rfl, by decide⟩

/-- C34 (as amended): when the transform returns an error for a record of a recognised
level, in verbose mode for debug and in friendly mode for info, warn and error, the
console sink discards the error, prints one empty line (a lone line break) on the stream
of the level, standard output for debug and info and standard error for warn and error,
prints nothing on the other stream, and returns success; so `Handle` goes on to the file
stage and the syslog stage from that world. -/
theorem handlePromptOutput_transform_failure (env : Env) (sl : MangoLogger)
    (log : StructuredLog) (jsonOut : String) (w : World) (err : GoError)
    (hLevel : recognisedLevel log.Level)
    (hMode : if log.Level = LevelDebug then sl.Config.Out.Cli.Verbose = true
      else sl.Config.Out.Cli.Friendly = true)
    (hFail : (formatWithGoJQ env jsonOut
      (if log.Level = LevelDebug then sl.Config.Out.Cli.VerboseFormat
        else sl.Config.Out.Cli.FriendlyFormat)).2 = some err) :
    sl.handlePromptOutput env log jsonOut w
      = (none, if log.Level = LevelDebug ∨ log.Level = LevelInfo
          then { w with Stdout := w.Stdout ++ ["\n"] }
          else { w with Stderr := w.Stderr ++ ["\n"] }) ∧
    (∀ (context : Context) (record : Record) (w0 : World),
      sl.Config.Out.Enabled = true → sl.Config.Out.Cli.Enabled = true →
      sl.buildLog env context record w0 = (log, none, w) →
      jsonMarshal env log = .ok jsonOut →
      sl.Handle env context record w0 =
        match (fileStage env sl log jsonOut (sl.handlePromptOutput env log jsonOut w).2).1 with
        | some e => (some e, sl.Config,
            (fileStage env sl log jsonOut (sl.handlePromptOutput env log jsonOut w).2).2)
        | none => syslogStage env sl log jsonOut
            (fileStage env sl log jsonOut (sl.handlePromptOutput env log jsonOut w).2).2) := by
  have h1 : ¬ (LevelInfo = LevelDebug) := by decide
  have h2 : ¬ (LevelWarn = LevelDebug) := by decide
  have h3 : ¬ (LevelError = LevelDebug) := by decide
  have h4 : ¬ (LevelWarn = LevelInfo) := by decide
  have h5 : ¬ (LevelError = LevelInfo) := by decide
  have htext := formatWithGoJQ_error_text env jsonOut _ err hFail
  have hres : sl.handlePromptOutput env log jsonOut w
      = (none, if log.Level = LevelDebug ∨ log.Level = LevelInfo
          then { w with Stdout := w.Stdout ++ ["\n"] }
          else { w with Stderr := w.Stderr ++ ["\n"] }) := by
    unfold MangoLogger.handlePromptOutput World.Println World.PrintlnErr
    rcases hLevel with hl | hl | hl | hl
    · rw [hl] at hMode htext
      simp only [if_true] at hMode htext
      simp [hl, hMode, htext]
    · rw [hl] at hMode htext
      simp only [h1, if_false] at hMode htext
      simp [hl, h1, hMode, htext]
    · rw [hl] at hMode htext
      simp only [h2, if_false] at hMode htext
      simp [hl, h2, h4, hMode, htext]
    · rw [hl] at hMode htext
      simp only [h3, if_false] at hMode htext
      simp [hl, h3, h5, hMode, htext]
  refine ⟨hres, ?_⟩
  intro context record w0 hOut hCli hBuild hJson
  have hstage : consoleStage env sl log jsonOut w = sl.handlePromptOutput env log jsonOut w := by
    unfold consoleStage
    rw [if_pos hCli]
  rw [Handle_eq_stages env sl context record w0 w log jsonOut hOut (Or.inl hCli) hBuild hJson,
    hstage]
  have hnone : (sl.handlePromptOutput env log jsonOut w).1 = none := by rw [hres]
  rw [hnone]

/-- C34 (witness): the input of the counterexample. -/
theorem handlePromptOutput_transform_failure_witness :
    (NewMangoLogger allSinksConfig).handlePromptOutput unparseableEnv
      { StructuredLog.zero with Level := LevelInfo } "not json" World.init
      = (none, { World.init with Stdout := World.init.Stdout ++ ["\n"] }) :=
  (handlePromptOutput_transform_failure unparseableEnv (NewMangoLogger allSinksConfig)
    { StructuredLog.zero with Level := LevelInfo } "not json" World.init
    (.errorString "invalid character") (by unfold recognisedLevel; decide) rfl rfl).1

/-! ## File sink: the file flag -/

/-- C35: with global output on and the file sink off, `writeStringToLogFile` hands the
text and a line break to the log writer, and so does `handleFileOutput` for an info
record: the write is guarded by the global flag, not by the flag of the file sink. -/
theorem writeStringToLogFile_file_disabled :
    (NewMangoLogger fileDisabledConfig).Config.Out.Enabled = true ∧
    (NewMangoLogger fileDisabledConfig).Config.Out.File.Enabled = false ∧
    (NewMangoLogger fileDisabledConfig).writeStringToLogFile exampleEnv "hello" World.init
      = (none, { World.init with LogWriter := ["hello\n"] }) ∧
    (NewMangoLogger fileDisabledConfig).handleFileOutput exampleEnv
      { StructuredLog.zero with Level := LevelInfo, Message := .str "Should not write" }
      "Should not write" World.init
      = (none, { World.init with LogWriter := ["Should not write\n"] }) :=
  ⟨rfl, rfl, rfl, rfl⟩

/-! ## io: selecting files by extension -/

theorem GoMap.get_erase {V : Type} (m : GoMap V) (k k1 : String) :
    GoMap.get (GoMap.erase m k) k1 = if k = k1 then none else GoMap.get m k1 := by
  induction m with
  | nil => simp [GoMap.erase, GoMap.get]
  | cons p rest ih =>
    obtain ⟨k0, v0⟩ := p
    unfold GoMap.erase at ih ⊢
    rw [List.filter_cons]
    by_cases h0 : k0 = k
    · subst h0
      simp only [ne_eq, not_true_eq_false, decide_False, Bool.false_eq_true, if_false]
      rw [ih]
      by_cases h1 : k0 = k1
      · simp [h1]
      · simp [h1, GoMap.get]
    · simp only [ne_eq, h0, not_false_eq_true, decide_True, if_true]
      by_cases h1 : k0 = k1
      · subst h1
        have : ¬ (k = k0) := fun e => h0 e.symm
        simp [GoMap.get, this]
      · simp only [GoMap.get, h1, if_false]
        exact ih

theorem matchExtensions_eq (path : String) (extensions files : List String) :
    matchExtensions path extensions files
      = if Ext path ∈ extensions then files ++ [path] else files := by
  induction extensions with
  | nil => simp [matchExtensions]
  | cons ext rest ih =>
    unfold matchExtensions
    by_cases h : Ext path = ext
    · simp [h]
    · rw [if_neg h, ih]
      simp [h]

theorem selectWithExt_cons (extensions : List String) (e : WalkEntry)
    (rest : List WalkEntry) :
    selectWithExt extensions (e :: rest)
      = match e.err with
        | some _ => []
        | none =>
          (if !e.isDir && decide (Ext e.path ∈ extensions) then [e.path] else [])
            ++ selectWithExt extensions rest := by
  unfold selectWithExt
  cases he : e.err with
  | some err => simp [List.takeWhile_cons, he]
  | none =>
    simp only [List.takeWhile_cons, he, Option.isNone_none, if_true, List.filter_cons]
    split_ifs <;> simp

theorem walkCallbacks_eq (extensions : List String) (walk : List WalkEntry)
    (files : List String) :
    walkCallbacks extensions walk files
      = (files ++ selectWithExt extensions walk, firstWalkError walk) := by
  induction walk generalizing files with
  | nil => simp [walkCallbacks, selectWithExt, firstWalkError]
  | cons e rest ih =>
    unfold walkCallbacks firstWalkError
    rw [selectWithExt_cons]
    cases he : e.err with
    | some err => simp
    | none =>
      simp only
      rw [ih, matchExtensions_eq]
      cases hd : e.isDir
      · by_cases hm : Ext e.path ∈ extensions
        · simp [hm]
        · simp [hm]
      · simp

theorem firstWalkError_none (walk : List WalkEntry) (h : ∀ e ∈ walk, e.err = none) :
    firstWalkError walk = none := by
  induction walk with
  | nil => rfl
  | cons e rest ih =>
    unfold firstWalkError
    rw [h e (List.mem_cons_self _ _)]
    exact ih (fun x hx => h x (List.mem_cons_of_mem _ hx))

theorem takeWhile_all (walk : List WalkEntry) (h : ∀ e ∈ walk, e.err = none) :
    walk.takeWhile (fun e => e.err.isNone) = walk := by
  induction walk with
  | nil => rfl
  | cons e rest ih =>
    rw [List.takeWhile_cons]
    simp only [h e (List.mem_cons_self _ _), Option.isNone_none, if_true]
    rw [ih (fun x hx => h x (List.mem_cons_of_mem _ hx))]

theorem extLoop_cons (c : Char) (before after : List Char) :
    extLoop (c :: before) after
      = if c = '/' then [] else if c = '.' then '.' :: after
        else extLoop before (c :: after) := rfl

/-- The loop of `filepath.Ext` passes over bytes that are neither a dot nor a
separator. -/
theorem extLoop_skip (r rest after : List Char)
    (h : ∀ c ∈ r, c ≠ '.' ∧ c ≠ '/') :
    extLoop (r ++ rest) after = extLoop rest (r.reverse ++ after) := by
  induction r generalizing after with
  | nil => rfl
  | cons c r ih =>
    have hc := h c (List.mem_cons_self _ _)
    rw [List.cons_append, extLoop_cons, if_neg hc.2, if_neg hc.1,
      ih _ (fun x hx => h x (List.mem_cons_of_mem _ hx))]
    simp

/-- The extension of a path that ends in a dot followed by bytes without dot and
separator is that dot and those bytes. -/
theorem Ext_of_last_dot (pre suf : List Char) (h : ∀ c ∈ suf, c ≠ '.' ∧ c ≠ '/') :
    Ext (String.mk (pre ++ '.' :: suf)) = String.mk ('.' :: suf) := by
  unfold Ext
  have hr : (String.mk (pre ++ '.' :: suf)).toList.reverse
      = suf.reverse ++ ('.' :: pre.reverse) := by
    simp [String.toList]
  rw [hr, extLoop_skip _ _ _ (fun c hc => h c (List.mem_reverse.mp hc))]
  simp [extLoop]

/-- Removing files one by one: when it succeeds, exactly the listed files are gone. -/
theorem deleteFiles_success (env : IoEnv) (files : List String) (fs : Files)
    (h : (deleteFiles env files fs).1 = none) :
    ∀ p, GoMap.get (deleteFiles env files fs).2 p
      = if p ∈ files then none else GoMap.get fs p := by
  induction files generalizing fs with
  | nil =>
    intro p
    simp [deleteFiles]
  | cons f rest ih =>
    intro p
    unfold deleteFiles at h ⊢
    unfold removeFile at h ⊢
    cases hg : GoMap.get fs f with
    | none =>
      rw [hg] at h
      simp at h
    | some c =>
      rw [hg] at h
      simp only at h ⊢
      cases hr : env.removeErr fs f with
      | some err =>
        rw [hr] at h
        simp at h
      | none =>
        rw [hr] at h
        simp only at h ⊢
        rw [ih _ h p, GoMap.get_erase]
        by_cases hp : p ∈ rest
        · simp [hp]
        · by_cases hf : f = p
          · simp [hf]
          · have : ¬ (p = f) := fun e => hf e.symm
            simp [hp, hf, this]

/-- C32: `getFilesWithExt` returns, in walk order and once per call of the walk, the
paths the walk reached before its first error that are not directories and whose final
extension, the suffix from the last dot of the file name on, is one of the listed
extensions, together with that first error. For a walk without errors these are all such
paths of the walk; repeating an extension in the list changes nothing, distinct walk paths
give distinct files, and `name.txt.bak` has extension `.bak` and is not selected by
`.txt`. `DeleteFileWithExt`, when it succeeds, removes exactly the selected files. -/
theorem getFilesWithExt_spec (env : IoEnv) (fs : Files) (dir : String)
    (extensions : List String) :
    getFilesWithExt env fs dir extensions
      = (selectWithExt extensions (env.walk fs dir), firstWalkError (env.walk fs dir)) ∧
    ((∀ e ∈ env.walk fs dir, e.err = none) →
      getFilesWithExt env fs dir extensions
        = (((env.walk fs dir).filter
            (fun e => !e.isDir && decide (Ext e.path ∈ extensions))).map (fun e => e.path),
          none)) ∧
    (∀ p, p ∈ (getFilesWithExt env fs dir extensions).1 ↔
      ∃ e ∈ (env.walk fs dir).takeWhile (fun e => e.err.isNone),
        e.path = p ∧ e.isDir = false ∧ Ext p ∈ extensions) ∧
    (∀ ext : String, getFilesWithExt env fs dir (ext :: ext :: extensions)
      = getFilesWithExt env fs dir (ext :: extensions)) ∧
    (((env.walk fs dir).map (fun e => e.path)).Nodup →
      (getFilesWithExt env fs dir extensions).1.Nodup) ∧
    (∀ pre suf : List Char, (∀ c ∈ suf, c ≠ '.' ∧ c ≠ '/') →
      Ext (String.mk (pre ++ '.' :: suf)) = String.mk ('.' :: suf)) ∧
    Ext "name.txt.bak" = ".bak" ∧
    (∀ (fs0 : Files) (d : String),
      env.walk fs0 d = [{ path := "name.txt.bak", isDir := false, err := none }] →
      getFilesWithExt env fs0 d [".txt"] = ([], none)) ∧
    ((DeleteFileWithExt env dir extensions fs).1 = none →
      ∀ p, GoMap.get (DeleteFileWithExt env dir extensions fs).2 p
        = if p ∈ (getFilesWithExt env fs dir extensions).1 then none else GoMap.get fs p) := by
  have hsel : ∀ (exts : List String) (fs0 : Files) (d : String),
      getFilesWithExt env fs0 d exts
        = (selectWithExt exts (env.walk fs0 d), firstWalkError (env.walk fs0 d)) := by
    intro exts fs0 d
    unfold getFilesWithExt
    rw [walkCallbacks_eq]
    simp
  refine ⟨hsel _ _ _, ?_, ?_, ?_, ?_, Ext_of_last_dot, by decide, ?_, ?_⟩
  · intro h
    rw [hsel, firstWalkError_none _ h]
    unfold selectWithExt
    rw [takeWhile_all _ h]
  · intro p
    rw [hsel]
    unfold selectWithExt
    simp only [List.mem_map, List.mem_filter, Bool.and_eq_true, Bool.not_eq_true',
      decide_eq_true_eq]
    constructor
    · rintro ⟨e, ⟨he, hd, hx⟩, rfl⟩
      exact ⟨e, he, rfl, hd, hx⟩
    · rintro ⟨e, he, rfl, hd, hx⟩
      exact ⟨e, ⟨he, hd, hx⟩, rfl⟩
  · intro ext
    rw [hsel, hsel]
    unfold selectWithExt
    simp
  · intro hnd
    rw [hsel]
    unfold selectWithExt
    exact ((hnd.sublist ((List.takeWhile_sublist _).map _)).sublist
      ((List.filter_sublist _).map _))
  · intro fs0 d hw
    rw [hsel, hw]
    decide
  · intro h p
    unfold DeleteFileWithExt at h ⊢
    rw [hsel] at h ⊢
    cases he : firstWalkError (env.walk fs dir) with
    | some err =>
      rw [he] at h
      simp at h
    | none =>
      rw [he] at h
      simp only at h ⊢
      exact deleteFiles_success env _ fs h p

/-! ## io: restoring backups -/

/-- A non-empty result of the loop of `filepath.Ext` is a suffix of the path. -/
theorem extLoop_suffix (r after res : List Char) (h : extLoop r after = res)
    (hne : res ≠ []) : ∃ pre, r.reverse ++ after = pre ++ res := by
  induction r generalizing after with
  | nil =>
    rw [show extLoop [] after = [] from rfl] at h
    exact absurd h.symm hne
  | cons c before ih =>
    rw [extLoop_cons] at h
    by_cases h1 : c = '/'
    · rw [if_pos h1] at h
      exact absurd h.symm hne
    · rw [if_neg h1] at h
      by_cases h2 : c = '.'
      · rw [if_pos h2] at h
        refine ⟨before.reverse, ?_⟩
        rw [← h, List.reverse_cons, List.append_assoc, h2]
        rfl
      · rw [if_neg h2] at h
        obtain ⟨pre, hp⟩ := ih (c :: after) h
        refine ⟨pre, ?_⟩
        rw [List.reverse_cons, List.append_assoc]
        exact hp

/-- A path with extension `.bak` is its trimmed name followed by `.bak`. -/
theorem TrimSuffix_of_Ext (f : String) (h : Ext f = ".bak") :
    f = TrimSuffix f ".bak" ++ ".bak" := by
  have h1 : extLoop f.toList.reverse [] = ".bak".toList := by
    have := congrArg String.toList h
    exact this
  obtain ⟨pre, hp⟩ := extLoop_suffix _ _ _ h1 (by decide)
  rw [List.reverse_reverse, List.append_nil] at hp
  have hsuf : (".bak".toList).isSuffixOf f.toList = true := by
    rw [List.isSuffixOf_iff_suffix]
    exact ⟨pre, hp.symm⟩
  unfold TrimSuffix
  rw [if_pos hsuf]
  apply String.ext
  rw [String.data_append]
  show f.toList = List.take (f.toList.length - ".bak".toList.length) f.toList ++ ".bak".toList
  rw [hp]
  simp

/-- Trimming `.bak` is one-to-one on paths with extension `.bak`. -/
theorem TrimSuffix_injective (f g : String) (hf : Ext f = ".bak") (hg : Ext g = ".bak")
    (h : TrimSuffix f ".bak" = TrimSuffix g ".bak") : f = g := by
  rw [TrimSuffix_of_Ext f hf, TrimSuffix_of_Ext g hg, h]

/-- A successful copy: the source exists and the destination ends with its content (the
empty content when source and destination are the same file); other files keep theirs. -/
theorem copyFile_success (env : IoEnv) (dest source : String) (fs : Files)
    (h : (copyFile env dest source fs).1 = none) :
    ∃ c, GoMap.get fs source = some c ∧
      ∀ p, GoMap.get (copyFile env dest source fs).2 p =
        if dest = p then some (if dest = source then "" else c) else GoMap.get fs p := by
  unfold copyFile at h ⊢
  cases hg : GoMap.get fs source with
  | none =>
    rw [hg] at h
    simp at h
  | some c =>
    rw [hg] at h
    simp only at h ⊢
    cases ho : env.openErr fs source with
    | some err =>
      rw [ho] at h
      simp at h
    | none =>
      rw [ho] at h
      simp only at h ⊢
      cases hc : env.createErr fs dest with
      | some err =>
        rw [hc] at h
        simp at h
      | none =>
        rw [hc] at h
        simp only at h ⊢
        cases hy : env.copyErr (GoMap.set fs dest "") dest source with
        | some ew =>
          rw [hy] at h
          simp at h
        | none =>
          refine ⟨c, rfl, ?_⟩
          intro p
          simp only [GoMap.get_set, hg]
          by_cases hp : dest = p
          · subst hp
            by_cases hs : dest = source <;> simp [hs]
          · simp [hp]

/-- A copy, failed or not, removes no file. -/
theorem copyFile_keeps (env : IoEnv) (dest source : String) (fs : Files) (p : String)
    (h : (GoMap.get fs p).isSome = true) :
    (GoMap.get (copyFile env dest source fs).2 p).isSome = true := by
  unfold copyFile
  cases GoMap.get fs source with
  | none => exact h
  | some c =>
    simp only
    cases env.openErr fs source with
    | some err => exact h
    | none =>
      simp only
      cases env.createErr fs dest with
      | some err => exact h
      | none =>
        simp only
        cases env.copyErr (GoMap.set fs dest "") dest source with
        | some ew =>
          simp only [GoMap.get_set]
          by_cases hp : dest = p <;> simp [hp, h]
        | none =>
          simp only [GoMap.get_set]
          by_cases hp : dest = p <;> simp [hp, h]

theorem restoreLoop_cons (env : IoEnv) (file : String) (rest : List String) (fs : Files) :
    restoreLoop env (file :: rest) fs =
      match copyFile env (TrimSuffix file ".bak") file fs with
      | (some err, fs1) => (some err, fs1)
      | (none, fs1) => restoreLoop env rest fs1 := rfl

/-- The copy loop, failed or not, removes no file. -/
theorem restoreLoop_keeps (env : IoEnv) (files : List String) (fs : Files) (p : String)
    (h : (GoMap.get fs p).isSome = true) :
    (GoMap.get (restoreLoop env files fs).2 p).isSome = true := by
  induction files generalizing fs with
  | nil => exact h
  | cons f rest ih =>
    rw [restoreLoop_cons]
    have hk := copyFile_keeps env (TrimSuffix f ".bak") f fs p h
    rcases hr : copyFile env (TrimSuffix f ".bak") f fs with ⟨e, fs1⟩
    rw [hr] at hk
    cases e with
    | some err => exact hk
    | none => exact ih fs1 hk

/-- The copy loop when it succeeds, for files none of whose restored names is one of the
files and whose restored names are distinct. -/
theorem restoreLoop_success (env : IoEnv) (files : List String) (fs : Files)
    (h : (restoreLoop env files fs).1 = none)
    (hnot : ∀ f ∈ files, TrimSuffix f ".bak" ∉ files)
    (hnd : (files.map (fun f => TrimSuffix f ".bak")).Nodup) :
    (∀ f ∈ files, ∃ c, GoMap.get fs f = some c ∧
      GoMap.get (restoreLoop env files fs).2 (TrimSuffix f ".bak") = some c) ∧
    (∀ p, p ∉ files.map (fun f => TrimSuffix f ".bak") →
      GoMap.get (restoreLoop env files fs).2 p = GoMap.get fs p) := by
  induction files generalizing fs with
  | nil =>
    refine ⟨?_, ?_⟩
    · intro f hf
      simp at hf
    · intro p _
      rfl
  | cons f rest ih =>
    rw [restoreLoop_cons] at h ⊢
    rcases hr : copyFile env (TrimSuffix f ".bak") f fs with ⟨e, fs1⟩
    rw [hr] at h
    cases e with
    | some err => simp at h
    | none =>
      simp only at h ⊢
      have hcs := copyFile_success env (TrimSuffix f ".bak") f fs (by rw [hr])
      rw [hr] at hcs
      obtain ⟨c, hc, hget⟩ := hcs
      simp only at hget
      have hne : ¬ (TrimSuffix f ".bak" = f) := fun e =>
        hnot f (List.mem_cons_self _ _) (by rw [e]; exact List.mem_cons_self _ _)
      simp only [List.map_cons, List.nodup_cons] at hnd
      have hnot2 : ∀ g ∈ rest, TrimSuffix g ".bak" ∉ rest := fun g hg hm =>
        hnot g (List.mem_cons_of_mem _ hg) (List.mem_cons_of_mem _ hm)
      obtain ⟨hA, hB⟩ := ih fs1 h hnot2 hnd.2
      have hfs1 : ∀ g ∈ rest, GoMap.get fs1 g = GoMap.get fs g := by
        intro g hg
        rw [hget g]
        have : ¬ (TrimSuffix f ".bak" = g) := fun e =>
          hnot f (List.mem_cons_self _ _) (by rw [e]; exact List.mem_cons_of_mem _ hg)
        rw [if_neg this]
      refine ⟨?_, ?_⟩
      · intro g hg
        rcases List.mem_cons.mp hg with e | hg2
        · subst e
          refine ⟨c, hc, ?_⟩
          rw [hB _ hnd.1, hget, if_pos rfl, if_neg hne]
        · obtain ⟨c2, hc2, hr2⟩ := hA g hg2
          exact ⟨c2, by rw [← hfs1 g hg2]; exact hc2, hr2⟩
      · intro p hp
        simp only [List.map_cons, List.mem_cons, not_or] at hp
        rw [hB p hp.2, hget p]
        have : ¬ (TrimSuffix f ".bak" = p) := fun e => hp.1 e.symm
        rw [if_neg this]

/-- A successful run of `deleteFiles` removed distinct files. -/
theorem deleteFiles_nodup (env : IoEnv) (files : List String) (fs : Files)
    (h : (deleteFiles env files fs).1 = none) :
    files.Nodup ∧ ∀ f ∈ files, (GoMap.get fs f).isSome = true := by
  induction files generalizing fs with
  | nil => simp
  | cons f rest ih =>
    unfold deleteFiles at h
    unfold removeFile at h
    cases hg : GoMap.get fs f with
    | none =>
      rw [hg] at h
      simp at h
    | some c =>
      rw [hg] at h
      simp only at h
      cases hr : env.removeErr fs f with
      | some err =>
        rw [hr] at h
        simp at h
      | none =>
        rw [hr] at h
        simp only at h
        obtain ⟨hnd, hex⟩ := ih _ h
        have hf : f ∉ rest := by
          intro hm
          have := hex f hm
          rw [GoMap.get_erase, if_pos rfl] at this
          simp at this
        refine ⟨List.nodup_cons.mpr ⟨hf, hnd⟩, ?_⟩
        intro g hg2
        rcases List.mem_cons.mp hg2 with e | hg3
        · rw [e, hg]
          rfl
        · have := hex g hg3
          rw [GoMap.get_erase] at this
          by_cases hfg : f = g
          · rw [if_pos hfg] at this
            simp at this
          · rw [if_neg hfg] at this
            exact this

/-- Every file `getFilesWithExt` returns has one of the listed extensions. -/
theorem getFilesWithExt_ext (env : IoEnv) (fs : Files) (dir : String)
    (extensions : List String) :
    ∀ f ∈ (getFilesWithExt env fs dir extensions).1, Ext f ∈ extensions := by
  intro f hf
  unfold getFilesWithExt at hf
  rw [walkCallbacks_eq] at hf
  simp only [List.nil_append] at hf
  unfold selectWithExt at hf
  simp only [List.mem_map, List.mem_filter, Bool.and_eq_true, decide_eq_true_eq] at hf
  obtain ⟨e, ⟨_, _, hx⟩, rfl⟩ := hf
  exact hx


/-- C33 (counterexample): the directory holds `a.bak` and `a.bak.bak`. Every copy and
removal succeeds; `a.bak.bak` is restored into `a.bak`, which is then removed with the
other backup, so no file `a.bak` with the content of `a.bak.bak` is left. -/
theorem RestoreAllBakFiles_counterexample :
    (getFilesWithExt exampleIoEnv [("d/a.bak", "1"), ("d/a.bak.bak", "2")] "d" [".bak"]).1
      = ["d/a.bak", "d/a.bak.bak"] ∧
    TrimSuffix "d/a.bak.bak" ".bak" = "d/a.bak" ∧
    RestoreAllBakFiles exampleIoEnv "d" [("d/a.bak", "1"), ("d/a.bak.bak", "2")]
      = (none, [("d/a", "1")]) ∧
    GoMap.get
      (RestoreAllBakFiles exampleIoEnv "d" [("d/a.bak", "1"), ("d/a.bak.bak", "2")]).2
      "d/a.bak" = none := by
  decide

/-- C33 (as amended): let `files` be the `.bak` files found under the directory; each is
its restored name followed by `.bak`. When `RestoreAllBakFiles` succeeds, that is the walk
and every copy and removal succeeded, and no restored name is itself one of the files
found, then for each file found its restored name is a file with the content the `.bak`
file had, whatever it held before, every file found is gone, and every other file has
the content it had. When a copy fails, `RestoreAllBakFiles` returns that error and every
file that existed, the `.bak` files included, still exists. -/
theorem RestoreAllBakFiles_spec (env : IoEnv) (dir : String) (fs : Files) :
    (∀ f ∈ (getFilesWithExt env fs dir [".bak"]).1, f = TrimSuffix f ".bak" ++ ".bak") ∧
    ((RestoreAllBakFiles env dir fs).1 = none →
      (∀ f ∈ (getFilesWithExt env fs dir [".bak"]).1,
        TrimSuffix f ".bak" ∉ (getFilesWithExt env fs dir [".bak"]).1) →
      (∀ f ∈ (getFilesWithExt env fs dir [".bak"]).1, ∃ c, GoMap.get fs f = some c ∧
        GoMap.get (RestoreAllBakFiles env dir fs).2 (TrimSuffix f ".bak") = some c) ∧
      (∀ f ∈ (getFilesWithExt env fs dir [".bak"]).1,
        GoMap.get (RestoreAllBakFiles env dir fs).2 f = none) ∧
      (∀ p, p ∉ (getFilesWithExt env fs dir [".bak"]).1 →
        p ∉ (getFilesWithExt env fs dir [".bak"]).1.map (fun f => TrimSuffix f ".bak") →
        GoMap.get (RestoreAllBakFiles env dir fs).2 p = GoMap.get fs p)) ∧
    (∀ (err : GoError) (fs1 : Files), (getFilesWithExt env fs dir [".bak"]).2 = none →
      restoreLoop env (getFilesWithExt env fs dir [".bak"]).1 fs = (some err, fs1) →
      RestoreAllBakFiles env dir fs = (some err, fs1) ∧
      ∀ p, (GoMap.get fs p).isSome = true → (GoMap.get fs1 p).isSome = true) := by
  have hext : ∀ f ∈ (getFilesWithExt env fs dir [".bak"]).1, Ext f = ".bak" := by
    intro f hf
    have := getFilesWithExt_ext env fs dir [".bak"] f hf
    simpa using this
  refine ⟨fun f hf => TrimSuffix_of_Ext f (hext f hf), ?_, ?_⟩
  · intro hsucc hnot
    rcases hw : getFilesWithExt env fs dir [".bak"] with ⟨files, werr⟩
    rw [hw] at hext hnot
    simp only at hext hnot ⊢
    unfold RestoreAllBakFiles at hsucc ⊢
    rw [hw] at hsucc ⊢
    cases werr with
    | some e => simp at hsucc
    | none =>
      simp only at hsucc ⊢
      unfold restoreBakFiles at hsucc ⊢
      rcases hl : restoreLoop env files fs with ⟨e, fs1⟩
      rw [hl] at hsucc
      cases e with
      | some e => simp at hsucc
      | none =>
        simp only at hsucc ⊢
        obtain ⟨hnd, _⟩ := deleteFiles_nodup env files fs1 hsucc
        have hdel := deleteFiles_success env files fs1 hsucc
        have hnd2 : (files.map (fun f => TrimSuffix f ".bak")).Nodup := by
          apply List.Nodup.map_on _ hnd
          intro x hx y hy hxy
          exact TrimSuffix_injective x y (hext x hx) (hext y hy) hxy
        have hloop := restoreLoop_success env files fs (by rw [hl]) hnot hnd2
        rw [hl] at hloop
        simp only at hloop
        obtain ⟨hA, hB⟩ := hloop
        refine ⟨?_, ?_, ?_⟩
        · intro f hf
          obtain ⟨c, hc, hr⟩ := hA f hf
          refine ⟨c, hc, ?_⟩
          rw [hdel, if_neg (hnot f hf)]
          exact hr
        · intro f hf
          rw [hdel, if_pos hf]
        · intro p hp1 hp2
          rw [hdel, if_neg hp1]
          exact hB p hp2
  · intro err fs1 hwalk hl
    rcases hw : getFilesWithExt env fs dir [".bak"] with ⟨files, werr⟩
    rw [hw] at hwalk hl
    simp only at hwalk hl
    subst hwalk
    refine ⟨?_, ?_⟩
    · unfold RestoreAllBakFiles
      rw [hw]
      simp only
      unfold restoreBakFiles
      rw [hl]
    · intro p hp
      have := restoreLoop_keeps env files fs p hp
      rw [hl] at this
      exact this

/-- C33 (witness): the directory of
`TestRestoreAllBakFilesWhenExistingOriginalFileWithDifferentContent`. -/
theorem RestoreAllBakFiles_spec_witness :
    ∃ c, GoMap.get [("d/a.txt", "my original data"), ("d/a.txt.bak", "my backedup data"),
        ("d/c.tmp", "x")] "d/a.txt.bak" = some c ∧
      GoMap.get (RestoreAllBakFiles exampleIoEnv "d"
        [("d/a.txt", "my original data"), ("d/a.txt.bak", "my backedup data"),
          ("d/c.tmp", "x")]).2 (TrimSuffix "d/a.txt.bak" ".bak") = some c :=
  ((RestoreAllBakFiles_spec exampleIoEnv "d"
    [("d/a.txt", "my original data"), ("d/a.txt.bak", "my backedup data"),
      ("d/c.tmp", "x")]).2.1 (by decide) (by decide)).1 "d/a.txt.bak" (by decide)

end Mango
